import Mathlib

/-!
# Array container of CRoaring (`src/containers/array.c`)

A shallow embedding of the sorted-array container: its growth policy, the
branchless binary search, `add` / `remove` / `contains`, the merge-based union
and the scalar intersection routines, followed by theorems about them.

Conventions of the embedding.

* `int32_t` variables are `Int`. The products (`capacity * 2`, `spansize << 1`,
  `lenset1 * thres`, ...) and the sum `capacity + 1`, which can leave the
  `int32_t` range, are reduced with `wrap32`; sums and differences of buffer
  positions are exact.
* `uint16_t` values are `Nat`; the code only compares and copies them.
* A pointer to `uint16_t` is a function `Int → Nat` from slot index to content.
  A heap block also records the number of bytes that were requested for it.
  Slots outside the block hold unspecified values.
* The allocator is assumed to succeed. The unspecified content of memory it
  hands out is an explicit argument `fresh`.
* Every C loop is a structurally recursive function on a step budget that the
  caller sets from the lengths involved; the budget is shown to be sufficient
  where a result is claimed.
-/

namespace CRoaring

/-! ## Machine integers and memory -/

/-- Largest `int32_t`. -/
def INT32_MAX : Int := 2147483647

/-- Two's complement reduction of an integer to the `int32_t` range. -/
def wrap32 (z : Int) : Int := (z + 2147483648) % 4294967296 - 2147483648

/-- The constant of `enum{DEFAULT_INIT_SIZE = 16}`. -/
def DEFAULT_INIT_SIZE : Int := 16

/-- A heap block of `uint16_t` slots: `size` is the number of bytes requested
from the allocator, `data` the content of each slot. Slot `i` lies inside the
block when `0 ≤ i` and `2 * i + 2 ≤ size`. -/
structure heap_block where
  size : Nat
  data : Int → Nat

/-- Successful `malloc(n)`: a block of `n` bytes with unspecified content. -/
def malloc (n : Int) (fresh : Int → Nat) : heap_block :=
  { size := n.toNat, data := fresh }

/-- Successful `realloc(p, n)`: the slots that lie inside both the old and the
new block keep their content, all other slots are unspecified. -/
def realloc (p : heap_block) (n : Int) (fresh : Int → Nat) : heap_block :=
  { size := n.toNat
    data := fun i => if 0 ≤ i ∧ 2 * i + 2 ≤ min (p.size : Int) n then p.data i else fresh i }

/-- The effect of `memmove(a + dst, a + src, n * sizeof(uint16_t))` on the
slots of `a`. The count `n` is never negative on the containers considered
here; a negative one moves nothing. -/
def memmove (a : Int → Nat) (dst src : Int) (n : Int) : Int → Nat :=
  fun i => if dst ≤ i ∧ i < dst + n then a (src + (i - dst)) else a i

/-- The effect of `memcpy(b + dst, a + src, n * sizeof(uint16_t))` on the
slots of `b`, for `a` and `b` in distinct blocks. -/
def memcpy (b : Int → Nat) (dst : Int) (a : Int → Nat) (src : Int) (n : Int) : Int → Nat :=
  fun i => if dst ≤ i ∧ i < dst + n then a (src + (i - dst)) else b i

/-- The assignment `a[k] = v`. -/
def store (a : Int → Nat) (k : Int) (v : Nat) : Int → Nat :=
  fun i => if i = k then v else a i

/-! ## The container -/

/-- The type `array_container_t` of `array.h`. -/
structure array_container_t where
  cardinality : Int
  capacity : Int
  array : heap_block

/-- The first `n` slots of a buffer, as a list. -/
def prefixOf (a : Int → Nat) (n : Int) : List Nat :=
  (List.range n.toNat).map (fun (i : Nat) => a (i : Int))

/-- The live prefix `values[0..cardinality)` of a container. -/
def live (arr : array_container_t) : List Nat :=
  prefixOf arr.array.data arr.cardinality

/-- Function `array_container_create`, for successful allocations. -/
def array_container_create (fresh : Int → Nat) : array_container_t :=
  { cardinality := 0
    capacity := DEFAULT_INIT_SIZE
    array := malloc (2 * DEFAULT_INIT_SIZE) fresh }

/-! ## Binary search (the `BRANCHLESSBINSEARCH` variant, which is the one compiled) -/

/-- The loop `while(n>1)` of `binarySearch`; `base` is the offset of the
pointer `base` from `source`. Returns the final offset. -/
def binarySearch_loop (source : Int → Nat) (target : Nat) : Nat → Int → Int → Int
  | 0, base, _ => base
  | fuel + 1, base, n =>
    if n > 1 then
      let half := n / 2
      let base := if source (base + half) < target then base + half else base
      binarySearch_loop source target fuel base (n - half)
    else base

/-- Function `binarySearch`. -/
def binarySearch (source : Int → Nat) (n : Int) (target : Nat) : Int :=
  if n = 0 then -1
  else
    let base := binarySearch_loop source target n.toNat 0 n
    let base := base + (if source base < target then 1 else 0)
    if source base = target then base else -base - 1

/-- Function `array_container_contains`. -/
def array_container_contains (arr : array_container_t) (x : Nat) : Bool :=
  let loc := binarySearch arr.array.data arr.cardinality x
  decide (loc ≥ 0)

/-! ## Growth policy and mutation -/

/-- Function `increaseCapacity`, for successful allocations. The products can
leave the `int32_t` range and are reduced with `wrap32`; `/` of C truncates. -/
def increaseCapacity (arr : array_container_t) (min max : Int) (copy : Bool)
    (fresh : Int → Nat) : array_container_t :=
  let newCapacity : Int :=
    if arr.capacity = 0 then DEFAULT_INIT_SIZE
    else if arr.capacity < 64 then wrap32 (arr.capacity * 2)
    else if arr.capacity < 1024 then (wrap32 (arr.capacity * 3)).tdiv 2
    else (wrap32 (arr.capacity * 5)).tdiv 4
  let newCapacity := if newCapacity < min then min else newCapacity
  let newCapacity := if newCapacity > max then max else newCapacity
  let newCapacity := if newCapacity < max - max.tdiv 16 then max else newCapacity
  { cardinality := arr.cardinality
    capacity := newCapacity
    array := if copy then realloc arr.array newCapacity fresh else malloc newCapacity fresh }

/-- Function `append`. -/
def append (arr : array_container_t) (i : Nat) (fresh : Int → Nat) : array_container_t :=
  let arr :=
    if arr.cardinality = arr.capacity then
      increaseCapacity arr (wrap32 (arr.capacity + 1)) INT32_MAX true fresh
    else arr
  { cardinality := arr.cardinality + 1
    capacity := arr.capacity
    array := { size := arr.array.size, data := store arr.array.data arr.cardinality i } }

/-- Function `array_container_add`: the returned flag and the container after
the call. -/
def array_container_add (arr : array_container_t) (x : Nat) (fresh : Int → Nat) :
    Bool × array_container_t :=
  if (arr.cardinality > 0 ∧ arr.array.data (arr.cardinality - 1) < x) ∨ arr.cardinality = 0 then
    (true, append arr x fresh)
  else
    let loc := binarySearch arr.array.data arr.cardinality x
    if loc < 0 then
      let arr :=
        if arr.capacity = arr.capacity then
          increaseCapacity arr (wrap32 (arr.capacity + 1)) INT32_MAX true fresh
        else arr
      let i := -loc - 1
      let data := memmove arr.array.data (i + 1) i (arr.cardinality - i)
      let data := store data i x
      (true, { cardinality := arr.cardinality + 1
               capacity := arr.capacity
               array := { size := arr.array.size, data := data } })
    else (false, arr)

/-- Function `array_container_remove`: the returned flag and the container
after the call. -/
def array_container_remove (arr : array_container_t) (x : Nat) : Bool × array_container_t :=
  let loc := binarySearch arr.array.data arr.cardinality x
  if loc ≥ 0 then
    let data := memmove arr.array.data loc (loc + 1) (arr.cardinality - loc)
    (true, { cardinality := arr.cardinality - 1
             capacity := arr.capacity
             array := { size := arr.array.size, data := data } })
  else (false, arr)

/-! ## Union -/

/-- The loop `while(1)` of `union2by2`: returns `pos` and the output buffer. -/
def union2by2_loop (set1 : Int → Nat) (lenset1 : Int) (set2 : Int → Nat) (lenset2 : Int) :
    Nat → (Int → Nat) → Int → Int → Int → Nat → Nat → Int × (Int → Nat)
  | 0, buffer, pos, _, _, _, _ => (pos, buffer)
  | fuel + 1, buffer, pos, k1, k2, s1, s2 =>
    if s1 < s2 then
      let buffer := store buffer pos s1
      let pos := pos + 1
      let k1 := k1 + 1
      if k1 ≥ lenset1 then
        (pos + (lenset2 - k2), memcpy buffer pos set2 k2 (lenset2 - k2))
      else union2by2_loop set1 lenset1 set2 lenset2 fuel buffer pos k1 k2 (set1 k1) s2
    else if s1 = s2 then
      let buffer := store buffer pos s1
      let pos := pos + 1
      let k1 := k1 + 1
      let k2 := k2 + 1
      if k1 ≥ lenset1 then
        (pos + (lenset2 - k2), memcpy buffer pos set2 k2 (lenset2 - k2))
      else if k2 ≥ lenset2 then
        (pos + (lenset1 - k1), memcpy buffer pos set1 k1 (lenset1 - k1))
      else union2by2_loop set1 lenset1 set2 lenset2 fuel buffer pos k1 k2 (set1 k1) (set2 k2)
    else
      let buffer := store buffer pos s2
      let pos := pos + 1
      let k2 := k2 + 1
      if k2 ≥ lenset2 then
        (pos + (lenset1 - k1), memcpy buffer pos set1 k1 (lenset1 - k1))
      else union2by2_loop set1 lenset1 set2 lenset2 fuel buffer pos k1 k2 s1 (set2 k2)

/-- Function `union2by2`: the returned length and the output buffer. Every
iteration of the loop advances `k1` or `k2`, so `lenset1 + lenset2` steps
suffice. -/
def union2by2 (set1 : Int → Nat) (lenset1 : Int) (set2 : Int → Nat) (lenset2 : Int)
    (buffer : Int → Nat) : Int × (Int → Nat) :=
  if 0 = lenset2 then (lenset1, memcpy buffer 0 set1 0 lenset1)
  else if 0 = lenset1 then (lenset2, memcpy buffer 0 set2 0 lenset2)
  else
    union2by2_loop set1 lenset1 set2 lenset2 (lenset1 + lenset2).toNat buffer 0 0 0
      (set1 0) (set2 0)

/-- Function `array_container_union`; `arrayout` is a block distinct from
both inputs. -/
def array_container_union (array1 array2 arrayout : array_container_t) (fresh : Int → Nat) :
    array_container_t :=
  let totc := array1.cardinality + array2.cardinality
  let arrayout :=
    if arrayout.capacity < totc then increaseCapacity arrayout totc INT32_MAX false fresh
    else arrayout
  let r := union2by2 array1.array.data array1.cardinality array2.array.data array2.cardinality
    arrayout.array.data
  { cardinality := r.1
    capacity := arrayout.capacity
    array := { size := arrayout.array.size, data := r.2 } }

/-! ## Scalar intersection (the build without `USEAVX`)

The loops of this part leave through `==` tests on the lengths, so their
termination depends on the arguments. They return `none` when the step budget
is used up. -/

/-- The two inner loops `while(true)` of `localintersect2by2`, which step one
cursor forward until its element reaches `bound`. Result `some none`: the
cursor met `len` (the code returns `pos`); `some (some (k, s))`: the loop left
through `break` with cursor `k` on the element `s`. -/
def localintersect2by2_skip (set : Int → Nat) (len : Int) (bound : Nat) :
    Nat → Int → Option (Option (Int × Nat))
  | 0, _ => none
  | fuel + 1, k =>
    let k := k + 1
    if k = len then some none
    else
      let s := set k
      if s ≥ bound then some (some (k, s))
      else localintersect2by2_skip set len bound fuel k

/-- The outer loop `while(true)` of `localintersect2by2`. -/
def localintersect2by2_loop (set1 : Int → Nat) (lenset1 : Int) (set2 : Int → Nat)
    (lenset2 : Int) :
    Nat → (Int → Nat) → Int → Int → Int → Nat → Nat → Option (Int × (Int → Nat))
  | 0, _, _, _, _, _, _ => none
  | fuel + 1, buffer, pos, k1, k2, s1, s2 =>
    let r : Option (Option (Int × Nat)) :=
      if s2 < s1 then localintersect2by2_skip set2 lenset2 s1 lenset2.toNat k2
      else some (some (k2, s2))
    match r with
    | none => none
    | some none => some (pos, buffer)
    | some (some (k2, s2)) =>
      if s1 < s2 then
        match localintersect2by2_skip set1 lenset1 s2 lenset1.toNat k1 with
        | none => none
        | some none => some (pos, buffer)
        | some (some (k1, s1)) =>
          localintersect2by2_loop set1 lenset1 set2 lenset2 fuel buffer pos k1 k2 s1 s2
      else
        let buffer := store buffer pos s1
        let pos := pos + 1
        let k1 := k1 + 1
        if k1 = lenset1 then some (pos, buffer)
        else
          let s1 := set1 k1
          let k2 := k2 + 1
          if k2 = lenset2 then some (pos, buffer)
          else
            let s2 := set2 k2
            localintersect2by2_loop set1 lenset1 set2 lenset2 fuel buffer pos k1 k2 s1 s2

/-- Function `localintersect2by2`: the returned count and the output buffer. -/
def localintersect2by2 (set1 : Int → Nat) (lenset1 : Int) (set2 : Int → Nat) (lenset2 : Int)
    (buffer : Int → Nat) : Option (Int × (Int → Nat)) :=
  if 0 = lenset1 ∨ 0 = lenset2 then some (0, buffer)
  else
    localintersect2by2_loop set1 lenset1 set2 lenset2 (lenset1 + lenset2).toNat buffer 0 0 0
      (set1 0) (set2 0)

/-- The doubling loop of `advanceUntil`: returns the final `spansize`. -/
def advanceUntil_span (array : Int → Nat) (lower length : Int) (min : Nat) :
    Nat → Int → Option Int
  | 0, _ => none
  | fuel + 1, spansize =>
    if lower + spansize < length ∧ array (lower + spansize) < min then
      advanceUntil_span array lower length min fuel (wrap32 (spansize * 2))
    else some spansize

/-- The bisection loop `while( lower+1 != upper)` of `advanceUntil`: returns
the value the function returns. -/
def advanceUntil_bisect (array : Int → Nat) (min : Nat) : Nat → Int → Int → Option Int
  | 0, _, _ => none
  | fuel + 1, lower, upper =>
    if lower + 1 ≠ upper then
      let mid := (lower + upper) / 2
      if array mid = min then some mid
      else if array mid < min then advanceUntil_bisect array min fuel mid upper
      else advanceUntil_bisect array min fuel lower mid
    else some upper

/-- Function `advanceUntil`. -/
def advanceUntil (array : Int → Nat) (pos length : Int) (min : Nat) : Option Int :=
  let lower := pos + 1
  if lower ≥ length ∨ array lower ≥ min then some lower
  else
    match advanceUntil_span array lower length min (length.toNat + 1) 1 with
    | none => none
    | some spansize =>
      let upper := if lower + spansize < length then lower + spansize else length - 1
      if array upper = min then some upper
      else if array upper < min then some length
      else
        let lower := lower + spansize / 2
        advanceUntil_bisect array min (length.toNat + 1) lower upper

/-- The loop `while(true)` of `onesidedgallopingintersect2by2`. -/
def onesidedgallopingintersect2by2_loop (smallset : Int → Nat) (lensmallset : Int)
    (largeset : Int → Nat) (lenlargeset : Int) :
    Nat → (Int → Nat) → Int → Int → Int → Nat → Nat → Option (Int × (Int → Nat))
  | 0, _, _, _, _, _, _ => none
  | fuel + 1, buffer, pos, k1, k2, s1, s2 =>
    let r : Option (Option (Int × Nat)) :=
      if s1 < s2 then
        match advanceUntil largeset k1 lenlargeset s2 with
        | none => none
        | some k1 => if k1 = lenlargeset then some none else some (some (k1, largeset k1))
      else some (some (k1, s1))
    match r with
    | none => none
    | some none => some (pos, buffer)
    | some (some (k1, s1)) =>
      if s2 < s1 then
        let k2 := k2 + 1
        if k2 = lensmallset then some (pos, buffer)
        else
          onesidedgallopingintersect2by2_loop smallset lensmallset largeset lenlargeset fuel
            buffer pos k1 k2 s1 (smallset k2)
      else
        let buffer := store buffer pos s2
        let pos := pos + 1
        let k2 := k2 + 1
        if k2 = lensmallset then some (pos, buffer)
        else
          let s2 := smallset k2
          match advanceUntil largeset k1 lenlargeset s2 with
          | none => none
          | some k1 =>
            if k1 = lenlargeset then some (pos, buffer)
            else
              onesidedgallopingintersect2by2_loop smallset lensmallset largeset lenlargeset fuel
                buffer pos k1 k2 (largeset k1) s2

/-- Function `onesidedgallopingintersect2by2`: the returned count and the
output buffer. -/
def onesidedgallopingintersect2by2 (smallset : Int → Nat) (lensmallset : Int)
    (largeset : Int → Nat) (lenlargeset : Int) (buffer : Int → Nat) :
    Option (Int × (Int → Nat)) :=
  if 0 = lensmallset then some (0, buffer)
  else
    onesidedgallopingintersect2by2_loop smallset lensmallset largeset lenlargeset
      lensmallset.toNat buffer 0 0 0 (largeset 0) (smallset 0)

/-- Function `intersection2by2` of the build without `USEAVX`. -/
def intersection2by2 (set1 : Int → Nat) (lenset1 : Int) (set2 : Int → Nat) (lenset2 : Int)
    (buffer : Int → Nat) : Option (Int × (Int → Nat)) :=
  let thres : Int := 4
  if wrap32 (lenset1 * thres) < lenset2 then
    onesidedgallopingintersect2by2 set1 lenset1 set2 lenset2 buffer
  else if wrap32 (lenset2 * thres) < lenset1 then
    onesidedgallopingintersect2by2 set2 lenset2 set1 lenset1 buffer
  else localintersect2by2 set1 lenset1 set2 lenset2 buffer

/-- Function `array_container_intersection`; `arrayout` is a block distinct
from both inputs. -/
def array_container_intersection (array1 array2 arrayout : array_container_t)
    (fresh : Int → Nat) : Option array_container_t :=
  let minc :=
    if array1.cardinality < array2.cardinality then array1.cardinality else array2.cardinality
  let arrayout :=
    if arrayout.capacity < minc then increaseCapacity arrayout minc INT32_MAX false fresh
    else arrayout
  match intersection2by2 array1.array.data array1.cardinality array2.array.data
      array2.cardinality arrayout.array.data with
  | none => none
  | some r =>
    some { cardinality := r.1
           capacity := arrayout.capacity
           array := { size := arrayout.array.size, data := r.2 } }

/-! ## Test data -/

/-- Buffer holding the given values in its first slots and `dflt` elsewhere. -/
def bufOf (l : List Nat) (dflt : Nat) : Int → Nat :=
  fun i => if 0 ≤ i then l.getD i.toNat dflt else dflt

/-- Container of capacity 16 in a block of 32 bytes whose first `card` slots
are live and whose slots are filled from `slots`. -/
def mkContainer (card : Int) (slots : List Nat) : array_container_t :=
  { cardinality := card, capacity := 16, array := { size := 32, data := bufOf slots 0 } }

/-- A destination container that is used twice: it first receives 1 and 5 and
is then the destination of the union of `{1}` with the empty set. Its live
prefix is `[1]` and the slot behind it still holds 5. -/
def reusedDestination : array_container_t :=
  let z : Int → Nat := fun _ => 0
  let out := (array_container_add (array_container_add (array_container_create z) 1 z).2 5 z).2
  let a := (array_container_add (array_container_create z) 1 z).2
  let b := array_container_create z
  array_container_union a b out z

/-- A call of the mutation interface: `add` carries the key and the content
the allocator would hand out if the call grows the buffer. -/
inductive op where
  | add (x : Nat) (fresh : Int → Nat) : op
  | remove (x : Nat) : op

/-- The key of a call. -/
def op.key : op → Nat
  | op.add x _ => x
  | op.remove x => x

/-- The container after one call. -/
def step (arr : array_container_t) : op → array_container_t
  | op.add x fresh => (array_container_add arr x fresh).2
  | op.remove x => (array_container_remove arr x).2

/-- The container after a sequence of calls, from left to right. -/
def run (arr : array_container_t) (ops : List op) : array_container_t :=
  ops.foldl step arr

/-- A container that held 5 and then was the destination of the union of two
empty containers: its cardinality is 0 and slot 0 still holds 5. -/
def emptiedDestination : array_container_t :=
  let z : Int → Nat := fun _ => 0
  array_container_union (array_container_create z) (array_container_create z)
    (array_container_add (array_container_create z) 5 z).2 z

/-- What a caller observes of an intersection routine: the returned count and
the output prefix of that length. -/
def observed (r : Option (Int × (Int → Nat))) : Option (Int × List Nat) :=
  r.map (fun p => (p.1, prefixOf p.2 p.1))

/-! ## Predicates of the specification -/

/-- Well-formed container: the live prefix lies inside the allocated block,
holds 16-bit values and is strictly increasing. -/
def wf (arr : array_container_t) : Prop :=
  0 ≤ arr.cardinality ∧ 2 * arr.cardinality ≤ arr.array.size ∧
    (live arr).Pairwise (· < ·) ∧ ∀ v ∈ live arr, v < 65536

instance (arr : array_container_t) : Decidable (wf arr) := by
  unfold wf; infer_instance

/-- Invariant of the containers reachable from `array_container_create`: the
container is well-formed and its block is either the initial one of 16 slots
or one obtained by a growth to the ceiling `INT32_MAX`. -/
def reachable_inv (arr : array_container_t) : Prop :=
  wf arr ∧ ((arr.capacity = 16 ∧ arr.array.size = 32 ∧ arr.cardinality ≤ 16) ∨
    (2013265920 ≤ arr.capacity ∧ 2013265920 ≤ (arr.array.size : Int)))

/-- Every one of the first `q` slots of `b` is below `s`. -/
def below (b : Int → Nat) (q : Int) (s : Nat) : Prop :=
  ∀ i, 0 ≤ i → i < q → b i < s

/-- The first `n` slots of `a` are strictly increasing. -/
def increasing (a : Int → Nat) (n : Int) : Prop :=
  ∀ i j, 0 ≤ i → i < j → j < n → a i < a j

/-- The value `v` occurs in the first `n` slots of `a`. -/
def occurs (a : Int → Nat) (n : Int) (v : Nat) : Prop :=
  ∃ i, 0 ≤ i ∧ i < n ∧ a i = v

/-- Result expected of an intersection routine on the inputs `set1[0..len1)`
and `set2[0..len2)`: it returns, and the output prefix it reports is strictly
increasing, no longer than either input, and holds exactly the common values. -/
def inter_post (set1 : Int → Nat) (len1 : Int) (set2 : Int → Nat) (len2 : Int)
    (r : Option (Int × (Int → Nat))) : Prop :=
  ∃ pos buf, r = some (pos, buf) ∧ 0 ≤ pos ∧ pos ≤ len1 ∧ pos ≤ len2 ∧ increasing buf pos ∧
    ∀ v, occurs buf pos v ↔ (occurs set1 len1 v ∧ occurs set2 len2 v)

/-- Invariant shared by the loops of the two scalar intersection routines,
with cursors `k1` into `set1` and `k2` into `set2`: the output holds, in
increasing order and below both current elements, common values only, and
every common value below one of the current elements has been written. -/
def inter_inv (set1 : Int → Nat) (len1 : Int) (set2 : Int → Nat) (len2 : Int)
    (buffer : Int → Nat) (pos k1 k2 : Int) : Prop :=
  0 ≤ k1 ∧ k1 < len1 ∧ 0 ≤ k2 ∧ k2 < len2 ∧ 0 ≤ pos ∧ pos ≤ k1 ∧ pos ≤ k2 ∧
    increasing buffer pos ∧ below buffer pos (set1 k1) ∧ below buffer pos (set2 k2) ∧
    (∀ v, occurs buffer pos v → (occurs set1 len1 v ∧ occurs set2 len2 v)) ∧
    (∀ v, occurs set1 len1 v → occurs set2 len2 v → (v < set1 k1 ∨ v < set2 k2) →
      occurs buffer pos v)

/-! ## Reachable containers, bulk loads and failing allocations -/

/-- The containers that can be obtained from `array_container_create` through
the public operations with 16-bit keys, as the container that is mutated or as
the destination of a union or an intersection of reachable containers. -/
inductive reachable : array_container_t → Prop
  | create (fresh : Int → Nat) : reachable (array_container_create fresh)
  | add (arr : array_container_t) (x : Nat) (fresh : Int → Nat) :
      reachable arr → x < 65536 → reachable (array_container_add arr x fresh).2
  | remove (arr : array_container_t) (x : Nat) :
      reachable arr → reachable (array_container_remove arr x).2
  | union (a b out : array_container_t) (fresh : Int → Nat) :
      reachable a → reachable b → reachable out →
      reachable (array_container_union a b out fresh)
  | intersection (a b out r : array_container_t) (fresh : Int → Nat) :
      reachable a → reachable b → reachable out →
      array_container_intersection a b out fresh = some r → reachable r

/-- A new container after the keys `ks` were added in this order; `fr k` is the
content the allocator would hand out during the call that adds `k`. -/
def bulk_load (fresh : Int → Nat) (fr : Nat → Int → Nat) (ks : List Nat) : array_container_t :=
  run (array_container_create fresh) (ks.map (fun k => op.add k (fr k)))

/-- A container whose pointer `array` may be NULL (`none`). -/
structure array_container_nullable where
  cardinality : Int
  capacity : Int
  array : Option heap_block

/-- Function `increaseCapacity` with the outcome of its allocation as an
argument: `some fresh` when `realloc` or `malloc` returns a block with the
unspecified content `fresh`, `none` when it returns NULL. The function has no
return value; the result is the container it leaves. -/
def increaseCapacity_alloc (arr : array_container_t) (min max : Int) (copy : Bool)
    (alloc : Option (Int → Nat)) : array_container_nullable :=
  let newCapacity : Int :=
    if arr.capacity = 0 then DEFAULT_INIT_SIZE
    else if arr.capacity < 64 then wrap32 (arr.capacity * 2)
    else if arr.capacity < 1024 then (wrap32 (arr.capacity * 3)).tdiv 2
    else (wrap32 (arr.capacity * 5)).tdiv 4
  let newCapacity := if newCapacity < min then min else newCapacity
  let newCapacity := if newCapacity > max then max else newCapacity
  let newCapacity := if newCapacity < max - max.tdiv 16 then max else newCapacity
  { cardinality := arr.cardinality
    capacity := newCapacity
    array :=
      match alloc with
      | none => none
      | some fresh =>
        some (if copy then realloc arr.array newCapacity fresh else malloc newCapacity fresh) }

/-- Function `append` with the outcome of the allocation as an argument. The
result is `none` when the store `arr->array[arr->cardinality] = i` goes through
a NULL pointer, and otherwise the container after the call. -/
def append_alloc (arr : array_container_t) (i : Nat) (alloc : Option (Int → Nat)) :
    Option array_container_nullable :=
  let arr : array_container_nullable :=
    if arr.cardinality = arr.capacity then
      increaseCapacity_alloc arr (wrap32 (arr.capacity + 1)) INT32_MAX true alloc
    else { cardinality := arr.cardinality, capacity := arr.capacity, array := some arr.array }
  match arr.array with
  | none => none
  | some block =>
    some { cardinality := arr.cardinality + 1
           capacity := arr.capacity
           array := some { size := block.size, data := store block.data arr.cardinality i } }

/-- The container of capacity 16 that holds 1, ..., 16 in its block of 32
bytes; `behind` is the content of the first slot behind the block. -/
def fullContainer (behind : Nat) : array_container_t :=
  mkContainer 16 [1, 2, 3, 4, 5, 6, 7, 8, 9, 10, 11, 12, 13, 14, 15, 16, behind]

/-! ## Galloping intersection with bounds-checked reads

The routines of this part are `advanceUntil` and
`onesidedgallopingintersect2by2` once more, statement by statement, with every
read of an input array going through `read`, which knows the length of the
array. Their result is `none` when a read is out of bounds or the step budget
is used up. -/

/-- The read `array[i]` of an array of `length` elements: `none` when the
index is outside `[0, length)`. -/
def read (array : Int → Nat) (length i : Int) : Option Nat :=
  if 0 ≤ i ∧ i < length then some (array i) else none

/-- The doubling loop of `advanceUntil` with checked reads. The operator `&&`
of C evaluates `array[lower+spansize]` only when `lower+spansize < length`. -/
def advanceUntil_span_checked (array : Int → Nat) (lower length : Int) (min : Nat) :
    Nat → Int → Option Int
  | 0, _ => none
  | fuel + 1, spansize =>
    if lower + spansize < length then
      match read array length (lower + spansize) with
      | none => none
      | some v =>
        if v < min then
          advanceUntil_span_checked array lower length min fuel (wrap32 (spansize * 2))
        else some spansize
    else some spansize

/-- The bisection loop of `advanceUntil` with checked reads. -/
def advanceUntil_bisect_checked (array : Int → Nat) (length : Int) (min : Nat) :
    Nat → Int → Int → Option Int
  | 0, _, _ => none
  | fuel + 1, lower, upper =>
    if lower + 1 ≠ upper then
      let mid := (lower + upper) / 2
      match read array length mid with
      | none => none
      | some v =>
        if v = min then some mid
        else if v < min then advanceUntil_bisect_checked array length min fuel mid upper
        else advanceUntil_bisect_checked array length min fuel lower mid
    else some upper

/-- Function `advanceUntil` with checked reads. The operator `||` of C
evaluates `array[lower]` only when `lower < length`. -/
def advanceUntil_checked (array : Int → Nat) (pos length : Int) (min : Nat) : Option Int :=
  let lower := pos + 1
  if lower ≥ length then some lower
  else
    match read array length lower with
    | none => none
    | some v =>
      if v ≥ min then some lower
      else
        match advanceUntil_span_checked array lower length min (length.toNat + 1) 1 with
        | none => none
        | some spansize =>
          let upper := if lower + spansize < length then lower + spansize else length - 1
          match read array length upper with
          | none => none
          | some u =>
            if u = min then some upper
            else if u < min then some length
            else
              let lower := lower + spansize / 2
              advanceUntil_bisect_checked array length min (length.toNat + 1) lower upper

/-- The loop of `onesidedgallopingintersect2by2` with checked reads. -/
def onesidedgallopingintersect2by2_loop_checked (smallset : Int → Nat) (lensmallset : Int)
    (largeset : Int → Nat) (lenlargeset : Int) :
    Nat → (Int → Nat) → Int → Int → Int → Nat → Nat → Option (Int × (Int → Nat))
  | 0, _, _, _, _, _, _ => none
  | fuel + 1, buffer, pos, k1, k2, s1, s2 =>
    let r : Option (Option (Int × Nat)) :=
      if s1 < s2 then
        match advanceUntil_checked largeset k1 lenlargeset s2 with
        | none => none
        | some k1 =>
          if k1 = lenlargeset then some none
          else
            match read largeset lenlargeset k1 with
            | none => none
            | some s1 => some (some (k1, s1))
      else some (some (k1, s1))
    match r with
    | none => none
    | some none => some (pos, buffer)
    | some (some (k1, s1)) =>
      if s2 < s1 then
        let k2 := k2 + 1
        if k2 = lensmallset then some (pos, buffer)
        else
          match read smallset lensmallset k2 with
          | none => none
          | some s2 =>
            onesidedgallopingintersect2by2_loop_checked smallset lensmallset largeset
              lenlargeset fuel buffer pos k1 k2 s1 s2
      else
        let buffer := store buffer pos s2
        let pos := pos + 1
        let k2 := k2 + 1
        if k2 = lensmallset then some (pos, buffer)
        else
          match read smallset lensmallset k2 with
          | none => none
          | some s2 =>
            match advanceUntil_checked largeset k1 lenlargeset s2 with
            | none => none
            | some k1 =>
              if k1 = lenlargeset then some (pos, buffer)
              else
                match read largeset lenlargeset k1 with
                | none => none
                | some s1 =>
                  onesidedgallopingintersect2by2_loop_checked smallset lensmallset largeset
                    lenlargeset fuel buffer pos k1 k2 s1 s2

/-- Function `onesidedgallopingintersect2by2` with checked reads. -/
def onesidedgallopingintersect2by2_checked (smallset : Int → Nat) (lensmallset : Int)
    (largeset : Int → Nat) (lenlargeset : Int) (buffer : Int → Nat) :
    Option (Int × (Int → Nat)) :=
  if 0 = lensmallset then some (0, buffer)
  else
    match read largeset lenlargeset 0 with
    | none => none
    | some s1 =>
      match read smallset lensmallset 0 with
      | none => none
      | some s2 =>
        onesidedgallopingintersect2by2_loop_checked smallset lensmallset largeset lenlargeset
          lensmallset.toNat buffer 0 0 0 s1 s2

/-! ## Vectorised intersection (the build with `USEAVX`)

A 128-bit register `__m128i` is the list of its eight 16-bit lanes, lane 0
first; a 256-bit register `__m256i` is the list of its sixteen lanes. The
intrinsics are given the lane-by-lane meaning of the instruction they stand
for. Loops run on a step budget and return `none` when it is used up. -/

/-- Rows 0 to 15 of the table `shuffle_mask16`, one row of 16 bytes per line. -/
def shuffle_mask16_rows0 : List Nat := [
  255, 255, 255, 255, 255, 255, 255, 255, 255, 255, 255, 255, 255, 255, 255, 255,
  0, 1, 255, 255, 255, 255, 255, 255, 255, 255, 255, 255, 255, 255, 255, 255,
  2, 3, 255, 255, 255, 255, 255, 255, 255, 255, 255, 255, 255, 255, 255, 255,
  0, 1, 2, 3, 255, 255, 255, 255, 255, 255, 255, 255, 255, 255, 255, 255,
  4, 5, 255, 255, 255, 255, 255, 255, 255, 255, 255, 255, 255, 255, 255, 255,
  0, 1, 4, 5, 255, 255, 255, 255, 255, 255, 255, 255, 255, 255, 255, 255,
  2, 3, 4, 5, 255, 255, 255, 255, 255, 255, 255, 255, 255, 255, 255, 255,
  0, 1, 2, 3, 4, 5, 255, 255, 255, 255, 255, 255, 255, 255, 255, 255,
  6, 7, 255, 255, 255, 255, 255, 255, 255, 255, 255, 255, 255, 255, 255, 255,
  0, 1, 6, 7, 255, 255, 255, 255, 255, 255, 255, 255, 255, 255, 255, 255,
  2, 3, 6, 7, 255, 255, 255, 255, 255, 255, 255, 255, 255, 255, 255, 255,
  0, 1, 2, 3, 6, 7, 255, 255, 255, 255, 255, 255, 255, 255, 255, 255,
  4, 5, 6, 7, 255, 255, 255, 255, 255, 255, 255, 255, 255, 255, 255, 255,
  0, 1, 4, 5, 6, 7, 255, 255, 255, 255, 255, 255, 255, 255, 255, 255,
  2, 3, 4, 5, 6, 7, 255, 255, 255, 255, 255, 255, 255, 255, 255, 255,
  0, 1, 2, 3, 4, 5, 6, 7, 255, 255, 255, 255, 255, 255, 255, 255]

/-- Rows 16 to 31 of the table `shuffle_mask16`, one row of 16 bytes per line. -/
def shuffle_mask16_rows1 : List Nat := [
  8, 9, 255, 255, 255, 255, 255, 255, 255, 255, 255, 255, 255, 255, 255, 255,
  0, 1, 8, 9, 255, 255, 255, 255, 255, 255, 255, 255, 255, 255, 255, 255,
  2, 3, 8, 9, 255, 255, 255, 255, 255, 255, 255, 255, 255, 255, 255, 255,
  0, 1, 2, 3, 8, 9, 255, 255, 255, 255, 255, 255, 255, 255, 255, 255,
  4, 5, 8, 9, 255, 255, 255, 255, 255, 255, 255, 255, 255, 255, 255, 255,
  0, 1, 4, 5, 8, 9, 255, 255, 255, 255, 255, 255, 255, 255, 255, 255,
  2, 3, 4, 5, 8, 9, 255, 255, 255, 255, 255, 255, 255, 255, 255, 255,
  0, 1, 2, 3, 4, 5, 8, 9, 255, 255, 255, 255, 255, 255, 255, 255,
  6, 7, 8, 9, 255, 255, 255, 255, 255, 255, 255, 255, 255, 255, 255, 255,
  0, 1, 6, 7, 8, 9, 255, 255, 255, 255, 255, 255, 255, 255, 255, 255,
  2, 3, 6, 7, 8, 9, 255, 255, 255, 255, 255, 255, 255, 255, 255, 255,
  0, 1, 2, 3, 6, 7, 8, 9, 255, 255, 255, 255, 255, 255, 255, 255,
  4, 5, 6, 7, 8, 9, 255, 255, 255, 255, 255, 255, 255, 255, 255, 255,
  0, 1, 4, 5, 6, 7, 8, 9, 255, 255, 255, 255, 255, 255, 255, 255,
  2, 3, 4, 5, 6, 7, 8, 9, 255, 255, 255, 255, 255, 255, 255, 255,
  0, 1, 2, 3, 4, 5, 6, 7, 8, 9, 255, 255, 255, 255, 255, 255]

/-- Rows 32 to 47 of the table `shuffle_mask16`, one row of 16 bytes per line. -/
def shuffle_mask16_rows2 : List Nat := [
  10, 11, 255, 255, 255, 255, 255, 255, 255, 255, 255, 255, 255, 255, 255, 255,
  0, 1, 10, 11, 255, 255, 255, 255, 255, 255, 255, 255, 255, 255, 255, 255,
  2, 3, 10, 11, 255, 255, 255, 255, 255, 255, 255, 255, 255, 255, 255, 255,
  0, 1, 2, 3, 10, 11, 255, 255, 255, 255, 255, 255, 255, 255, 255, 255,
  4, 5, 10, 11, 255, 255, 255, 255, 255, 255, 255, 255, 255, 255, 255, 255,
  0, 1, 4, 5, 10, 11, 255, 255, 255, 255, 255, 255, 255, 255, 255, 255,
  2, 3, 4, 5, 10, 11, 255, 255, 255, 255, 255, 255, 255, 255, 255, 255,
  0, 1, 2, 3, 4, 5, 10, 11, 255, 255, 255, 255, 255, 255, 255, 255,
  6, 7, 10, 11, 255, 255, 255, 255, 255, 255, 255, 255, 255, 255, 255, 255,
  0, 1, 6, 7, 10, 11, 255, 255, 255, 255, 255, 255, 255, 255, 255, 255,
  2, 3, 6, 7, 10, 11, 255, 255, 255, 255, 255, 255, 255, 255, 255, 255,
  0, 1, 2, 3, 6, 7, 10, 11, 255, 255, 255, 255, 255, 255, 255, 255,
  4, 5, 6, 7, 10, 11, 255, 255, 255, 255, 255, 255, 255, 255, 255, 255,
  0, 1, 4, 5, 6, 7, 10, 11, 255, 255, 255, 255, 255, 255, 255, 255,
  2, 3, 4, 5, 6, 7, 10, 11, 255, 255, 255, 255, 255, 255, 255, 255,
  0, 1, 2, 3, 4, 5, 6, 7, 10, 11, 255, 255, 255, 255, 255, 255]

/-- Rows 48 to 63 of the table `shuffle_mask16`, one row of 16 bytes per line. -/
def shuffle_mask16_rows3 : List Nat := [
  8, 9, 10, 11, 255, 255, 255, 255, 255, 255, 255, 255, 255, 255, 255, 255,
  0, 1, 8, 9, 10, 11, 255, 255, 255, 255, 255, 255, 255, 255, 255, 255,
  2, 3, 8, 9, 10, 11, 255, 255, 255, 255, 255, 255, 255, 255, 255, 255,
  0, 1, 2, 3, 8, 9, 10, 11, 255, 255, 255, 255, 255, 255, 255, 255,
  4, 5, 8, 9, 10, 11, 255, 255, 255, 255, 255, 255, 255, 255, 255, 255,
  0, 1, 4, 5, 8, 9, 10, 11, 255, 255, 255, 255, 255, 255, 255, 255,
  2, 3, 4, 5, 8, 9, 10, 11, 255, 255, 255, 255, 255, 255, 255, 255,
  0, 1, 2, 3, 4, 5, 8, 9, 10, 11, 255, 255, 255, 255, 255, 255,
  6, 7, 8, 9, 10, 11, 255, 255, 255, 255, 255, 255, 255, 255, 255, 255,
  0, 1, 6, 7, 8, 9, 10, 11, 255, 255, 255, 255, 255, 255, 255, 255,
  2, 3, 6, 7, 8, 9, 10, 11, 255, 255, 255, 255, 255, 255, 255, 255,
  0, 1, 2, 3, 6, 7, 8, 9, 10, 11, 255, 255, 255, 255, 255, 255,
  4, 5, 6, 7, 8, 9, 10, 11, 255, 255, 255, 255, 255, 255, 255, 255,
  0, 1, 4, 5, 6, 7, 8, 9, 10, 11, 255, 255, 255, 255, 255, 255,
  2, 3, 4, 5, 6, 7, 8, 9, 10, 11, 255, 255, 255, 255, 255, 255,
  0, 1, 2, 3, 4, 5, 6, 7, 8, 9, 10, 11, 255, 255, 255, 255]

/-- Rows 64 to 79 of the table `shuffle_mask16`, one row of 16 bytes per line. -/
def shuffle_mask16_rows4 : List Nat := [
  12, 13, 255, 255, 255, 255, 255, 255, 255, 255, 255, 255, 255, 255, 255, 255,
  0, 1, 12, 13, 255, 255, 255, 255, 255, 255, 255, 255, 255, 255, 255, 255,
  2, 3, 12, 13, 255, 255, 255, 255, 255, 255, 255, 255, 255, 255, 255, 255,
  0, 1, 2, 3, 12, 13, 255, 255, 255, 255, 255, 255, 255, 255, 255, 255,
  4, 5, 12, 13, 255, 255, 255, 255, 255, 255, 255, 255, 255, 255, 255, 255,
  0, 1, 4, 5, 12, 13, 255, 255, 255, 255, 255, 255, 255, 255, 255, 255,
  2, 3, 4, 5, 12, 13, 255, 255, 255, 255, 255, 255, 255, 255, 255, 255,
  0, 1, 2, 3, 4, 5, 12, 13, 255, 255, 255, 255, 255, 255, 255, 255,
  6, 7, 12, 13, 255, 255, 255, 255, 255, 255, 255, 255, 255, 255, 255, 255,
  0, 1, 6, 7, 12, 13, 255, 255, 255, 255, 255, 255, 255, 255, 255, 255,
  2, 3, 6, 7, 12, 13, 255, 255, 255, 255, 255, 255, 255, 255, 255, 255,
  0, 1, 2, 3, 6, 7, 12, 13, 255, 255, 255, 255, 255, 255, 255, 255,
  4, 5, 6, 7, 12, 13, 255, 255, 255, 255, 255, 255, 255, 255, 255, 255,
  0, 1, 4, 5, 6, 7, 12, 13, 255, 255, 255, 255, 255, 255, 255, 255,
  2, 3, 4, 5, 6, 7, 12, 13, 255, 255, 255, 255, 255, 255, 255, 255,
  0, 1, 2, 3, 4, 5, 6, 7, 12, 13, 255, 255, 255, 255, 255, 255]

/-- Rows 80 to 95 of the table `shuffle_mask16`, one row of 16 bytes per line. -/
def shuffle_mask16_rows5 : List Nat := [
  8, 9, 12, 13, 255, 255, 255, 255, 255, 255, 255, 255, 255, 255, 255, 255,
  0, 1, 8, 9, 12, 13, 255, 255, 255, 255, 255, 255, 255, 255, 255, 255,
  2, 3, 8, 9, 12, 13, 255, 255, 255, 255, 255, 255, 255, 255, 255, 255,
  0, 1, 2, 3, 8, 9, 12, 13, 255, 255, 255, 255, 255, 255, 255, 255,
  4, 5, 8, 9, 12, 13, 255, 255, 255, 255, 255, 255, 255, 255, 255, 255,
  0, 1, 4, 5, 8, 9, 12, 13, 255, 255, 255, 255, 255, 255, 255, 255,
  2, 3, 4, 5, 8, 9, 12, 13, 255, 255, 255, 255, 255, 255, 255, 255,
  0, 1, 2, 3, 4, 5, 8, 9, 12, 13, 255, 255, 255, 255, 255, 255,
  6, 7, 8, 9, 12, 13, 255, 255, 255, 255, 255, 255, 255, 255, 255, 255,
  0, 1, 6, 7, 8, 9, 12, 13, 255, 255, 255, 255, 255, 255, 255, 255,
  2, 3, 6, 7, 8, 9, 12, 13, 255, 255, 255, 255, 255, 255, 255, 255,
  0, 1, 2, 3, 6, 7, 8, 9, 12, 13, 255, 255, 255, 255, 255, 255,
  4, 5, 6, 7, 8, 9, 12, 13, 255, 255, 255, 255, 255, 255, 255, 255,
  0, 1, 4, 5, 6, 7, 8, 9, 12, 13, 255, 255, 255, 255, 255, 255,
  2, 3, 4, 5, 6, 7, 8, 9, 12, 13, 255, 255, 255, 255, 255, 255,
  0, 1, 2, 3, 4, 5, 6, 7, 8, 9, 12, 13, 255, 255, 255, 255]

/-- Rows 96 to 111 of the table `shuffle_mask16`, one row of 16 bytes per line. -/
def shuffle_mask16_rows6 : List Nat := [
  10, 11, 12, 13, 255, 255, 255, 255, 255, 255, 255, 255, 255, 255, 255, 255,
  0, 1, 10, 11, 12, 13, 255, 255, 255, 255, 255, 255, 255, 255, 255, 255,
  2, 3, 10, 11, 12, 13, 255, 255, 255, 255, 255, 255, 255, 255, 255, 255,
  0, 1, 2, 3, 10, 11, 12, 13, 255, 255, 255, 255, 255, 255, 255, 255,
  4, 5, 10, 11, 12, 13, 255, 255, 255, 255, 255, 255, 255, 255, 255, 255,
  0, 1, 4, 5, 10, 11, 12, 13, 255, 255, 255, 255, 255, 255, 255, 255,
  2, 3, 4, 5, 10, 11, 12, 13, 255, 255, 255, 255, 255, 255, 255, 255,
  0, 1, 2, 3, 4, 5, 10, 11, 12, 13, 255, 255, 255, 255, 255, 255,
  6, 7, 10, 11, 12, 13, 255, 255, 255, 255, 255, 255, 255, 255, 255, 255,
  0, 1, 6, 7, 10, 11, 12, 13, 255, 255, 255, 255, 255, 255, 255, 255,
  2, 3, 6, 7, 10, 11, 12, 13, 255, 255, 255, 255, 255, 255, 255, 255,
  0, 1, 2, 3, 6, 7, 10, 11, 12, 13, 255, 255, 255, 255, 255, 255,
  4, 5, 6, 7, 10, 11, 12, 13, 255, 255, 255, 255, 255, 255, 255, 255,
  0, 1, 4, 5, 6, 7, 10, 11, 12, 13, 255, 255, 255, 255, 255, 255,
  2, 3, 4, 5, 6, 7, 10, 11, 12, 13, 255, 255, 255, 255, 255, 255,
  0, 1, 2, 3, 4, 5, 6, 7, 10, 11, 12, 13, 255, 255, 255, 255]

/-- Rows 112 to 127 of the table `shuffle_mask16`, one row of 16 bytes per line. -/
def shuffle_mask16_rows7 : List Nat := [
  8, 9, 10, 11, 12, 13, 255, 255, 255, 255, 255, 255, 255, 255, 255, 255,
  0, 1, 8, 9, 10, 11, 12, 13, 255, 255, 255, 255, 255, 255, 255, 255,
  2, 3, 8, 9, 10, 11, 12, 13, 255, 255, 255, 255, 255, 255, 255, 255,
  0, 1, 2, 3, 8, 9, 10, 11, 12, 13, 255, 255, 255, 255, 255, 255,
  4, 5, 8, 9, 10, 11, 12, 13, 255, 255, 255, 255, 255, 255, 255, 255,
  0, 1, 4, 5, 8, 9, 10, 11, 12, 13, 255, 255, 255, 255, 255, 255,
  2, 3, 4, 5, 8, 9, 10, 11, 12, 13, 255, 255, 255, 255, 255, 255,
  0, 1, 2, 3, 4, 5, 8, 9, 10, 11, 12, 13, 255, 255, 255, 255,
  6, 7, 8, 9, 10, 11, 12, 13, 255, 255, 255, 255, 255, 255, 255, 255,
  0, 1, 6, 7, 8, 9, 10, 11, 12, 13, 255, 255, 255, 255, 255, 255,
  2, 3, 6, 7, 8, 9, 10, 11, 12, 13, 255, 255, 255, 255, 255, 255,
  0, 1, 2, 3, 6, 7, 8, 9, 10, 11, 12, 13, 255, 255, 255, 255,
  4, 5, 6, 7, 8, 9, 10, 11, 12, 13, 255, 255, 255, 255, 255, 255,
  0, 1, 4, 5, 6, 7, 8, 9, 10, 11, 12, 13, 255, 255, 255, 255,
  2, 3, 4, 5, 6, 7, 8, 9, 10, 11, 12, 13, 255, 255, 255, 255,
  0, 1, 2, 3, 4, 5, 6, 7, 8, 9, 10, 11, 12, 13, 255, 255]

/-- Rows 128 to 143 of the table `shuffle_mask16`, one row of 16 bytes per line. -/
def shuffle_mask16_rows8 : List Nat := [
  14, 15, 255, 255, 255, 255, 255, 255, 255, 255, 255, 255, 255, 255, 255, 255,
  0, 1, 14, 15, 255, 255, 255, 255, 255, 255, 255, 255, 255, 255, 255, 255,
  2, 3, 14, 15, 255, 255, 255, 255, 255, 255, 255, 255, 255, 255, 255, 255,
  0, 1, 2, 3, 14, 15, 255, 255, 255, 255, 255, 255, 255, 255, 255, 255,
  4, 5, 14, 15, 255, 255, 255, 255, 255, 255, 255, 255, 255, 255, 255, 255,
  0, 1, 4, 5, 14, 15, 255, 255, 255, 255, 255, 255, 255, 255, 255, 255,
  2, 3, 4, 5, 14, 15, 255, 255, 255, 255, 255, 255, 255, 255, 255, 255,
  0, 1, 2, 3, 4, 5, 14, 15, 255, 255, 255, 255, 255, 255, 255, 255,
  6, 7, 14, 15, 255, 255, 255, 255, 255, 255, 255, 255, 255, 255, 255, 255,
  0, 1, 6, 7, 14, 15, 255, 255, 255, 255, 255, 255, 255, 255, 255, 255,
  2, 3, 6, 7, 14, 15, 255, 255, 255, 255, 255, 255, 255, 255, 255, 255,
  0, 1, 2, 3, 6, 7, 14, 15, 255, 255, 255, 255, 255, 255, 255, 255,
  4, 5, 6, 7, 14, 15, 255, 255, 255, 255, 255, 255, 255, 255, 255, 255,
  0, 1, 4, 5, 6, 7, 14, 15, 255, 255, 255, 255, 255, 255, 255, 255,
  2, 3, 4, 5, 6, 7, 14, 15, 255, 255, 255, 255, 255, 255, 255, 255,
  0, 1, 2, 3, 4, 5, 6, 7, 14, 15, 255, 255, 255, 255, 255, 255]

/-- Rows 144 to 159 of the table `shuffle_mask16`, one row of 16 bytes per line. -/
def shuffle_mask16_rows9 : List Nat := [
  8, 9, 14, 15, 255, 255, 255, 255, 255, 255, 255, 255, 255, 255, 255, 255,
  0, 1, 8, 9, 14, 15, 255, 255, 255, 255, 255, 255, 255, 255, 255, 255,
  2, 3, 8, 9, 14, 15, 255, 255, 255, 255, 255, 255, 255, 255, 255, 255,
  0, 1, 2, 3, 8, 9, 14, 15, 255, 255, 255, 255, 255, 255, 255, 255,
  4, 5, 8, 9, 14, 15, 255, 255, 255, 255, 255, 255, 255, 255, 255, 255,
  0, 1, 4, 5, 8, 9, 14, 15, 255, 255, 255, 255, 255, 255, 255, 255,
  2, 3, 4, 5, 8, 9, 14, 15, 255, 255, 255, 255, 255, 255, 255, 255,
  0, 1, 2, 3, 4, 5, 8, 9, 14, 15, 255, 255, 255, 255, 255, 255,
  6, 7, 8, 9, 14, 15, 255, 255, 255, 255, 255, 255, 255, 255, 255, 255,
  0, 1, 6, 7, 8, 9, 14, 15, 255, 255, 255, 255, 255, 255, 255, 255,
  2, 3, 6, 7, 8, 9, 14, 15, 255, 255, 255, 255, 255, 255, 255, 255,
  0, 1, 2, 3, 6, 7, 8, 9, 14, 15, 255, 255, 255, 255, 255, 255,
  4, 5, 6, 7, 8, 9, 14, 15, 255, 255, 255, 255, 255, 255, 255, 255,
  0, 1, 4, 5, 6, 7, 8, 9, 14, 15, 255, 255, 255, 255, 255, 255,
  2, 3, 4, 5, 6, 7, 8, 9, 14, 15, 255, 255, 255, 255, 255, 255,
  0, 1, 2, 3, 4, 5, 6, 7, 8, 9, 14, 15, 255, 255, 255, 255]

/-- Rows 160 to 175 of the table `shuffle_mask16`, one row of 16 bytes per line. -/
def shuffle_mask16_rows10 : List Nat := [
  10, 11, 14, 15, 255, 255, 255, 255, 255, 255, 255, 255, 255, 255, 255, 255,
  0, 1, 10, 11, 14, 15, 255, 255, 255, 255, 255, 255, 255, 255, 255, 255,
  2, 3, 10, 11, 14, 15, 255, 255, 255, 255, 255, 255, 255, 255, 255, 255,
  0, 1, 2, 3, 10, 11, 14, 15, 255, 255, 255, 255, 255, 255, 255, 255,
  4, 5, 10, 11, 14, 15, 255, 255, 255, 255, 255, 255, 255, 255, 255, 255,
  0, 1, 4, 5, 10, 11, 14, 15, 255, 255, 255, 255, 255, 255, 255, 255,
  2, 3, 4, 5, 10, 11, 14, 15, 255, 255, 255, 255, 255, 255, 255, 255,
  0, 1, 2, 3, 4, 5, 10, 11, 14, 15, 255, 255, 255, 255, 255, 255,
  6, 7, 10, 11, 14, 15, 255, 255, 255, 255, 255, 255, 255, 255, 255, 255,
  0, 1, 6, 7, 10, 11, 14, 15, 255, 255, 255, 255, 255, 255, 255, 255,
  2, 3, 6, 7, 10, 11, 14, 15, 255, 255, 255, 255, 255, 255, 255, 255,
  0, 1, 2, 3, 6, 7, 10, 11, 14, 15, 255, 255, 255, 255, 255, 255,
  4, 5, 6, 7, 10, 11, 14, 15, 255, 255, 255, 255, 255, 255, 255, 255,
  0, 1, 4, 5, 6, 7, 10, 11, 14, 15, 255, 255, 255, 255, 255, 255,
  2, 3, 4, 5, 6, 7, 10, 11, 14, 15, 255, 255, 255, 255, 255, 255,
  0, 1, 2, 3, 4, 5, 6, 7, 10, 11, 14, 15, 255, 255, 255, 255]

/-- Rows 176 to 191 of the table `shuffle_mask16`, one row of 16 bytes per line. -/
def shuffle_mask16_rows11 : List Nat := [
  8, 9, 10, 11, 14, 15, 255, 255, 255, 255, 255, 255, 255, 255, 255, 255,
  0, 1, 8, 9, 10, 11, 14, 15, 255, 255, 255, 255, 255, 255, 255, 255,
  2, 3, 8, 9, 10, 11, 14, 15, 255, 255, 255, 255, 255, 255, 255, 255,
  0, 1, 2, 3, 8, 9, 10, 11, 14, 15, 255, 255, 255, 255, 255, 255,
  4, 5, 8, 9, 10, 11, 14, 15, 255, 255, 255, 255, 255, 255, 255, 255,
  0, 1, 4, 5, 8, 9, 10, 11, 14, 15, 255, 255, 255, 255, 255, 255,
  2, 3, 4, 5, 8, 9, 10, 11, 14, 15, 255, 255, 255, 255, 255, 255,
  0, 1, 2, 3, 4, 5, 8, 9, 10, 11, 14, 15, 255, 255, 255, 255,
  6, 7, 8, 9, 10, 11, 14, 15, 255, 255, 255, 255, 255, 255, 255, 255,
  0, 1, 6, 7, 8, 9, 10, 11, 14, 15, 255, 255, 255, 255, 255, 255,
  2, 3, 6, 7, 8, 9, 10, 11, 14, 15, 255, 255, 255, 255, 255, 255,
  0, 1, 2, 3, 6, 7, 8, 9, 10, 11, 14, 15, 255, 255, 255, 255,
  4, 5, 6, 7, 8, 9, 10, 11, 14, 15, 255, 255, 255, 255, 255, 255,
  0, 1, 4, 5, 6, 7, 8, 9, 10, 11, 14, 15, 255, 255, 255, 255,
  2, 3, 4, 5, 6, 7, 8, 9, 10, 11, 14, 15, 255, 255, 255, 255,
  0, 1, 2, 3, 4, 5, 6, 7, 8, 9, 10, 11, 14, 15, 255, 255]

/-- Rows 192 to 207 of the table `shuffle_mask16`, one row of 16 bytes per line. -/
def shuffle_mask16_rows12 : List Nat := [
  12, 13, 14, 15, 255, 255, 255, 255, 255, 255, 255, 255, 255, 255, 255, 255,
  0, 1, 12, 13, 14, 15, 255, 255, 255, 255, 255, 255, 255, 255, 255, 255,
  2, 3, 12, 13, 14, 15, 255, 255, 255, 255, 255, 255, 255, 255, 255, 255,
  0, 1, 2, 3, 12, 13, 14, 15, 255, 255, 255, 255, 255, 255, 255, 255,
  4, 5, 12, 13, 14, 15, 255, 255, 255, 255, 255, 255, 255, 255, 255, 255,
  0, 1, 4, 5, 12, 13, 14, 15, 255, 255, 255, 255, 255, 255, 255, 255,
  2, 3, 4, 5, 12, 13, 14, 15, 255, 255, 255, 255, 255, 255, 255, 255,
  0, 1, 2, 3, 4, 5, 12, 13, 14, 15, 255, 255, 255, 255, 255, 255,
  6, 7, 12, 13, 14, 15, 255, 255, 255, 255, 255, 255, 255, 255, 255, 255,
  0, 1, 6, 7, 12, 13, 14, 15, 255, 255, 255, 255, 255, 255, 255, 255,
  2, 3, 6, 7, 12, 13, 14, 15, 255, 255, 255, 255, 255, 255, 255, 255,
  0, 1, 2, 3, 6, 7, 12, 13, 14, 15, 255, 255, 255, 255, 255, 255,
  4, 5, 6, 7, 12, 13, 14, 15, 255, 255, 255, 255, 255, 255, 255, 255,
  0, 1, 4, 5, 6, 7, 12, 13, 14, 15, 255, 255, 255, 255, 255, 255,
  2, 3, 4, 5, 6, 7, 12, 13, 14, 15, 255, 255, 255, 255, 255, 255,
  0, 1, 2, 3, 4, 5, 6, 7, 12, 13, 14, 15, 255, 255, 255, 255]

/-- Rows 208 to 223 of the table `shuffle_mask16`, one row of 16 bytes per line. -/
def shuffle_mask16_rows13 : List Nat := [
  8, 9, 12, 13, 14, 15, 255, 255, 255, 255, 255, 255, 255, 255, 255, 255,
  0, 1, 8, 9, 12, 13, 14, 15, 255, 255, 255, 255, 255, 255, 255, 255,
  2, 3, 8, 9, 12, 13, 14, 15, 255, 255, 255, 255, 255, 255, 255, 255,
  0, 1, 2, 3, 8, 9, 12, 13, 14, 15, 255, 255, 255, 255, 255, 255,
  4, 5, 8, 9, 12, 13, 14, 15, 255, 255, 255, 255, 255, 255, 255, 255,
  0, 1, 4, 5, 8, 9, 12, 13, 14, 15, 255, 255, 255, 255, 255, 255,
  2, 3, 4, 5, 8, 9, 12, 13, 14, 15, 255, 255, 255, 255, 255, 255,
  0, 1, 2, 3, 4, 5, 8, 9, 12, 13, 14, 15, 255, 255, 255, 255,
  6, 7, 8, 9, 12, 13, 14, 15, 255, 255, 255, 255, 255, 255, 255, 255,
  0, 1, 6, 7, 8, 9, 12, 13, 14, 15, 255, 255, 255, 255, 255, 255,
  2, 3, 6, 7, 8, 9, 12, 13, 14, 15, 255, 255, 255, 255, 255, 255,
  0, 1, 2, 3, 6, 7, 8, 9, 12, 13, 14, 15, 255, 255, 255, 255,
  4, 5, 6, 7, 8, 9, 12, 13, 14, 15, 255, 255, 255, 255, 255, 255,
  0, 1, 4, 5, 6, 7, 8, 9, 12, 13, 14, 15, 255, 255, 255, 255,
  2, 3, 4, 5, 6, 7, 8, 9, 12, 13, 14, 15, 255, 255, 255, 255,
  0, 1, 2, 3, 4, 5, 6, 7, 8, 9, 12, 13, 14, 15, 255, 255]

/-- Rows 224 to 239 of the table `shuffle_mask16`, one row of 16 bytes per line. -/
def shuffle_mask16_rows14 : List Nat := [
  10, 11, 12, 13, 14, 15, 255, 255, 255, 255, 255, 255, 255, 255, 255, 255,
  0, 1, 10, 11, 12, 13, 14, 15, 255, 255, 255, 255, 255, 255, 255, 255,
  2, 3, 10, 11, 12, 13, 14, 15, 255, 255, 255, 255, 255, 255, 255, 255,
  0, 1, 2, 3, 10, 11, 12, 13, 14, 15, 255, 255, 255, 255, 255, 255,
  4, 5, 10, 11, 12, 13, 14, 15, 255, 255, 255, 255, 255, 255, 255, 255,
  0, 1, 4, 5, 10, 11, 12, 13, 14, 15, 255, 255, 255, 255, 255, 255,
  2, 3, 4, 5, 10, 11, 12, 13, 14, 15, 255, 255, 255, 255, 255, 255,
  0, 1, 2, 3, 4, 5, 10, 11, 12, 13, 14, 15, 255, 255, 255, 255,
  6, 7, 10, 11, 12, 13, 14, 15, 255, 255, 255, 255, 255, 255, 255, 255,
  0, 1, 6, 7, 10, 11, 12, 13, 14, 15, 255, 255, 255, 255, 255, 255,
  2, 3, 6, 7, 10, 11, 12, 13, 14, 15, 255, 255, 255, 255, 255, 255,
  0, 1, 2, 3, 6, 7, 10, 11, 12, 13, 14, 15, 255, 255, 255, 255,
  4, 5, 6, 7, 10, 11, 12, 13, 14, 15, 255, 255, 255, 255, 255, 255,
  0, 1, 4, 5, 6, 7, 10, 11, 12, 13, 14, 15, 255, 255, 255, 255,
  2, 3, 4, 5, 6, 7, 10, 11, 12, 13, 14, 15, 255, 255, 255, 255,
  0, 1, 2, 3, 4, 5, 6, 7, 10, 11, 12, 13, 14, 15, 255, 255]

/-- Rows 240 to 255 of the table `shuffle_mask16`, one row of 16 bytes per line. -/
def shuffle_mask16_rows15 : List Nat := [
  8, 9, 10, 11, 12, 13, 14, 15, 255, 255, 255, 255, 255, 255, 255, 255,
  0, 1, 8, 9, 10, 11, 12, 13, 14, 15, 255, 255, 255, 255, 255, 255,
  2, 3, 8, 9, 10, 11, 12, 13, 14, 15, 255, 255, 255, 255, 255, 255,
  0, 1, 2, 3, 8, 9, 10, 11, 12, 13, 14, 15, 255, 255, 255, 255,
  4, 5, 8, 9, 10, 11, 12, 13, 14, 15, 255, 255, 255, 255, 255, 255,
  0, 1, 4, 5, 8, 9, 10, 11, 12, 13, 14, 15, 255, 255, 255, 255,
  2, 3, 4, 5, 8, 9, 10, 11, 12, 13, 14, 15, 255, 255, 255, 255,
  0, 1, 2, 3, 4, 5, 8, 9, 10, 11, 12, 13, 14, 15, 255, 255,
  6, 7, 8, 9, 10, 11, 12, 13, 14, 15, 255, 255, 255, 255, 255, 255,
  0, 1, 6, 7, 8, 9, 10, 11, 12, 13, 14, 15, 255, 255, 255, 255,
  2, 3, 6, 7, 8, 9, 10, 11, 12, 13, 14, 15, 255, 255, 255, 255,
  0, 1, 2, 3, 6, 7, 8, 9, 10, 11, 12, 13, 14, 15, 255, 255,
  4, 5, 6, 7, 8, 9, 10, 11, 12, 13, 14, 15, 255, 255, 255, 255,
  0, 1, 4, 5, 6, 7, 8, 9, 10, 11, 12, 13, 14, 15, 255, 255,
  2, 3, 4, 5, 6, 7, 8, 9, 10, 11, 12, 13, 14, 15, 255, 255,
  0, 1, 2, 3, 4, 5, 6, 7, 8, 9, 10, 11, 12, 13, 14, 15]

/-- The table `shuffle_mask16`: 256 rows of 16 bytes. Its element type is
`uint8_t`, so the initialiser `-1` of the source is the byte 255. -/
def shuffle_mask16 : List Nat :=
  List.flatten [shuffle_mask16_rows0, shuffle_mask16_rows1, shuffle_mask16_rows2, shuffle_mask16_rows3,
    shuffle_mask16_rows4, shuffle_mask16_rows5, shuffle_mask16_rows6, shuffle_mask16_rows7,
    shuffle_mask16_rows8, shuffle_mask16_rows9, shuffle_mask16_rows10, shuffle_mask16_rows11,
    shuffle_mask16_rows12, shuffle_mask16_rows13, shuffle_mask16_rows14, shuffle_mask16_rows15]

/-- The conversion of a `uint16_t` value to `int16_t`, as in
`int16_t a = A[i_a]`. -/
def toInt16 (v : Nat) : Int :=
  if v % 65536 < 32768 then ((v % 65536 : Nat) : Int) else ((v % 65536 : Nat) : Int) - 65536

/-- The conversion of an `int16_t` value to `uint16_t`, as in `C[count] = a`. -/
def toUInt16 (v : Int) : Nat :=
  (v % 65536).toNat

/-- Intrinsic `_mm_lddqu_si128((__m128i *) &A[i])`: the eight lanes
`A[i] .. A[i+7]`. -/
def mm_lddqu_si128 (A : Int → Nat) (i : Int) : List Nat :=
  (List.range 8).map (fun j => A (i + (j : Int)))

/-- Intrinsic `_mm_storeu_si128((__m128i *) &C[i], p)`: the eight lanes of `p`
go to `C[i] .. C[i+7]`. -/
def mm_storeu_si128 (C : Int → Nat) (i : Int) (p : List Nat) : Int → Nat :=
  fun k => if i ≤ k ∧ k < i + 8 then p.getD (k - i).toNat 0 else C k

/-- The bit mask of the string comparisons with the control word
`_SIDD_UWORD_OPS | _SIDD_CMP_EQUAL_ANY | _SIDD_BIT_MASK`: bit `j` is set when
lane `j` of the second operand `v_a` is inside its length `la` and equals one
of the first `lb` lanes of the first operand `v_b`. -/
def cmp_equal_any (v_b : List Nat) (lb : Nat) (v_a : List Nat) (la : Nat) : Nat :=
  ((List.range 8).map (fun j =>
    if j < la ∧ (v_b.take lb).contains (v_a.getD j 0) then 2 ^ j else 0)).sum

/-- Intrinsic `_mm_cmpestrm` followed by `_mm_extract_epi32(res_v, 0)`: the
lengths of the operands are given. -/
def mm_cmpestrm (v_b : List Nat) (lb : Nat) (v_a : List Nat) (la : Nat) : Nat :=
  cmp_equal_any v_b lb v_a la

/-- Intrinsic `_mm_cmpistrm` followed by `_mm_extract_epi32(res_v, 0)`: the
length of an operand is the number of lanes before its first zero lane. -/
def mm_cmpistrm (v_b v_a : List Nat) : Nat :=
  cmp_equal_any v_b (v_b.takeWhile (fun x => x != 0)).length v_a
    (v_a.takeWhile (fun x => x != 0)).length

/-- Intrinsic `_mm_load_si128((const __m128i *) shuffle_mask16 + r)`: the 16
bytes of row `r` of the table. -/
def mm_load_si128 (r : Nat) : List Nat :=
  (shuffle_mask16.drop (16 * r)).take 16

/-- Intrinsic `_mm_shuffle_epi8(v, sm)`: byte `i` of the result is 0 when the
top bit of `sm[i]` is set and byte `sm[i] & 15` of `v` otherwise; lane `j` of
a register is made of its bytes `2j` (low) and `2j+1` (high). -/
def mm_shuffle_epi8 (v sm : List Nat) : List Nat :=
  let bytes : List Nat := (List.range 16).map (fun i =>
    if i % 2 = 0 then v.getD (i / 2) 0 % 256 else v.getD (i / 2) 0 / 256 % 256)
  let out : List Nat := sm.map (fun m => if m ≥ 128 then 0 else bytes.getD (m % 16) 0)
  (List.range 8).map (fun j => out.getD (2 * j) 0 + 256 * out.getD (2 * j + 1) 0)

/-- Intrinsic `_mm_popcnt_u32`. -/
def mm_popcnt_u32 (r : Nat) : Nat :=
  ((List.range 32).filter (fun j => r.testBit j)).length

/-- The variables of `intersect_vector16` that its two batch loops change. -/
structure vector16_state where
  /-- The output array `C`. -/
  C : Int → Nat
  /-- The variable `count`. -/
  count : Int
  /-- The variable `i_a`. -/
  i_a : Int
  /-- The variable `i_b`. -/
  i_b : Int
  /-- The register `v_a`. -/
  v_a : List Nat
  /-- The register `v_b`. -/
  v_b : List Nat

/-- The body shared by the two batch loops of `intersect_vector16`, from the
load of the shuffle mask on; `r` is the bit mask of the comparison. The flag
of the result tells that the body left the loop through `break`. -/
def intersect_vector16_body (A : Int → Nat) (st_a : Int) (B : Int → Nat) (st_b : Int)
    (r : Nat) (s : vector16_state) : vector16_state × Bool :=
  let sm16 := mm_load_si128 r
  let p := mm_shuffle_epi8 s.v_a sm16
  let C := mm_storeu_si128 s.C s.count p
  let count := s.count + (mm_popcnt_u32 r : Int)
  let a_max := A (s.i_a + 7)
  let b_max := B (s.i_b + 7)
  if a_max ≤ b_max then
    let i_a := s.i_a + 8
    if i_a = st_a then
      ({ C := C, count := count, i_a := i_a, i_b := s.i_b, v_a := s.v_a, v_b := s.v_b }, true)
    else
      let v_a := mm_lddqu_si128 A i_a
      if b_max ≤ a_max then
        let i_b := s.i_b + 8
        if i_b = st_b then
          ({ C := C, count := count, i_a := i_a, i_b := i_b, v_a := v_a, v_b := s.v_b }, true)
        else
          ({ C := C, count := count, i_a := i_a, i_b := i_b, v_a := v_a,
             v_b := mm_lddqu_si128 B i_b }, false)
      else
        ({ C := C, count := count, i_a := i_a, i_b := s.i_b, v_a := v_a, v_b := s.v_b }, false)
  else
    if b_max ≤ a_max then
      let i_b := s.i_b + 8
      if i_b = st_b then
        ({ C := C, count := count, i_a := s.i_a, i_b := i_b, v_a := s.v_a, v_b := s.v_b }, true)
      else
        ({ C := C, count := count, i_a := s.i_a, i_b := i_b, v_a := s.v_a,
           v_b := mm_lddqu_si128 B i_b }, false)
    else
      ({ C := C, count := count, i_a := s.i_a, i_b := s.i_b, v_a := s.v_a, v_b := s.v_b }, false)

/-- The first batch loop of `intersect_vector16`,
`while ((A[i_a] == 0) || (B[i_b] == 0))`, which compares with `_mm_cmpestrm`. -/
def intersect_vector16_zero (A : Int → Nat) (st_a : Int) (B : Int → Nat) (st_b : Int) :
    Nat → vector16_state → Option vector16_state
  | 0, _ => none
  | fuel + 1, s =>
    if A s.i_a = 0 ∨ B s.i_b = 0 then
      let r := mm_cmpestrm s.v_b 8 s.v_a 8
      let n := intersect_vector16_body A st_a B st_b r s
      if n.2 then some n.1 else intersect_vector16_zero A st_a B st_b fuel n.1
    else some s

/-- The second batch loop of `intersect_vector16`, `while (true)`, which
compares with `_mm_cmpistrm`. -/
def intersect_vector16_batch (A : Int → Nat) (st_a : Int) (B : Int → Nat) (st_b : Int) :
    Nat → vector16_state → Option vector16_state
  | 0, _ => none
  | fuel + 1, s =>
    let r := mm_cmpistrm s.v_b s.v_a
    let n := intersect_vector16_body A st_a B st_b r s
    if n.2 then some n.1 else intersect_vector16_batch A st_a B st_b fuel n.1

/-- The scalar tail of `intersect_vector16`, whose variables `a` and `b` are
declared `int16_t`. -/
def intersect_vector16_tail (A : Int → Nat) (s_a : Int) (B : Int → Nat) (s_b : Int) :
    Nat → (Int → Nat) → Int → Int → Int → Option (Int × (Int → Nat))
  | 0, _, _, _, _ => none
  | fuel + 1, C, count, i_a, i_b =>
    if i_a < s_a ∧ i_b < s_b then
      let a := toInt16 (A i_a)
      let b := toInt16 (B i_b)
      if a < b then intersect_vector16_tail A s_a B s_b fuel C count (i_a + 1) i_b
      else if b < a then intersect_vector16_tail A s_a B s_b fuel C count i_a (i_b + 1)
      else
        intersect_vector16_tail A s_a B s_b fuel (store C count (toUInt16 a)) (count + 1)
          (i_a + 1) (i_b + 1)
    else some (count, C)

/-- Function `intersect_vector16`: the returned count and the output array. -/
def intersect_vector16 (A : Int → Nat) (s_a : Int) (B : Int → Nat) (s_b : Int)
    (C : Int → Nat) : Option (Int × (Int → Nat)) :=
  let st_a := s_a.tdiv 8 * 8
  let st_b := s_b.tdiv 8 * 8
  let budget := (s_a + s_b).toNat + 1
  let s0 : vector16_state :=
    { C := C, count := 0, i_a := 0, i_b := 0, v_a := [], v_b := [] }
  let s : Option vector16_state :=
    if 0 < st_a ∧ 0 < st_b then
      let s1 : vector16_state :=
        { C := C, count := 0, i_a := 0, i_b := 0,
          v_a := mm_lddqu_si128 A 0, v_b := mm_lddqu_si128 B 0 }
      match intersect_vector16_zero A st_a B st_b budget s1 with
      | none => none
      | some s2 =>
        if s2.i_a < st_a ∧ s2.i_b < st_b then intersect_vector16_batch A st_a B st_b budget s2
        else some s2
    else some s0
  match s with
  | none => none
  | some s => intersect_vector16_tail A s_a B s_b budget s.C s.count s.i_a s.i_b

/-- Intrinsic `_mm256_lddqu_si256((const __m256i *) &B[i] + k)`: the sixteen
lanes `B[i+16k] .. B[i+16k+15]`. -/
def mm256_lddqu_si256 (B : Int → Nat) (i : Int) (k : Nat) : List Nat :=
  (List.range 16).map (fun j => B (i + 16 * (k : Int) + (j : Int)))

/-- Intrinsic `_mm256_set1_epi16`. -/
def mm256_set1_epi16 (a : Nat) : List Nat :=
  List.replicate 16 a

/-- Intrinsic `_mm256_cmpeq_epi16`: a lane is all ones where the operands
agree and zero elsewhere. -/
def mm256_cmpeq_epi16 (x y : List Nat) : List Nat :=
  List.zipWith (fun p q => if p = q then 65535 else 0) x y

/-- Intrinsic `_mm256_or_si256`. -/
def mm256_or_si256 (x y : List Nat) : List Nat :=
  List.zipWith (fun p q => p ||| q) x y

/-- Intrinsic `_mm256_testz_si256`: 1 when the bitwise AND of the operands is
zero, 0 otherwise. -/
def mm256_testz_si256 (x y : List Nat) : Int :=
  if (List.zipWith (fun p q => p &&& q) x y).all (fun v => v == 0) then 1 else 0

/-- The scalar tail shared, word for word, by `intersectV1avx_vector16` and
`intersectV2avx_vector16`; it compares `uint16_t` values. -/
def intersectVavx_vector16_tail (A : Int → Nat) (s_a : Int) (B : Int → Nat) (s_b : Int) :
    Nat → (Int → Nat) → Int → Int → Int → Option (Int × (Int → Nat))
  | 0, _, _, _, _ => none
  | fuel + 1, C, count, i_a, i_b =>
    if i_a < s_a ∧ i_b < s_b then
      if A i_a < B i_b then intersectVavx_vector16_tail A s_a B s_b fuel C count (i_a + 1) i_b
      else if B i_b < A i_a then
        intersectVavx_vector16_tail A s_a B s_b fuel C count i_a (i_b + 1)
      else
        intersectVavx_vector16_tail A s_a B s_b fuel (store C count (A i_a)) (count + 1)
          (i_a + 1) (i_b + 1)
    else some (count, C)

/-- The loop `while (B[i_b + numberofintspervec - 1] < a)` of the two skewed
routines. The flag of the result tells that the loop left through
`goto FINISH_SCALAR`. -/
def intersectVavx_vector16_skip (B : Int → Nat) (st_b numberofintspervec : Int) (a : Nat) :
    Nat → Int → Option (Int × Bool)
  | 0, _ => none
  | fuel + 1, i_b =>
    if B (i_b + numberofintspervec - 1) < a then
      let i_b := i_b + numberofintspervec
      if i_b = st_b then some (i_b, true)
      else intersectVavx_vector16_skip B st_b numberofintspervec a fuel i_b
    else some (i_b, false)

/-- The loop `while(i_a < st_a)` of `intersectV1avx_vector16`: the variables
`C`, `count`, `i_a` and `i_b` on reaching the label `FINISH_SCALAR`. -/
def intersectV1avx_vector16_loop (A : Int → Nat) (st_a : Int) (B : Int → Nat) (st_b : Int) :
    Nat → (Int → Nat) → Int → Int → Int → Option ((Int → Nat) × Int × Int × Int)
  | 0, _, _, _, _ => none
  | fuel + 1, C, count, i_a, i_b =>
    if i_a < st_a then
      let a := A i_a
      let v_a := mm256_set1_epi16 a
      match intersectVavx_vector16_skip B st_b 32 a (st_b.toNat + 1) i_b with
      | none => none
      | some (i_b, true) => some (C, count, i_a, i_b)
      | some (i_b, false) =>
        let v_b1 := mm256_lddqu_si256 B i_b 0
        let v_b2 := mm256_lddqu_si256 B i_b 1
        let F0 := mm256_cmpeq_epi16 v_a v_b1
        let F1 := mm256_cmpeq_epi16 v_a v_b2
        let F0 := mm256_or_si256 F0 F1
        let count := count + (if mm256_testz_si256 F0 F0 = 0 then 1 else 0)
        let C := store C count a
        intersectV1avx_vector16_loop A st_a B st_b fuel C count (i_a + 1) i_b
    else some (C, count, i_a, i_b)

/-- The body of `intersectV1avx_vector16` behind its first test. -/
def intersectV1avx_vector16_main (A : Int → Nat) (s_a : Int) (B : Int → Nat) (s_b : Int)
    (C : Int → Nat) : Option (Int × (Int → Nat)) :=
  let st_a := s_a
  let numberofintspervec : Int := 2 * 32 / 2
  let st_b := s_b.tdiv numberofintspervec * numberofintspervec
  let r : Option ((Int → Nat) × Int × Int × Int) :=
    if 0 < st_a ∧ 0 < st_b then
      intersectV1avx_vector16_loop A st_a B st_b (s_a.toNat + 1) C 0 0 0
    else some (C, 0, 0, 0)
  match r with
  | none => none
  | some (C, count, i_a, i_b) =>
    intersectVavx_vector16_tail A s_a B s_b ((s_a + s_b).toNat + 1) C count i_a i_b

/-- Function `intersectV1avx_vector16`. Its recursive call swaps the operands
when `s_a > s_b`, after which the test fails. -/
def intersectV1avx_vector16 (A : Int → Nat) (s_a : Int) (B : Int → Nat) (s_b : Int)
    (C : Int → Nat) : Option (Int × (Int → Nat)) :=
  if s_a > s_b then intersectV1avx_vector16_main B s_b A s_a C
  else intersectV1avx_vector16_main A s_a B s_b C

/-- The loop `while(i_a < st_a)` of `intersectV2avx_vector16`. -/
def intersectV2avx_vector16_loop (A : Int → Nat) (st_a : Int) (B : Int → Nat) (st_b : Int) :
    Nat → (Int → Nat) → Int → Int → Int → Option ((Int → Nat) × Int × Int × Int)
  | 0, _, _, _, _ => none
  | fuel + 1, C, count, i_a, i_b =>
    if i_a < st_a then
      let a := A i_a
      let v_a := mm256_set1_epi16 a
      match intersectVavx_vector16_skip B st_b 64 a (st_b.toNat + 1) i_b with
      | none => none
      | some (i_b, true) => some (C, count, i_a, i_b)
      | some (i_b, false) =>
        let v_b1 := mm256_lddqu_si256 B i_b 0
        let v_b2 := mm256_lddqu_si256 B i_b 1
        let v_b3 := mm256_lddqu_si256 B i_b 2
        let v_b4 := mm256_lddqu_si256 B i_b 3
        let F0 := mm256_cmpeq_epi16 v_a v_b1
        let F1 := mm256_cmpeq_epi16 v_a v_b2
        let F2 := mm256_cmpeq_epi16 v_a v_b3
        let F3 := mm256_cmpeq_epi16 v_a v_b4
        let F0 := mm256_or_si256 F0 F1
        let F2 := mm256_or_si256 F2 F3
        let F0 := mm256_or_si256 F0 F2
        let count := count + (if mm256_testz_si256 F0 F0 = 0 then 1 else 0)
        let C := store C count a
        intersectV2avx_vector16_loop A st_a B st_b fuel C count (i_a + 1) i_b
    else some (C, count, i_a, i_b)

/-- Function `intersectV2avx_vector16`; when `s_a > s_b` it calls
`intersectV1avx_vector16` on the swapped operands. -/
def intersectV2avx_vector16 (A : Int → Nat) (s_a : Int) (B : Int → Nat) (s_b : Int)
    (C : Int → Nat) : Option (Int × (Int → Nat)) :=
  if s_a > s_b then intersectV1avx_vector16 B s_b A s_a C
  else
    let st_a := s_a
    let numberofintspervec : Int := 4 * 32 / 2
    let st_b := s_b.tdiv numberofintspervec * numberofintspervec
    let r : Option ((Int → Nat) × Int × Int × Int) :=
      if 0 < st_a ∧ 0 < st_b then
        intersectV2avx_vector16_loop A st_a B st_b (s_a.toNat + 1) C 0 0 0
      else some (C, 0, 0, 0)
    match r with
    | none => none
    | some (C, count, i_a, i_b) =>
      intersectVavx_vector16_tail A s_a B s_b ((s_a + s_b).toNat + 1) C count i_a i_b

/-- Function `intersection2by2` of the build with `USEAVX`. -/
def intersection2by2_avx (set1 : Int → Nat) (lenset1 : Int) (set2 : Int → Nat) (lenset2 : Int)
    (buffer : Int → Nat) : Option (Int × (Int → Nat)) :=
  let bigthres : Int := 32
  let thres : Int := 4
  if wrap32 (lenset1 * bigthres) < lenset2 then
    intersectV2avx_vector16 set1 lenset1 set2 lenset2 buffer
  else if wrap32 (lenset2 * bigthres) < lenset1 then
    intersectV2avx_vector16 set2 lenset2 set1 lenset1 buffer
  else if wrap32 (lenset1 * thres) < lenset2 then
    intersectV1avx_vector16 set1 lenset1 set2 lenset2 buffer
  else if wrap32 (lenset2 * thres) < lenset1 then
    intersectV1avx_vector16 set2 lenset2 set1 lenset1 buffer
  else intersect_vector16 set1 lenset1 set2 lenset2 buffer

/-! ## Lists and buffers -/

theorem length_prefixOf (a : Int → Nat) (n : Int) : (prefixOf a n).length = n.toNat := by
  simp [prefixOf]

theorem mem_prefixOf (a : Int → Nat) (n : Int) (v : Nat) :
    v ∈ prefixOf a n ↔ occurs a n v := by
  unfold prefixOf occurs
  simp only [List.mem_map, List.mem_range]
  constructor
  · rintro ⟨i, hi, rfl⟩
    exact ⟨(i : Int), by omega, by omega, rfl⟩
  · rintro ⟨i, h0, hn, rfl⟩
    refine ⟨i.toNat, by omega, ?_⟩
    rw [Int.toNat_of_nonneg h0]

theorem pairwise_prefixOf (a : Int → Nat) (n : Int) :
    (prefixOf a n).Pairwise (· < ·) ↔ increasing a n := by
  unfold prefixOf increasing
  rw [List.pairwise_map]
  constructor
  · intro h i j h0 hij hjn
    have h1 := List.pairwise_iff_get.mp h ⟨i.toNat, by simp; omega⟩ ⟨j.toNat, by simp; omega⟩
      (by simp; omega)
    simpa [Int.toNat_of_nonneg h0, Int.toNat_of_nonneg (by omega : (0 : Int) ≤ j)] using h1
  · intro h
    rw [List.pairwise_iff_get]
    intro i j hij
    have hi := i.2
    have hj := j.2
    simp only [List.length_range] at hi hj
    simp only [List.get_eq_getElem, List.getElem_range]
    have hij2 : i.1 < j.1 := hij
    exact h _ _ (by omega) (by omega) (by omega)

theorem prefixOf_congr (a b : Int → Nat) (n : Int)
    (h : ∀ i, 0 ≤ i → i < n → a i = b i) : prefixOf a n = prefixOf b n := by
  unfold prefixOf
  apply List.map_congr_left
  intro i hi
  rw [List.mem_range] at hi
  exact h _ (by omega) (by omega)

theorem increasing_mono (a : Int → Nat) (n : Int) (h : increasing a n) (i j : Int)
    (h0 : 0 ≤ i) (hij : i ≤ j) (hjn : j < n) : a i ≤ a j := by
  rcases lt_or_eq_of_le hij with h1 | h1
  · exact Nat.le_of_lt (h i j h0 h1 hjn)
  · subst h1; exact Nat.le_refl _

/-! ## Binary search -/

/-- Invariant of the loop of `binarySearch` on a strictly increasing prefix of
length `N`: the window `[base, base + n)` still brackets the insertion point. -/
theorem binarySearch_loop_spec (source : Int → Nat) (target : Nat) (N : Int)
    (hinc : increasing source N) (fuel : Nat) :
    ∀ base n : Int, 1 ≤ n → n ≤ fuel + 1 → 0 ≤ base → base + n ≤ N →
      (base = 0 ∨ source base < target) →
      (∀ i, base + n ≤ i → i < N → target ≤ source i) →
      ∃ b, binarySearch_loop source target fuel base n = b ∧ 0 ≤ b ∧ b < N ∧
        (b = 0 ∨ source b < target) ∧ (∀ i, b + 1 ≤ i → i < N → target ≤ source i) := by
  induction fuel with
  | zero =>
    intro base n h1 hf hb hN hlow hup
    have hn : n = 1 := by omega
    subst hn
    exact ⟨base, rfl, hb, by omega, hlow, hup⟩
  | succ fuel ih =>
    intro base n h1 hf hb hN hlow hup
    unfold binarySearch_loop
    by_cases hn : n > 1
    · simp only [hn, if_true]
      have hhalf1 : 1 ≤ n / 2 := by omega
      have hhalf2 : n / 2 < n := by omega
      by_cases hc : source (base + n / 2) < target
      · simp only [hc, if_true]
        exact ih (base + n / 2) (n - n / 2) (by omega) (by omega) (by omega) (by omega)
          (Or.inr hc) (fun i hi hiN => hup i (by omega) hiN)
      · simp only [hc, if_false]
        refine ih base (n - n / 2) (by omega) (by omega) hb (by omega) hlow ?_
        intro i hi hiN
        have h2 := increasing_mono source N hinc (base + n / 2) i (by omega) (by omega) hiN
        omega
    · have hn1 : n = 1 := by omega
      subst hn1
      simp only [gt_iff_lt, lt_self_iff_false, if_false]
      exact ⟨base, rfl, hb, by omega, hlow, hup⟩

/-- What `binarySearch` computes on a strictly increasing non-empty prefix:
with `p` the number of elements below `target`, the result is decided by the
slot at index `p`, also when `p = n` and that slot lies behind the prefix. -/
theorem binarySearch_spec (source : Int → Nat) (n : Int) (target : Nat)
    (hn : 1 ≤ n) (hinc : increasing source n) :
    ∃ p, 0 ≤ p ∧ p ≤ n ∧ (∀ i, 0 ≤ i → i < p → source i < target) ∧
      (∀ i, p ≤ i → i < n → target ≤ source i) ∧
      binarySearch source n target = if source p = target then p else -p - 1 := by
  obtain ⟨b, hb, hb0, hbn, hlow, hup⟩ :=
    binarySearch_loop_spec source target n hinc n.toNat 0 n hn (by omega) (le_refl 0)
      (by omega) (Or.inl rfl) (fun i hi hin => by omega)
  unfold binarySearch
  have hn0 : ¬ n = 0 := by omega
  simp only [hn0, if_false, hb]
  by_cases hc : source b < target
  · simp only [hc, if_true]
    refine ⟨b + 1, by omega, by omega, ?_, hup, rfl⟩
    intro i hi hib
    have := increasing_mono source n hinc i b hi (by omega) hbn
    omega
  · simp only [hc, if_false, add_zero]
    have hb00 : b = 0 := by
      rcases hlow with h | h
      · exact h
      · exact absurd h hc
    subst hb00
    refine ⟨0, le_refl 0, by omega, fun i hi hi0 => by omega, ?_, rfl⟩
    intro i hi hin
    have := increasing_mono source n hinc 0 i (le_refl 0) hi hin
    omega

/-- The step budget of `binarySearch` is never the reason the loop stops: any
larger budget gives the same result. -/
theorem binarySearch_loop_budget (source : Int → Nat) (target : Nat) (fuel : Nat) :
    ∀ (extra : Nat) (base n : Int), n ≤ fuel + 1 →
      binarySearch_loop source target (fuel + extra) base n
        = binarySearch_loop source target fuel base n := by
  induction fuel with
  | zero =>
    intro extra base n hf
    cases extra with
    | zero => rfl
    | succ e =>
      have hn : ¬ n > 1 := by omega
      simp [binarySearch_loop, hn]
  | succ fuel ih =>
    intro extra base n hf
    have e : fuel + 1 + extra = (fuel + extra) + 1 := by omega
    rw [e]
    unfold binarySearch_loop
    by_cases hn : n > 1
    · simp only [hn, if_true]
      exact ih extra _ _ (by omega)
    · simp only [hn, if_false]

/-- On a strictly increasing prefix a value that occurs is found at its index. -/
theorem binarySearch_found (source : Int → Nat) (n : Int) (target : Nat)
    (hinc : increasing source n) (i : Int) (h0 : 0 ≤ i) (hin : i < n) (hi : source i = target) :
    binarySearch source n target = i := by
  obtain ⟨p, hp0, hpn, hlow, hup, hres⟩ := binarySearch_spec source n target (by omega) hinc
  have hpi : p ≤ i := by
    by_contra hc
    have := hlow i h0 (by omega)
    omega
  have h1 := hup p (le_refl p) (by omega)
  have h2 := increasing_mono source n hinc p i hp0 hpi hin
  have hpe : p = i := by
    rcases lt_or_eq_of_le hpi with h | h
    · have := hinc p i hp0 h hin
      omega
    · exact h
  subst hpe
  rw [hres, if_pos hi]

/-- On a strictly increasing prefix whose last element is not below an absent
`target`, the search returns the encoded insertion point. -/
theorem binarySearch_absent (source : Int → Nat) (n : Int) (target : Nat)
    (hn : 1 ≤ n) (hinc : increasing source n) (habs : ¬ occurs source n target)
    (hlast : target ≤ source (n - 1)) :
    ∃ p, 0 ≤ p ∧ p < n ∧ (∀ i, 0 ≤ i → i < p → source i < target) ∧
      (∀ i, p ≤ i → i < n → target < source i) ∧
      binarySearch source n target = -p - 1 := by
  obtain ⟨p, hp0, hpn, hlow, hup, hres⟩ := binarySearch_spec source n target hn hinc
  have hpn2 : p < n := by
    by_contra hc
    have := hlow (n - 1) (by omega) (by omega)
    omega
  refine ⟨p, hp0, hpn2, hlow, ?_, ?_⟩
  · intro i hpi hin
    have h1 := hup i hpi hin
    have h2 : source i ≠ target := fun h => habs ⟨i, by omega, hin, h⟩
    omega
  · have h2 : source p ≠ target := fun h => habs ⟨p, hp0, hpn2, h⟩
    rw [hres, if_neg h2]

/-! ## Growth -/

theorem increaseCapacity_cardinality (arr : array_container_t) (min max : Int) (copy : Bool)
    (fresh : Int → Nat) :
    (increaseCapacity arr min max copy fresh).cardinality = arr.cardinality := rfl

/-- With the ceiling `INT32_MAX` the new capacity is at least
`INT32_MAX - INT32_MAX / 16`. -/
theorem increaseCapacity_capacity_ge (arr : array_container_t) (min : Int) (copy : Bool)
    (fresh : Int → Nat) :
    2013265920 ≤ (increaseCapacity arr min INT32_MAX copy fresh).capacity := by
  simp only [increaseCapacity, INT32_MAX]
  have e : (2147483647 : Int) - Int.tdiv 2147483647 16 = 2013265920 := by decide
  rw [e]
  split <;> omega

/-- A preserving growth to the ceiling `INT32_MAX` keeps every slot that lies
inside the old block, up to the size of the new one. -/
theorem increaseCapacity_data (arr : array_container_t) (min : Int) (fresh : Int → Nat)
    (i : Int) (h0 : 0 ≤ i) (h1 : 2 * i + 2 ≤ arr.array.size) (h2 : 2 * i + 2 ≤ 2013265920) :
    (increaseCapacity arr min INT32_MAX true fresh).array.data i = arr.array.data i := by
  have hc := increaseCapacity_capacity_ge arr min true fresh
  simp only [increaseCapacity, realloc, if_true] at hc ⊢
  rw [if_pos]
  refine ⟨h0, ?_⟩
  omega

/-- A strictly increasing sequence of 16-bit values has at most 65536 terms. -/
theorem increasing_length_le (a : Int → Nat) (n : Int) (hinc : increasing a n)
    (hb : ∀ i, 0 ≤ i → i < n → a i < 65536) : n ≤ 65536 := by
  have key : ∀ k : Nat, (k : Int) < n → k ≤ a (k : Int) := by
    intro k
    induction k with
    | zero => intro _; exact Nat.zero_le _
    | succ k ih =>
      intro hk
      have h1 := ih (by omega)
      have h2 := hinc (k : Int) ((k + 1 : Nat) : Int) (by omega) (by omega) hk
      omega
  by_contra hc
  have h1 := key 65536 (by omega)
  have h2 := hb ((65536 : Nat) : Int) (by omega) (by omega)
  omega

theorem wf_increasing (arr : array_container_t) (h : wf arr) :
    increasing arr.array.data arr.cardinality :=
  (pairwise_prefixOf _ _).mp h.2.2.1

theorem wf_cardinality_le (arr : array_container_t) (h : wf arr) : arr.cardinality ≤ 65536 := by
  apply increasing_length_le arr.array.data arr.cardinality (wf_increasing arr h)
  intro i h0 hi
  exact h.2.2.2 _ ((mem_prefixOf _ _ _).mpr ⟨i, h0, hi, rfl⟩)

/-! ## Insertion and deletion in a sorted prefix -/

/-- A buffer `d3` that agrees with `d` below `p`, holds `x` at `p` and holds
the elements of `d` from `p` on one slot further is the sorted insertion of `x`
into the first `n` slots of `d`. -/
theorem insert_spec (d d3 : Int → Nat) (n p : Int) (x : Nat)
    (hinc : increasing d n) (hp0 : 0 ≤ p) (hpn : p ≤ n)
    (hlow : ∀ i, 0 ≤ i → i < p → d i < x) (hup : ∀ i, p ≤ i → i < n → x < d i)
    (h_lo : ∀ j, 0 ≤ j → j < p → d3 j = d j) (h_p : d3 p = x)
    (h_hi : ∀ j, p < j → j ≤ n → d3 j = d (j - 1)) :
    increasing d3 (n + 1) ∧ ∀ v, occurs d3 (n + 1) v ↔ (occurs d n v ∨ v = x) := by
  constructor
  · intro i j h0 hij hjn
    rcases lt_trichotomy j p with hj | hj | hj
    · rw [h_lo i h0 (by omega), h_lo j (by omega) hj]
      exact hinc i j h0 hij (by omega)
    · subst hj
      rw [h_lo i h0 hij, h_p]
      exact hlow i h0 hij
    · rw [h_hi j hj (by omega)]
      have hj1 := hup (j - 1) (by omega) (by omega)
      rcases lt_trichotomy i p with hi | hi | hi
      · rw [h_lo i h0 hi]
        have := hlow i h0 hi
        omega
      · subst hi
        rw [h_p]; exact hj1
      · rw [h_hi i hi (by omega)]
        exact hinc (i - 1) (j - 1) (by omega) (by omega) (by omega)
  · intro v
    constructor
    · rintro ⟨i, h0, hin, hv⟩
      rcases lt_trichotomy i p with hi | hi | hi
      · rw [h_lo i h0 hi] at hv
        exact Or.inl ⟨i, h0, by omega, hv⟩
      · subst hi
        rw [h_p] at hv
        exact Or.inr hv.symm
      · rw [h_hi i hi (by omega)] at hv
        exact Or.inl ⟨i - 1, by omega, by omega, hv⟩
    · rintro (⟨i, h0, hin, hv⟩ | hv)
      · by_cases hi : i < p
        · exact ⟨i, h0, by omega, by rw [h_lo i h0 hi]; exact hv⟩
        · refine ⟨i + 1, by omega, by omega, ?_⟩
          rw [h_hi (i + 1) (by omega) (by omega)]
          simpa using hv
      · exact ⟨p, hp0, by omega, by rw [h_p]; exact hv.symm⟩

/-- What `array_container_add` does to a well-formed container, on the level of
buffers: either `x` occurs and nothing changes, or `x` is absent and the new
buffer is the old one with `x` inserted at its insertion point `p`. -/
theorem add_cases (arr : array_container_t) (x : Nat) (fresh : Int → Nat) (hwf : wf arr) :
    (occurs arr.array.data arr.cardinality x ∧ array_container_add arr x fresh = (false, arr)) ∨
    (¬ occurs arr.array.data arr.cardinality x ∧
      (array_container_add arr x fresh).1 = true ∧
      (array_container_add arr x fresh).2.cardinality = arr.cardinality + 1 ∧
      ∃ p, 0 ≤ p ∧ p ≤ arr.cardinality ∧
        (∀ i, 0 ≤ i → i < p → arr.array.data i < x) ∧
        (∀ i, p ≤ i → i < arr.cardinality → x < arr.array.data i) ∧
        (∀ j, 0 ≤ j → j < p →
          (array_container_add arr x fresh).2.array.data j = arr.array.data j) ∧
        (array_container_add arr x fresh).2.array.data p = x ∧
        (∀ j, p < j → j ≤ arr.cardinality →
          (array_container_add arr x fresh).2.array.data j = arr.array.data (j - 1))) := by
  have hinc := wf_increasing arr hwf
  have hcard := wf_cardinality_le arr hwf
  obtain ⟨hc0, hsize, -, -⟩ := hwf
  have hkeep : ∀ (m : Int) (j : Int), 0 ≤ j → j < arr.cardinality →
      (increaseCapacity arr m INT32_MAX true fresh).array.data j = arr.array.data j :=
    fun m j h0 hj => increaseCapacity_data arr m fresh j h0 (by omega) (by omega)
  by_cases hfast : (arr.cardinality > 0 ∧ arr.array.data (arr.cardinality - 1) < x) ∨
      arr.cardinality = 0
  · right
    have hlow : ∀ i, 0 ≤ i → i < arr.cardinality → arr.array.data i < x := by
      intro i h0 hi
      rcases hfast with ⟨_, h⟩ | h
      · have := increasing_mono _ _ hinc i (arr.cardinality - 1) h0 (by omega) (by omega)
        omega
      · omega
    have hres : array_container_add arr x fresh = (true, append arr x fresh) := by
      unfold array_container_add
      rw [if_pos hfast]
    rw [hres]
    refine ⟨?_, rfl, ?_, arr.cardinality, hc0, le_refl _, hlow, fun i h1 h2 => by omega, ?_, ?_,
      fun j h1 h2 => by omega⟩
    · rintro ⟨i, h0, hi, hv⟩
      have := hlow i h0 hi
      omega
    · unfold append
      split <;> rfl
    · intro j h0 hj
      unfold append
      by_cases hg : arr.cardinality = arr.capacity
      · simp only [hg, if_true, store]
        rw [if_neg (by rw [increaseCapacity_cardinality]; omega)]
        exact hkeep _ j h0 (by omega)
      · simp only [hg, if_false, store]
        rw [if_neg (by omega)]
    · unfold append
      by_cases hg : arr.cardinality = arr.capacity
      · simp only [hg, if_true, store, increaseCapacity_cardinality]
      · simp only [hg, if_false, store, if_true]
  · have hpos : 1 ≤ arr.cardinality := by
      by_contra hc
      exact hfast (Or.inr (by omega))
    have hlast : x ≤ arr.array.data (arr.cardinality - 1) := by
      by_contra hc
      exact hfast (Or.inl ⟨by omega, by omega⟩)
    by_cases hocc : occurs arr.array.data arr.cardinality x
    · left
      refine ⟨hocc, ?_⟩
      obtain ⟨i, h0, hi, hv⟩ := hocc
      have hb := binarySearch_found _ _ _ hinc i h0 hi hv
      unfold array_container_add
      rw [if_neg hfast]
      simp only [hb]
      rw [if_neg (by omega)]
    · right
      obtain ⟨p, hp0, hpn, hlow, hup, hb⟩ := binarySearch_absent _ _ _ hpos hinc hocc hlast
      have hres : array_container_add arr x fresh =
          (true, { cardinality := arr.cardinality + 1
                   capacity := (increaseCapacity arr (wrap32 (arr.capacity + 1)) INT32_MAX true
                     fresh).capacity
                   array := { size := (increaseCapacity arr (wrap32 (arr.capacity + 1)) INT32_MAX
                                true fresh).array.size
                              data := store (memmove (increaseCapacity arr
                                (wrap32 (arr.capacity + 1)) INT32_MAX true fresh).array.data
                                (p + 1) p (arr.cardinality - p)) p x } }) := by
        unfold array_container_add
        rw [if_neg hfast]
        simp only [hb]
        rw [if_pos (by omega)]
        simp only [if_true, increaseCapacity_cardinality]
        have e : -(-p - 1) - 1 = p := by omega
        rw [e]
      rw [hres]
      refine ⟨hocc, rfl, rfl, p, hp0, by omega, hlow, hup, ?_, ?_, ?_⟩
      · intro j h0 hj
        simp only [store, memmove]
        rw [if_neg (by omega), if_neg (by omega)]
        exact hkeep _ j h0 (by omega)
      · simp only [store, if_true]
      · intro j h1 h2
        simp only [store, memmove]
        rw [if_neg (by omega), if_pos (by omega)]
        have e : p + (j - (p + 1)) = j - 1 := by omega
        rw [e]
        exact hkeep _ (j - 1) (by omega) (by omega)

/-- When `x` occurs in a strictly increasing prefix, `array_container_add`
returns false and changes nothing. -/
theorem add_of_occurs (arr : array_container_t) (x : Nat) (fresh : Int → Nat)
    (hinc : increasing arr.array.data arr.cardinality)
    (hocc : occurs arr.array.data arr.cardinality x) :
    array_container_add arr x fresh = (false, arr) := by
  obtain ⟨i, h0, hi, hv⟩ := hocc
  have hb := binarySearch_found _ _ _ hinc i h0 hi hv
  have hlast := increasing_mono _ _ hinc i (arr.cardinality - 1) h0 (by omega) (by omega)
  have hfast : ¬ ((arr.cardinality > 0 ∧ arr.array.data (arr.cardinality - 1) < x) ∨
      arr.cardinality = 0) := by
    rintro (⟨_, h⟩ | h) <;> omega
  unfold array_container_add
  rw [if_neg hfast]
  simp only [hb]
  rw [if_neg (by omega)]

/-- Deleting slot `loc` by the `memmove` of `array_container_remove`. -/
theorem prefixOf_memmove_erase (d : Int → Nat) (n loc : Int) (h0 : 0 ≤ loc) (hl : loc < n) :
    prefixOf (memmove d loc (loc + 1) (n - loc)) (n - 1) = (prefixOf d n).eraseIdx loc.toNat := by
  apply List.ext_getElem
  · rw [List.length_eraseIdx, length_prefixOf, length_prefixOf, if_pos (by omega)]
    omega
  · intro k h1 h2
    rw [length_prefixOf] at h1
    simp only [prefixOf, List.getElem_map, List.getElem_range, List.getElem_eraseIdx, memmove]
    by_cases hk : k < loc.toNat
    · rw [dif_pos hk, if_neg (by omega)]
    · rw [dif_neg hk, if_pos (by omega)]
      congr 1
      push_cast
      omega

/-- What `array_container_contains` computes on a strictly increasing live
prefix: it is true for the values of the prefix and, besides, for a value above
the last live element that equals the slot at index `cardinality`. -/
theorem contains_iff (arr : array_container_t) (x : Nat) (h0 : 0 ≤ arr.cardinality)
    (hinc : increasing arr.array.data arr.cardinality) :
    array_container_contains arr x = true ↔
      (occurs arr.array.data arr.cardinality x ∨
        (1 ≤ arr.cardinality ∧ arr.array.data (arr.cardinality - 1) < x ∧
          arr.array.data arr.cardinality = x)) := by
  unfold array_container_contains
  simp only [decide_eq_true_eq]
  by_cases hn : arr.cardinality = 0
  · have hb : binarySearch arr.array.data arr.cardinality x = -1 := by
      unfold binarySearch
      rw [if_pos hn]
    rw [hb]
    constructor
    · intro h; omega
    · rintro (⟨i, a1, a2, -⟩ | ⟨a1, -⟩) <;> omega
  · have hn1 : 1 ≤ arr.cardinality := by omega
    obtain ⟨p, hp0, hpn, hlow, hup, hres⟩ := binarySearch_spec _ _ x hn1 hinc
    rw [hres]
    by_cases hv : arr.array.data p = x
    · rw [if_pos hv]
      refine ⟨fun _ => ?_, fun _ => hp0⟩
      by_cases hpc : p < arr.cardinality
      · exact Or.inl ⟨p, hp0, hpc, hv⟩
      · have e : p = arr.cardinality := by omega
        subst e
        exact Or.inr ⟨hn1, hlow _ (by omega) (by omega), hv⟩
    · rw [if_neg hv]
      constructor
      · intro h; omega
      · rintro (⟨i, a1, a2, a3⟩ | ⟨-, a2, a3⟩)
        · exfalso
          by_cases hip : i < p
          · have := hlow i a1 hip
            omega
          · have b1 := hup p (le_refl p) (by omega)
            have b2 := increasing_mono _ _ hinc p i hp0 (by omega) a2
            omega
        · exfalso
          by_cases hpc : p < arr.cardinality
          · have b1 := hup p (le_refl p) hpc
            have b2 := increasing_mono _ _ hinc p (arr.cardinality - 1) hp0 (by omega) (by omega)
            omega
          · have e : p = arr.cardinality := by omega
            subst e
            exact hv a3

/-! ## Claims C1 to C4 -/

/-- C1 (defect of the code): `array_container_contains` must be true only for
values of the live prefix, but `binarySearch` compares the target with the slot
at index `cardinality` when the target exceeds every live element. On the
reused destination container, whose live prefix is `[1]`, the call
`array_container_contains(arr, 5)` returns true. -/
theorem C1_contains_reads_slot_behind_prefix :
    reusedDestination.cardinality = 1 ∧ live reusedDestination = [1] ∧
      wf reusedDestination ∧ 5 ∉ live reusedDestination ∧
      array_container_contains reusedDestination 5 = true := by
  decide

/-- C2: on a well-formed container `array_container_add` returns true exactly
when `x` was not in the live prefix; afterwards the live prefix is strictly
increasing, its elements are the old ones together with `x`, and the
cardinality is one more when `x` was absent and unchanged when it was present.
Adding 5, 1, 3 to a new container gives `[1, 3, 5]`. -/
theorem C2_add_inserts_in_order (arr : array_container_t) (x : Nat) (fresh : Int → Nat)
    (hwf : wf arr) :
    (array_container_add arr x fresh).1 = decide (x ∉ live arr) ∧
    (live (array_container_add arr x fresh).2).Pairwise (· < ·) ∧
    (∀ v, v ∈ live (array_container_add arr x fresh).2 ↔ (v ∈ live arr ∨ v = x)) ∧
    (array_container_add arr x fresh).2.cardinality
      = arr.cardinality + (if x ∈ live arr then 0 else 1) ∧
    live (array_container_add (array_container_add (array_container_add
      (array_container_create (fun _ => 0)) 5 (fun _ => 0)).2 1 (fun _ => 0)).2 3
      (fun _ => 0)).2 = [1, 3, 5] := by
  have hinc := wf_increasing arr hwf
  have hmem : x ∈ live arr ↔ occurs arr.array.data arr.cardinality x := mem_prefixOf _ _ _
  refine ⟨?_, ?_, ?_, ?_, by decide⟩
  · rcases add_cases arr x fresh hwf with ⟨hocc, hres⟩ | ⟨hocc, hret, -, -⟩
    · rw [hres]; simp [hmem, hocc]
    · rw [hret]; simp [hmem, hocc]
  · rcases add_cases arr x fresh hwf with ⟨hocc, hres⟩ | ⟨hocc, -, hcard, p, hp0, hpn, hlow, hup,
      h_lo, h_p, h_hi⟩
    · rw [hres]; exact hwf.2.2.1
    · unfold live
      rw [pairwise_prefixOf, hcard]
      exact (insert_spec _ _ _ p x hinc hp0 hpn hlow hup h_lo h_p h_hi).1
  · intro v
    rcases add_cases arr x fresh hwf with ⟨hocc, hres⟩ | ⟨hocc, -, hcard, p, hp0, hpn, hlow, hup,
      h_lo, h_p, h_hi⟩
    · rw [hres]
      constructor
      · exact Or.inl
      · rintro (h | h)
        · exact h
        · subst h; exact hmem.mpr hocc
    · unfold live
      rw [mem_prefixOf, mem_prefixOf, hcard]
      exact (insert_spec _ _ _ p x hinc hp0 hpn hlow hup h_lo h_p h_hi).2 v
  · rcases add_cases arr x fresh hwf with ⟨hocc, hres⟩ | ⟨hocc, -, hcard, -⟩
    · rw [hres, if_pos (hmem.mpr hocc)]; simp
    · rw [hcard, if_neg (fun h => hocc (hmem.mp h))]

/-- Witness of C2 on the container `[1, 3, 5]` with the key 4. -/
theorem C2_add_inserts_in_order_witness :
    wf (mkContainer 3 [1, 3, 5]) ∧
    (array_container_add (mkContainer 3 [1, 3, 5]) 4 (fun _ => 0)).1
      = decide (4 ∉ live (mkContainer 3 [1, 3, 5])) ∧
    live (array_container_add (mkContainer 3 [1, 3, 5]) 4 (fun _ => 0)).2 = [1, 3, 4, 5] :=
  ⟨by decide,
   (C2_add_inserts_in_order (mkContainer 3 [1, 3, 5]) 4 (fun _ => 0) (by decide)).1, by decide⟩

/-- C3: when the strictly increasing live prefix holds `x` at index `loc`,
`array_container_remove` returns true, the cardinality drops by one and the
live prefix is the old one with the element at `loc` deleted, the other
elements keeping their order. Removing 3 from `[1, 3, 5]` gives `[1, 5]`. -/
theorem C3_remove_present (arr : array_container_t) (x : Nat) (loc : Int)
    (hs : (live arr).Pairwise (· < ·)) (h0 : 0 ≤ loc) (hl : loc < arr.cardinality)
    (hx : arr.array.data loc = x) :
    (array_container_remove arr x).1 = true ∧
    (array_container_remove arr x).2.cardinality = arr.cardinality - 1 ∧
    live (array_container_remove arr x).2 = (live arr).eraseIdx loc.toNat ∧
    live (array_container_remove (mkContainer 3 [1, 3, 5]) 3).2 = [1, 5] := by
  have hinc : increasing arr.array.data arr.cardinality := (pairwise_prefixOf _ _).mp hs
  have hb := binarySearch_found _ _ _ hinc loc h0 hl hx
  have hres : array_container_remove arr x =
      (true, { cardinality := arr.cardinality - 1
               capacity := arr.capacity
               array := { size := arr.array.size
                          data := memmove arr.array.data loc (loc + 1)
                            (arr.cardinality - loc) } }) := by
    unfold array_container_remove
    simp only [hb]
    rw [if_pos (by omega)]
  rw [hres]
  refine ⟨rfl, rfl, ?_, by decide⟩
  exact prefixOf_memmove_erase _ _ _ h0 hl

/-- Witness of C3: removing 3, found at index 1, from `[1, 3, 5]`. -/
theorem C3_remove_present_witness :
    (live (mkContainer 3 [1, 3, 5])).Pairwise (· < ·) ∧
    (mkContainer 3 [1, 3, 5]).array.data 1 = 3 ∧
    (array_container_remove (mkContainer 3 [1, 3, 5]) 3).1 = true ∧
    (array_container_remove (mkContainer 3 [1, 3, 5]) 3).2.cardinality = 3 - 1 :=
  ⟨by decide, by decide,
   (C3_remove_present (mkContainer 3 [1, 3, 5]) 3 1 (by decide) (by decide) (by decide)
      (by decide)).1,
   (C3_remove_present (mkContainer 3 [1, 3, 5]) 3 1 (by decide) (by decide) (by decide)
      (by decide)).2.1⟩

/-- C4 (defect of the code): removing an absent value must return false and
change nothing, but `binarySearch` reports a value above the maximum as found
when the slot at index `cardinality` holds it. On the reused destination
container, whose live prefix is `[1]`, `array_container_remove(arr, 5)` returns
true and leaves an empty live prefix. -/
theorem C4_remove_absent_drops_element :
    live reusedDestination = [1] ∧ 5 ∉ live reusedDestination ∧
      (array_container_remove reusedDestination 5).1 = true ∧
      (array_container_remove reusedDestination 5).2.cardinality = 0 ∧
      live (array_container_remove reusedDestination 5).2 = [] := by
  decide

/-! ## Reachable containers -/

theorem increaseCapacity_size (arr : array_container_t) (min max : Int) (copy : Bool)
    (fresh : Int → Nat) :
    (increaseCapacity arr min max copy fresh).array.size
      = (increaseCapacity arr min max copy fresh).capacity.toNat := by
  cases copy <;> simp [increaseCapacity, realloc, malloc]

/-- The block of the container after `array_container_add`: either the old
block, with at most one more live slot and only when the container was not
full, or a block obtained by a growth to the ceiling. -/
theorem add_block (arr : array_container_t) (x : Nat) (fresh : Int → Nat) :
    ((array_container_add arr x fresh).2.array.size = arr.array.size ∧
      (array_container_add arr x fresh).2.capacity = arr.capacity ∧
      ((array_container_add arr x fresh).2.cardinality = arr.cardinality ∨
        ((array_container_add arr x fresh).2.cardinality = arr.cardinality + 1 ∧
          arr.cardinality ≠ arr.capacity))) ∨
    (2013265920 ≤ (array_container_add arr x fresh).2.capacity ∧
      2013265920 ≤ ((array_container_add arr x fresh).2.array.size : Int)) := by
  have hg : ∀ m, 2013265920 ≤ (increaseCapacity arr m INT32_MAX true fresh).capacity ∧
      2013265920 ≤ ((increaseCapacity arr m INT32_MAX true fresh).array.size : Int) := by
    intro m
    have h1 := increaseCapacity_capacity_ge arr m true fresh
    rw [increaseCapacity_size]
    exact ⟨h1, by omega⟩
  unfold array_container_add
  split
  · unfold append
    by_cases hc : arr.cardinality = arr.capacity
    · right
      simp only [hc, if_true]
      exact hg _
    · left
      simp [hc]
  · dsimp only
    split
    · right
      simp only [if_true]
      exact hg _
    · left
      exact ⟨rfl, rfl, Or.inl rfl⟩

/-- What `array_container_remove` does on a strictly increasing prefix: either
nothing, or it closes the slot at an index `p` with `0 ≤ p ≤ cardinality`. -/
theorem remove_cases (arr : array_container_t) (x : Nat) (h0 : 0 ≤ arr.cardinality)
    (hinc : increasing arr.array.data arr.cardinality) :
    array_container_remove arr x = (false, arr) ∨
    (1 ≤ arr.cardinality ∧ ∃ p, 0 ≤ p ∧ p ≤ arr.cardinality ∧
      array_container_remove arr x =
        (true, { cardinality := arr.cardinality - 1
                 capacity := arr.capacity
                 array := { size := arr.array.size
                            data := memmove arr.array.data p (p + 1)
                              (arr.cardinality - p) } })) := by
  by_cases hn : arr.cardinality = 0
  · left
    unfold array_container_remove binarySearch
    simp [hn]
  · have hn1 : 1 ≤ arr.cardinality := by omega
    obtain ⟨p, hp0, hpn, -, -, hres⟩ := binarySearch_spec _ _ x hn1 hinc
    by_cases hv : arr.array.data p = x
    · right
      refine ⟨hn1, p, hp0, hpn, ?_⟩
      rw [if_pos hv] at hres
      unfold array_container_remove
      simp only [hres]
      rw [if_pos (by omega)]
    · left
      rw [if_neg hv] at hres
      unfold array_container_remove
      simp only [hres]
      rw [if_neg (by omega)]

/-- Closing a slot of a strictly increasing prefix leaves a strictly
increasing prefix whose elements are elements of the old one. -/
theorem close_slot_spec (d : Int → Nat) (n p : Int) (hinc : increasing d n) :
    increasing (memmove d p (p + 1) (n - p)) (n - 1) ∧
      ∀ v, occurs (memmove d p (p + 1) (n - p)) (n - 1) v → occurs d n v := by
  have hval : ∀ j, 0 ≤ j → j < n - 1 →
      memmove d p (p + 1) (n - p) j = if p ≤ j then d (j + 1) else d j := by
    intro j h0 hj
    unfold memmove
    by_cases hpj : p ≤ j
    · rw [if_pos ⟨hpj, by omega⟩, if_pos hpj]
      congr 1; omega
    · rw [if_neg (fun h => hpj h.1), if_neg hpj]
  constructor
  · intro i j h0 hij hjn
    rw [hval i h0 (by omega), hval j (by omega) hjn]
    by_cases hi : p ≤ i
    · rw [if_pos hi, if_pos (by omega)]
      exact hinc _ _ (by omega) (by omega) (by omega)
    · rw [if_neg hi]
      by_cases hj : p ≤ j
      · rw [if_pos hj]
        exact hinc _ _ h0 (by omega) (by omega)
      · rw [if_neg hj]
        exact hinc _ _ h0 hij (by omega)
  · rintro v ⟨j, h0, hj, hv⟩
    rw [hval j h0 hj] at hv
    by_cases hpj : p ≤ j
    · rw [if_pos hpj] at hv
      exact ⟨j + 1, by omega, by omega, hv⟩
    · rw [if_neg hpj] at hv
      exact ⟨j, h0, by omega, hv⟩

theorem reachable_inv_create (fresh : Int → Nat) : reachable_inv (array_container_create fresh) := by
  refine ⟨⟨le_refl 0, ?_, ?_, ?_⟩, Or.inl ⟨rfl, rfl, by show (0 : Int) ≤ 16; omega⟩⟩
  · simp [array_container_create, malloc, DEFAULT_INIT_SIZE]
  · simp [live, prefixOf, array_container_create]
  · simp [live, prefixOf, array_container_create]

theorem reachable_inv_add (arr : array_container_t) (x : Nat) (fresh : Int → Nat)
    (h : reachable_inv arr) (hx : x < 65536) :
    reachable_inv (array_container_add arr x fresh).2 := by
  obtain ⟨hwf, hblock⟩ := h
  have hinc := wf_increasing arr hwf
  have hcard := wf_cardinality_le arr hwf
  rcases add_cases arr x fresh hwf with ⟨hocc, hres⟩ | ⟨hocc, -, hc, p, hp0, hpn, hlow, hup,
      h_lo, h_p, h_hi⟩
  · rw [hres]; exact ⟨hwf, hblock⟩
  · obtain ⟨hinc', hocc'⟩ := insert_spec _ _ _ p x hinc hp0 hpn hlow hup h_lo h_p h_hi
    have hval : ∀ v ∈ live (array_container_add arr x fresh).2, v < 65536 := by
      intro v hv
      unfold live at hv
      rw [mem_prefixOf, hc] at hv
      rcases (hocc' v).mp hv with h | h
      · exact hwf.2.2.2 v ((mem_prefixOf _ _ _).mpr h)
      · omega
    have hsorted : (live (array_container_add arr x fresh).2).Pairwise (· < ·) := by
      unfold live
      rw [pairwise_prefixOf, hc]
      exact hinc'
    have hcard' : (array_container_add arr x fresh).2.cardinality ≤ 65536 := by
      rw [hc]
      apply increasing_length_le _ _ hinc'
      intro i h0 hi
      have := hval ((array_container_add arr x fresh).2.array.data i)
        ((mem_prefixOf _ _ _).mpr ⟨i, h0, by rw [hc]; exact hi, rfl⟩)
      exact this
    obtain ⟨hw0, hwsize, -, -⟩ := hwf
    rcases add_block arr x fresh with ⟨hs, hcap, hcc⟩ | ⟨hcap, hs⟩
    · rcases hcc with hcc | ⟨hcc, hne⟩
      · omega
      · rcases hblock with ⟨b1, b2, b3⟩ | ⟨b1, b2⟩
        · refine ⟨⟨by omega, ?_, hsorted, hval⟩, Or.inl ⟨by omega, by omega, by omega⟩⟩
          rw [hs, b2]; omega
        · refine ⟨⟨by omega, ?_, hsorted, hval⟩, Or.inr ⟨by omega, by omega⟩⟩
          rw [hs]; omega
    · exact ⟨⟨by omega, by omega, hsorted, hval⟩, Or.inr ⟨hcap, hs⟩⟩

theorem reachable_inv_remove (arr : array_container_t) (x : Nat) (h : reachable_inv arr) :
    reachable_inv (array_container_remove arr x).2 := by
  obtain ⟨hwf, hblock⟩ := h
  have hinc := wf_increasing arr hwf
  rcases remove_cases arr x hwf.1 hinc with hres | ⟨hn1, p, hp0, hpn, hres⟩
  · rw [hres]; exact ⟨hwf, hblock⟩
  · rw [hres]
    obtain ⟨hinc', hocc'⟩ := close_slot_spec arr.array.data arr.cardinality p hinc
    obtain ⟨hw0, hwsize, -, hwval⟩ := hwf
    refine ⟨⟨?_, ?_, ?_, ?_⟩, ?_⟩
    · show 0 ≤ arr.cardinality - 1
      omega
    · show 2 * (arr.cardinality - 1) ≤ (arr.array.size : Int)
      omega
    · unfold live
      rw [pairwise_prefixOf]
      exact hinc'
    · intro v hv
      unfold live at hv
      rw [mem_prefixOf] at hv
      exact hwval v ((mem_prefixOf _ _ _).mpr (hocc' v hv))
    · rcases hblock with ⟨b1, b2, b3⟩ | ⟨b1, b2⟩
      · exact Or.inl ⟨b1, b2, by show arr.cardinality - 1 ≤ 16; omega⟩
      · exact Or.inr ⟨b1, b2⟩

theorem reachable_inv_run (ops : List op) :
    ∀ arr, reachable_inv arr → (∀ o ∈ ops, o.key < 65536) → reachable_inv (run arr ops) := by
  induction ops with
  | nil => intro arr h _; exact h
  | cons o ops ih =>
    intro arr h hk
    have hk0 := hk o (List.mem_cons_self _ _)
    have hk1 : ∀ o2 ∈ ops, o2.key < 65536 := fun o2 h2 => hk o2 (List.mem_cons_of_mem _ h2)
    show reachable_inv (run (step arr o) ops)
    apply ih _ _ hk1
    cases o with
    | add x fresh => exact reachable_inv_add arr x fresh h hk0
    | remove x => exact reachable_inv_remove arr x h

/-! ## Claims C5, C9 and C10 -/

/-- C5: starting from a newly created container, after any finite sequence of
`array_container_add` and `array_container_remove` calls with 16-bit keys the
live prefix is strictly increasing. -/
theorem C5_sorted_after_any_calls (fresh : Int → Nat) (ops : List op)
    (hk : ∀ o ∈ ops, o.key < 65536) :
    (live (run (array_container_create fresh) ops)).Pairwise (· < ·) :=
  (reachable_inv_run ops _ (reachable_inv_create fresh) hk).1.2.2.1

/-- Witness of C5: add 5, add 1, remove 5, add 3 leaves `[1, 3]`. -/
theorem C5_sorted_after_any_calls_witness :
    (∀ o ∈ [op.add 5 (fun _ => 0), op.add 1 (fun _ => 0), op.remove 5, op.add 3 (fun _ => 0)],
      o.key < 65536) ∧
    live (run (array_container_create (fun _ => 0))
      [op.add 5 (fun _ => 0), op.add 1 (fun _ => 0), op.remove 5, op.add 3 (fun _ => 0)])
      = [1, 3] ∧
    (live (run (array_container_create (fun _ => 0))
      [op.add 5 (fun _ => 0), op.add 1 (fun _ => 0), op.remove 5, op.add 3 (fun _ => 0)])).Pairwise
      (· < ·) :=
  ⟨by simp [op.key], by decide,
   C5_sorted_after_any_calls (fun _ => 0)
     [op.add 5 (fun _ => 0), op.add 1 (fun _ => 0), op.remove 5, op.add 3 (fun _ => 0)]
     (by simp [op.key])⟩

/-- C9: on a well-formed container that does not hold `x`,
`array_container_add` followed by `array_container_remove` returns true both
times and restores the cardinality and the live prefix. -/
theorem C9_add_then_remove (arr : array_container_t) (x : Nat) (fresh : Int → Nat)
    (hwf : wf arr) (hx : x ∉ live arr) :
    (array_container_add arr x fresh).1 = true ∧
    (array_container_remove (array_container_add arr x fresh).2 x).1 = true ∧
    (array_container_remove (array_container_add arr x fresh).2 x).2.cardinality
      = arr.cardinality ∧
    live (array_container_remove (array_container_add arr x fresh).2 x).2 = live arr := by
  have hinc := wf_increasing arr hwf
  have habs : ¬ occurs arr.array.data arr.cardinality x := fun h => hx ((mem_prefixOf _ _ _).mpr h)
  rcases add_cases arr x fresh hwf with ⟨hocc, -⟩ | ⟨-, hret, hc, p, hp0, hpn, hlow, hup,
      h_lo, h_p, h_hi⟩
  · exact absurd hocc habs
  · obtain ⟨hinc', -⟩ := insert_spec _ _ _ p x hinc hp0 hpn hlow hup h_lo h_p h_hi
    generalize array_container_add arr x fresh = A at hret hc h_lo h_p h_hi hinc'
    have hb := binarySearch_found A.2.array.data (arr.cardinality + 1) x hinc' p hp0 (by omega) h_p
    have hres : array_container_remove A.2 x =
        (true, { cardinality := arr.cardinality
                 capacity := A.2.capacity
                 array := { size := A.2.array.size
                            data := memmove A.2.array.data p (p + 1)
                              (arr.cardinality + 1 - p) } }) := by
      unfold array_container_remove
      simp only [hc, hb]
      rw [if_pos hp0]
      simp
    rw [hres]
    refine ⟨hret, rfl, rfl, ?_⟩
    unfold live
    apply prefixOf_congr
    intro j h0 (hj : j < arr.cardinality)
    show memmove A.2.array.data p (p + 1) (arr.cardinality + 1 - p) j = arr.array.data j
    unfold memmove
    by_cases hpj : p ≤ j
    · rw [if_pos ⟨hpj, by omega⟩, h_hi _ (by omega) (by omega)]
      congr 1; omega
    · rw [if_neg (fun h => hpj h.1)]
      exact h_lo j h0 (by omega)

/-- Witness of C9: adding 4 to `[1, 3, 5]` and removing it again. -/
theorem C9_add_then_remove_witness :
    wf (mkContainer 3 [1, 3, 5]) ∧ 4 ∉ live (mkContainer 3 [1, 3, 5]) ∧
    live (array_container_remove (array_container_add (mkContainer 3 [1, 3, 5]) 4
      (fun _ => 0)).2 4).2 = live (mkContainer 3 [1, 3, 5]) :=
  ⟨by decide, by decide,
   (C9_add_then_remove (mkContainer 3 [1, 3, 5]) 4 (fun _ => 0) (by decide) (by decide)).2.2.2⟩

/-- C10: on a well-formed container a second `array_container_add` of the same
key right after the first returns false and leaves the container, that is its
capacity, cardinality, block and content, as the first call left it. -/
theorem C10_add_twice (arr : array_container_t) (x : Nat) (f1 f2 : Int → Nat) (hwf : wf arr) :
    array_container_add (array_container_add arr x f1).2 x f2
      = (false, (array_container_add arr x f1).2) := by
  have hinc := wf_increasing arr hwf
  rcases add_cases arr x f1 hwf with ⟨hocc, hres⟩ | ⟨-, -, hc, p, hp0, hpn, hlow, hup,
      h_lo, h_p, h_hi⟩
  · rw [hres]
    exact add_of_occurs arr x f2 hinc hocc
  · obtain ⟨hinc', -⟩ := insert_spec _ _ _ p x hinc hp0 hpn hlow hup h_lo h_p h_hi
    apply add_of_occurs
    · rw [hc]; exact hinc'
    · rw [hc]; exact ⟨p, hp0, by omega, h_p⟩

/-- Witness of C10: adding 4 twice to `[1, 3, 5]`. -/
theorem C10_add_twice_witness :
    wf (mkContainer 3 [1, 3, 5]) ∧
    (array_container_add (array_container_add (mkContainer 3 [1, 3, 5]) 4 (fun _ => 0)).2 4
      (fun _ => 1)).1 = false :=
  ⟨by decide,
   congrArg Prod.fst (C10_add_twice (mkContainer 3 [1, 3, 5]) 4 (fun _ => 0) (fun _ => 1)
     (by decide))⟩

/-! ## Union -/

theorem occurs_succ (a : Int → Nat) (k : Int) (hk : 0 ≤ k) (v : Nat) :
    occurs a (k + 1) v ↔ (occurs a k v ∨ a k = v) := by
  constructor
  · rintro ⟨i, h0, hi, hv⟩
    by_cases h : i = k
    · subst h; exact Or.inr hv
    · exact Or.inl ⟨i, h0, by omega, hv⟩
  · rintro (⟨i, h0, hi, hv⟩ | hv)
    · exact ⟨i, h0, by omega, hv⟩
    · exact ⟨k, hk, by omega, hv⟩

/-- Appending an element above all others to a strictly increasing prefix. -/
theorem store_extend (b : Int → Nat) (q : Int) (s : Nat) (hq : 0 ≤ q)
    (hb : increasing b q) (hbelow : below b q s) :
    increasing (store b q s) (q + 1) ∧
      (∀ v, occurs (store b q s) (q + 1) v ↔ (occurs b q v ∨ v = s)) ∧
      (∀ t, s < t → below (store b q s) (q + 1) t) := by
  have hval : ∀ i, i < q → store b q s i = b i := by
    intro i hi
    unfold store
    rw [if_neg (by omega)]
  have hq_val : store b q s q = s := by
    unfold store
    rw [if_pos rfl]
  refine ⟨?_, ?_, ?_⟩
  · intro i j h0 hij hj
    rw [hval i (by omega)]
    by_cases hjq : j = q
    · subst hjq
      rw [hq_val]
      exact hbelow i h0 hij
    · rw [hval j (by omega)]
      exact hb i j h0 hij (by omega)
  · intro v
    rw [occurs_succ _ _ hq, hq_val]
    constructor
    · rintro (⟨i, h0, hi, hv⟩ | hv)
      · rw [hval i hi] at hv
        exact Or.inl ⟨i, h0, hi, hv⟩
      · exact Or.inr hv.symm
    · rintro (⟨i, h0, hi, hv⟩ | hv)
      · exact Or.inl ⟨i, h0, hi, by rw [hval i hi]; exact hv⟩
      · exact Or.inr hv.symm
  · intro t hst i h0 hi
    by_cases hiq : i = q
    · subst hiq
      rw [hq_val]; exact hst
    · rw [hval i (by omega)]
      have := hbelow i h0 (by omega)
      omega

/-- Copying the rest `a[k..len)` of a strictly increasing input behind a
strictly increasing output whose elements are below `a[k]`. -/
theorem memcpy_extend (b : Int → Nat) (q : Int) (a : Int → Nat) (len k : Int)
    (hq : 0 ≤ q) (hb : increasing b q) (ha : increasing a len) (hk0 : 0 ≤ k) (hk : k ≤ len)
    (hbelow : k < len → below b q (a k)) :
    increasing (memcpy b q a k (len - k)) (q + (len - k)) ∧
      ∀ v, occurs (memcpy b q a k (len - k)) (q + (len - k)) v ↔
        (occurs b q v ∨ ∃ i, k ≤ i ∧ i < len ∧ a i = v) := by
  have hlo : ∀ i, i < q → memcpy b q a k (len - k) i = b i := by
    intro i hi
    unfold memcpy
    rw [if_neg (by omega)]
  have hhi : ∀ i, q ≤ i → i < q + (len - k) → memcpy b q a k (len - k) i = a (k + (i - q)) := by
    intro i h1 h2
    unfold memcpy
    rw [if_pos ⟨h1, h2⟩]
  constructor
  · intro i j h0 hij hj
    by_cases hjq : j < q
    · rw [hlo i (by omega), hlo j hjq]
      exact hb i j h0 hij hjq
    · rw [hhi j (by omega) hj]
      by_cases hiq : i < q
      · rw [hlo i hiq]
        have h1 := hbelow (by omega) i h0 hiq
        have h2 := increasing_mono a len ha k (k + (j - q)) hk0 (by omega) (by omega)
        omega
      · rw [hhi i (by omega) (by omega)]
        exact ha _ _ (by omega) (by omega) (by omega)
  · intro v
    constructor
    · rintro ⟨i, h0, hi, hv⟩
      by_cases hiq : i < q
      · rw [hlo i hiq] at hv
        exact Or.inl ⟨i, h0, hiq, hv⟩
      · rw [hhi i (by omega) hi] at hv
        exact Or.inr ⟨k + (i - q), by omega, by omega, hv⟩
    · rintro (⟨i, h0, hi, hv⟩ | ⟨i, h1, h2, hv⟩)
      · exact ⟨i, h0, by omega, by rw [hlo i hi]; exact hv⟩
      · refine ⟨q + (i - k), by omega, by omega, ?_⟩
        rw [hhi _ (by omega) (by omega)]
        have e : k + (q + (i - k) - q) = i := by omega
        rw [e]; exact hv

theorem occurs_split (a : Int → Nat) (len k : Int) (hk0 : 0 ≤ k) (hk : k ≤ len) (v : Nat) :
    occurs a len v ↔ (occurs a k v ∨ ∃ i, k ≤ i ∧ i < len ∧ a i = v) := by
  constructor
  · rintro ⟨i, h0, hi, hv⟩
    by_cases h : i < k
    · exact Or.inl ⟨i, h0, h, hv⟩
    · exact Or.inr ⟨i, by omega, hi, hv⟩
  · rintro (⟨i, h0, hi, hv⟩ | ⟨i, h1, h2, hv⟩)
    · exact ⟨i, h0, by omega, hv⟩
    · exact ⟨i, by omega, h2, hv⟩

/-- The result of a union routine: a strictly increasing output prefix of
length at most `len1 + len2` whose elements are those of the two inputs. -/
theorem union_exit (b : Int → Nat) (q : Int) (a : Int → Nat) (len k : Int)
    (o : Int → Nat) (olen : Int)
    (hq : 0 ≤ q) (hb : increasing b q) (ha : increasing a len) (hk0 : 0 ≤ k) (hk : k ≤ len)
    (hbelow : k < len → below b q (a k))
    (hocc : ∀ v, occurs b q v ↔ (occurs o olen v ∨ occurs a k v)) :
    increasing (memcpy b q a k (len - k)) (q + (len - k)) ∧
      ∀ v, occurs (memcpy b q a k (len - k)) (q + (len - k)) v ↔
        (occurs o olen v ∨ occurs a len v) := by
  obtain ⟨h1, h2⟩ := memcpy_extend b q a len k hq hb ha hk0 hk hbelow
  refine ⟨h1, fun v => ?_⟩
  rw [h2 v, hocc v, occurs_split a len k hk0 hk v]
  tauto

/-- Invariant of the loop of `union2by2`: the output holds, in increasing
order, the elements of the two inputs below the cursors, all below the two
current elements; the budget covers the elements still to be consumed. -/
theorem union2by2_loop_spec (set1 : Int → Nat) (len1 : Int) (set2 : Int → Nat) (len2 : Int)
    (h1 : increasing set1 len1) (h2 : increasing set2 len2) (fuel : Nat) :
    ∀ (buffer : Int → Nat) (pos k1 k2 : Int), 0 ≤ k1 → k1 < len1 → 0 ≤ k2 → k2 < len2 →
      0 ≤ pos → pos ≤ k1 + k2 → (len1 - k1) + (len2 - k2) ≤ fuel + 1 →
      increasing buffer pos → below buffer pos (set1 k1) → below buffer pos (set2 k2) →
      (∀ v, occurs buffer pos v ↔ (occurs set1 k1 v ∨ occurs set2 k2 v)) →
      0 ≤ (union2by2_loop set1 len1 set2 len2 fuel buffer pos k1 k2 (set1 k1) (set2 k2)).1 ∧
      (union2by2_loop set1 len1 set2 len2 fuel buffer pos k1 k2 (set1 k1) (set2 k2)).1
        ≤ len1 + len2 ∧
      increasing
        (union2by2_loop set1 len1 set2 len2 fuel buffer pos k1 k2 (set1 k1) (set2 k2)).2
        (union2by2_loop set1 len1 set2 len2 fuel buffer pos k1 k2 (set1 k1) (set2 k2)).1 ∧
      ∀ v, occurs
        (union2by2_loop set1 len1 set2 len2 fuel buffer pos k1 k2 (set1 k1) (set2 k2)).2
        (union2by2_loop set1 len1 set2 len2 fuel buffer pos k1 k2 (set1 k1) (set2 k2)).1 v ↔
        (occurs set1 len1 v ∨ occurs set2 len2 v) := by
  induction fuel with
  | zero =>
    intro buffer pos k1 k2 hk10 hk1 hk20 hk2 hp0 hpk hf
    omega
  | succ fuel ih =>
    intro buffer pos k1 k2 hk10 hk1 hk20 hk2 hp0 hpk hf hb hb1 hb2 hocc
    unfold union2by2_loop
    by_cases hlt : set1 k1 < set2 k2
    · simp only [hlt, if_true]
      obtain ⟨e1, e2, e3⟩ := store_extend buffer pos (set1 k1) hp0 hb hb1
      have hocc' : ∀ v, occurs (store buffer pos (set1 k1)) (pos + 1) v ↔
          (occurs set1 (k1 + 1) v ∨ occurs set2 k2 v) := by
        intro v
        rw [e2 v, hocc v, occurs_succ set1 k1 hk10 v]
        constructor
        · rintro ((h | h) | h)
          · exact Or.inl (Or.inl h)
          · exact Or.inr h
          · exact Or.inl (Or.inr h.symm)
        · rintro ((h | h) | h)
          · exact Or.inl (Or.inl h)
          · exact Or.inr h.symm
          · exact Or.inl (Or.inr h)
      by_cases hex : k1 + 1 ≥ len1
      · simp only [hex, if_true]
        have hk1e : k1 + 1 = len1 := by omega
        have hocc2 : ∀ v, occurs (store buffer pos (set1 k1)) (pos + 1) v ↔
            (occurs set1 len1 v ∨ occurs set2 k2 v) := by
          intro v; rw [hocc' v, hk1e]
        obtain ⟨r1, r2⟩ := union_exit (store buffer pos (set1 k1)) (pos + 1) set2 len2 k2
          set1 len1 (by omega) e1 h2 hk20 (by omega) (fun _ => e3 _ hlt) hocc2
        exact ⟨by omega, by omega, r1, r2⟩
      · simp only [hex, if_false]
        exact ih _ _ _ _ (by omega) (by omega) hk20 hk2 (by omega) (by omega) (by omega) e1
          (e3 _ (h1 k1 (k1 + 1) hk10 (by omega) (by omega))) (e3 _ hlt) hocc'
    · simp only [hlt, if_false]
      by_cases heq : set1 k1 = set2 k2
      · simp only [heq, if_true]
        obtain ⟨e1, e2, e3⟩ := store_extend buffer pos (set2 k2) hp0 hb hb2
        have hocc' : ∀ v, occurs (store buffer pos (set2 k2)) (pos + 1) v ↔
            (occurs set1 (k1 + 1) v ∨ occurs set2 (k2 + 1) v) := by
          intro v
          rw [e2 v, hocc v, occurs_succ set1 k1 hk10 v, occurs_succ set2 k2 hk20 v, heq]
          constructor
          · rintro ((h | h) | h)
            · exact Or.inl (Or.inl h)
            · exact Or.inr (Or.inl h)
            · exact Or.inl (Or.inr h.symm)
          · rintro ((h | h) | (h | h))
            · exact Or.inl (Or.inl h)
            · exact Or.inr h.symm
            · exact Or.inl (Or.inr h)
            · exact Or.inr h.symm
        by_cases hex : k1 + 1 ≥ len1
        · simp only [hex, if_true]
          have hk1e : k1 + 1 = len1 := by omega
          have hocc2 : ∀ v, occurs (store buffer pos (set2 k2)) (pos + 1) v ↔
              (occurs set1 len1 v ∨ occurs set2 (k2 + 1) v) := by
            intro v; rw [hocc' v, hk1e]
          obtain ⟨r1, r2⟩ := union_exit (store buffer pos (set2 k2)) (pos + 1) set2 len2 (k2 + 1)
            set1 len1 (by omega) e1 h2 (by omega) (by omega)
            (fun hh => e3 _ (h2 k2 (k2 + 1) hk20 (by omega) hh)) hocc2
          exact ⟨by omega, by omega, r1, r2⟩
        · simp only [hex, if_false]
          by_cases hex2 : k2 + 1 ≥ len2
          · simp only [hex2, if_true]
            have hk2e : k2 + 1 = len2 := by omega
            have hocc2 : ∀ v, occurs (store buffer pos (set2 k2)) (pos + 1) v ↔
                (occurs set2 len2 v ∨ occurs set1 (k1 + 1) v) := by
              intro v; rw [hocc' v, hk2e]; exact Or.comm
            obtain ⟨r1, r2⟩ := union_exit (store buffer pos (set2 k2)) (pos + 1) set1 len1
              (k1 + 1) set2 len2 (by omega) e1 h1 (by omega) (by omega)
              (fun hh => e3 _ (by rw [← heq]; exact h1 k1 (k1 + 1) hk10 (by omega) hh)) hocc2
            exact ⟨by omega, by omega, r1, fun v => (r2 v).trans Or.comm⟩
          · simp only [hex2, if_false]
            exact ih _ _ _ _ (by omega) (by omega) (by omega) (by omega) (by omega) (by omega)
              (by omega) e1
              (e3 _ (by rw [← heq]; exact h1 k1 (k1 + 1) hk10 (by omega) (by omega)))
              (e3 _ (h2 k2 (k2 + 1) hk20 (by omega) (by omega))) hocc'
      · simp only [heq, if_false]
        have hgt : set2 k2 < set1 k1 := by omega
        obtain ⟨e1, e2, e3⟩ := store_extend buffer pos (set2 k2) hp0 hb hb2
        have hocc' : ∀ v, occurs (store buffer pos (set2 k2)) (pos + 1) v ↔
            (occurs set1 k1 v ∨ occurs set2 (k2 + 1) v) := by
          intro v
          rw [e2 v, hocc v, occurs_succ set2 k2 hk20 v]
          constructor
          · rintro ((h | h) | h)
            · exact Or.inl h
            · exact Or.inr (Or.inl h)
            · exact Or.inr (Or.inr h.symm)
          · rintro (h | (h | h))
            · exact Or.inl (Or.inl h)
            · exact Or.inl (Or.inr h)
            · exact Or.inr h.symm
        by_cases hex2 : k2 + 1 ≥ len2
        · simp only [hex2, if_true]
          have hk2e : k2 + 1 = len2 := by omega
          have hocc2 : ∀ v, occurs (store buffer pos (set2 k2)) (pos + 1) v ↔
              (occurs set2 len2 v ∨ occurs set1 k1 v) := by
            intro v; rw [hocc' v, hk2e]; exact Or.comm
          obtain ⟨r1, r2⟩ := union_exit (store buffer pos (set2 k2)) (pos + 1) set1 len1 k1
            set2 len2 (by omega) e1 h1 hk10 (by omega) (fun _ => e3 _ hgt) hocc2
          exact ⟨by omega, by omega, r1, fun v => (r2 v).trans Or.comm⟩
        · simp only [hex2, if_false]
          exact ih _ _ _ _ hk10 hk1 (by omega) (by omega) (by omega) (by omega) (by omega) e1
            (e3 _ hgt) (e3 _ (h2 k2 (k2 + 1) hk20 (by omega) (by omega))) hocc'

theorem increasing_zero (a : Int → Nat) : increasing a 0 := by
  intro i j h0 hij hj
  omega

theorem not_occurs_zero (a : Int → Nat) (v : Nat) : ¬ occurs a 0 v := by
  rintro ⟨i, h0, hi, -⟩
  omega

/-- A whole-input copy to the start of the output, the result of `union2by2`
when the other input is empty. -/
theorem memcpy_whole (b a : Int → Nat) (len : Int) :
    ∀ i, 0 ≤ i → i < len → memcpy b 0 a 0 len i = a i := by
  intro i h0 hi
  unfold memcpy
  rw [if_pos ⟨h0, by omega⟩]
  congr 1
  omega

/-- Function `union2by2` on strictly increasing inputs: the output prefix is
strictly increasing, it has at most `len1 + len2` elements and they are the
elements of the two inputs. -/
theorem union2by2_spec (set1 : Int → Nat) (len1 : Int) (set2 : Int → Nat) (len2 : Int)
    (buffer : Int → Nat) (hl1 : 0 ≤ len1) (hl2 : 0 ≤ len2)
    (h1 : increasing set1 len1) (h2 : increasing set2 len2) :
    0 ≤ (union2by2 set1 len1 set2 len2 buffer).1 ∧
    (union2by2 set1 len1 set2 len2 buffer).1 ≤ len1 + len2 ∧
    increasing (union2by2 set1 len1 set2 len2 buffer).2
      (union2by2 set1 len1 set2 len2 buffer).1 ∧
    ∀ v, occurs (union2by2 set1 len1 set2 len2 buffer).2
      (union2by2 set1 len1 set2 len2 buffer).1 v ↔ (occurs set1 len1 v ∨ occurs set2 len2 v) := by
  unfold union2by2
  by_cases e2 : 0 = len2
  · rw [if_pos e2]
    refine ⟨hl1, by omega, ?_, ?_⟩
    · intro i j h0 hij hj
      show memcpy buffer 0 set1 0 len1 i < memcpy buffer 0 set1 0 len1 j
      rw [memcpy_whole _ _ _ i h0 (by omega), memcpy_whole _ _ _ j (by omega) hj]
      exact h1 i j h0 hij hj
    · intro v
      subst e2
      constructor
      · rintro ⟨i, h0, hi, hv⟩
        have hi' : i < len1 := hi
        have hv' : memcpy buffer 0 set1 0 len1 i = v := hv
        rw [memcpy_whole _ _ _ i h0 hi'] at hv'
        exact Or.inl ⟨i, h0, hi', hv'⟩
      · rintro (⟨i, h0, hi, hv⟩ | h)
        · exact ⟨i, h0, hi, by
            show memcpy buffer 0 set1 0 len1 i = v
            rw [memcpy_whole _ _ _ i h0 hi]; exact hv⟩
        · exact absurd h (not_occurs_zero _ _)
  · rw [if_neg e2]
    by_cases e1 : 0 = len1
    · rw [if_pos e1]
      refine ⟨hl2, by omega, ?_, ?_⟩
      · intro i j h0 hij hj
        show memcpy buffer 0 set2 0 len2 i < memcpy buffer 0 set2 0 len2 j
        rw [memcpy_whole _ _ _ i h0 (by omega), memcpy_whole _ _ _ j (by omega) hj]
        exact h2 i j h0 hij hj
      · intro v
        subst e1
        constructor
        · rintro ⟨i, h0, hi, hv⟩
          have hi' : i < len2 := hi
          have hv' : memcpy buffer 0 set2 0 len2 i = v := hv
          rw [memcpy_whole _ _ _ i h0 hi'] at hv'
          exact Or.inr ⟨i, h0, hi', hv'⟩
        · rintro (h | ⟨i, h0, hi, hv⟩)
          · exact absurd h (not_occurs_zero _ _)
          · exact ⟨i, h0, hi, by
              show memcpy buffer 0 set2 0 len2 i = v
              rw [memcpy_whole _ _ _ i h0 hi]; exact hv⟩
    · rw [if_neg e1]
      apply union2by2_loop_spec set1 len1 set2 len2 h1 h2 _ buffer 0 0 0 (le_refl 0) (by omega)
        (le_refl 0) (by omega) (le_refl 0) (by omega) (by omega) (increasing_zero _)
      · intro i h0 hi; omega
      · intro i h0 hi; omega
      · intro v
        constructor
        · intro h; exact absurd h (not_occurs_zero _ _)
        · rintro (h | h) <;> exact absurd h (not_occurs_zero _ _)

/-! ## Claim C6 -/

/-- C6: for containers `A` and `B` with strictly increasing live prefixes and
any destination, after `array_container_union` the live prefix of the
destination is strictly increasing (so every common element appears once) and
its elements are exactly those of `A` and of `B`; when one input is empty the
result is a copy of the other. The union of `[1, 3, 5]` and `[2, 3, 4]` is
`[1, 2, 3, 4, 5]`. -/
theorem C6_union_is_sorted_set_union (A B out : array_container_t) (fresh : Int → Nat)
    (hA0 : 0 ≤ A.cardinality) (hB0 : 0 ≤ B.cardinality)
    (hA : (live A).Pairwise (· < ·)) (hB : (live B).Pairwise (· < ·)) :
    (live (array_container_union A B out fresh)).Pairwise (· < ·) ∧
    (∀ v, v ∈ live (array_container_union A B out fresh) ↔ (v ∈ live A ∨ v ∈ live B)) ∧
    (B.cardinality = 0 → live (array_container_union A B out fresh) = live A) ∧
    (A.cardinality = 0 → live (array_container_union A B out fresh) = live B) ∧
    live (array_container_union (mkContainer 3 [1, 3, 5]) (mkContainer 3 [2, 3, 4])
      (mkContainer 0 []) (fun _ => 0)) = [1, 2, 3, 4, 5] := by
  have hAi : increasing A.array.data A.cardinality := (pairwise_prefixOf _ _).mp hA
  have hBi : increasing B.array.data B.cardinality := (pairwise_prefixOf _ _).mp hB
  have key : ∀ buffer : Int → Nat,
      (prefixOf (union2by2 A.array.data A.cardinality B.array.data B.cardinality buffer).2
        (union2by2 A.array.data A.cardinality B.array.data B.cardinality buffer).1).Pairwise
        (· < ·) ∧
      (∀ v, v ∈ prefixOf
        (union2by2 A.array.data A.cardinality B.array.data B.cardinality buffer).2
        (union2by2 A.array.data A.cardinality B.array.data B.cardinality buffer).1 ↔
        (v ∈ live A ∨ v ∈ live B)) ∧
      (B.cardinality = 0 → prefixOf
        (union2by2 A.array.data A.cardinality B.array.data B.cardinality buffer).2
        (union2by2 A.array.data A.cardinality B.array.data B.cardinality buffer).1 = live A) ∧
      (A.cardinality = 0 → prefixOf
        (union2by2 A.array.data A.cardinality B.array.data B.cardinality buffer).2
        (union2by2 A.array.data A.cardinality B.array.data B.cardinality buffer).1 = live B) := by
    intro buffer
    obtain ⟨-, -, r1, r2⟩ := union2by2_spec A.array.data A.cardinality B.array.data
      B.cardinality buffer hA0 hB0 hAi hBi
    refine ⟨(pairwise_prefixOf _ _).mpr r1, ?_, ?_, ?_⟩
    · intro v
      unfold live
      rw [mem_prefixOf, mem_prefixOf, mem_prefixOf]
      exact r2 v
    · intro hz
      unfold union2by2
      rw [if_pos hz.symm]
      exact prefixOf_congr _ _ _ (memcpy_whole _ _ _)
    · intro hz
      unfold union2by2
      by_cases e2 : 0 = B.cardinality
      · rw [if_pos e2]
        unfold live
        rw [hz, ← e2]
        rfl
      · rw [if_neg e2, if_pos hz.symm]
        exact prefixOf_congr _ _ _ (memcpy_whole _ _ _)
  obtain ⟨k1, k2, k3, k4⟩ := key (if out.capacity < A.cardinality + B.cardinality then
      increaseCapacity out (A.cardinality + B.cardinality) INT32_MAX false fresh
    else out).array.data
  exact ⟨k1, k2, k3, k4, by decide⟩

/-- Witness of C6: the union of `[1, 3, 5]` and `[2, 3, 4]`. -/
theorem C6_union_is_sorted_set_union_witness :
    (live (mkContainer 3 [1, 3, 5])).Pairwise (· < ·) ∧
    (live (mkContainer 3 [2, 3, 4])).Pairwise (· < ·) ∧
    (live (array_container_union (mkContainer 3 [1, 3, 5]) (mkContainer 3 [2, 3, 4])
      (mkContainer 1 [9]) (fun _ => 7))).Pairwise (· < ·) :=
  ⟨by decide, by decide,
   (C6_union_is_sorted_set_union (mkContainer 3 [1, 3, 5]) (mkContainer 3 [2, 3, 4])
     (mkContainer 1 [9]) (fun _ => 7) (by decide) (by decide) (by decide) (by decide)).1⟩

/-! ## Scalar intersection: the shared invariant -/

theorem inter_post_symm (set1 : Int → Nat) (len1 : Int) (set2 : Int → Nat) (len2 : Int)
    (r : Option (Int × (Int → Nat))) (h : inter_post set1 len1 set2 len2 r) :
    inter_post set2 len2 set1 len1 r := by
  obtain ⟨pos, buf, h1, h2, h3, h4, h5, h6⟩ := h
  exact ⟨pos, buf, h1, h2, h4, h3, h5, fun v => (h6 v).trans And.comm⟩

theorem inter_inv_symm (set1 : Int → Nat) (len1 : Int) (set2 : Int → Nat) (len2 : Int)
    (buffer : Int → Nat) (pos k1 k2 : Int) (h : inter_inv set1 len1 set2 len2 buffer pos k1 k2) :
    inter_inv set2 len2 set1 len1 buffer pos k2 k1 := by
  obtain ⟨a1, a2, a3, a4, a5, a6, a7, a8, a9, a10, a11, a12⟩ := h
  exact ⟨a3, a4, a1, a2, a5, a7, a6, a8, a10, a9, fun v hv => ⟨(a11 v hv).2, (a11 v hv).1⟩,
    fun v h1 h2 h3 => a12 v h2 h1 h3.symm⟩

/-- An element of a strictly increasing prefix that is below the element at
index `k` sits at an index below `k`. -/
theorem index_lt_of_lt (a : Int → Nat) (len : Int) (ha : increasing a len) (i k : Int)
    (hi : i < len) (hk0 : 0 ≤ k) (h : a i < a k) : i < k := by
  by_contra hc
  have := increasing_mono a len ha k i hk0 (by omega) hi
  omega

/-- The cursor `k2` may move to `k2'` past elements that are all below the
current element of `set1`. -/
theorem inter_inv_advance2 (set1 : Int → Nat) (len1 : Int) (set2 : Int → Nat) (len2 : Int)
    (h2 : increasing set2 len2) (buffer : Int → Nat) (pos k1 k2 k2' : Int)
    (h : inter_inv set1 len1 set2 len2 buffer pos k1 k2)
    (hk : k2 ≤ k2') (hk' : k2' < len2) (hskip : ∀ j, k2 ≤ j → j < k2' → set2 j < set1 k1) :
    inter_inv set1 len1 set2 len2 buffer pos k1 k2' := by
  obtain ⟨a1, a2, a3, a4, a5, a6, a7, a8, a9, a10, a11, a12⟩ := h
  refine ⟨a1, a2, by omega, hk', a5, a6, by omega, a8, a9, ?_, a11, ?_⟩
  · intro i h0 hi
    have m := increasing_mono set2 len2 h2 k2 k2' a3 hk hk'
    have := a10 i h0 hi
    omega
  · intro v hv1 hv2 hlt
    by_cases hv : v < set1 k1
    · exact a12 v hv1 hv2 (Or.inl hv)
    · have hv' : v < set2 k2' := by omega
      obtain ⟨i, hi0, hi, hiv⟩ := hv2
      have hik : i < k2' := index_lt_of_lt set2 len2 h2 i k2' hi (by omega) (by rw [hiv]; exact hv')
      by_cases hik2 : i < k2
      · have := h2 i k2 hi0 hik2 a4
        exact a12 v hv1 ⟨i, hi0, hi, hiv⟩ (Or.inr (by omega))
      · have := hskip i (by omega) hik
        omega

/-- When all elements of `set2` from `k2` on are below the current element of
`set1`, the output is complete. -/
theorem inter_inv_exhaust2 (set1 : Int → Nat) (len1 : Int) (set2 : Int → Nat) (len2 : Int)
    (h2 : increasing set2 len2) (buffer : Int → Nat) (pos k1 k2 : Int)
    (h : inter_inv set1 len1 set2 len2 buffer pos k1 k2)
    (hskip : ∀ j, k2 ≤ j → j < len2 → set2 j < set1 k1) :
    inter_post set1 len1 set2 len2 (some (pos, buffer)) := by
  obtain ⟨a1, a2, a3, a4, a5, a6, a7, a8, a9, a10, a11, a12⟩ := h
  refine ⟨pos, buffer, rfl, a5, by omega, by omega, a8, fun v => ⟨a11 v, ?_⟩⟩
  rintro ⟨hv1, hv2⟩
  obtain ⟨i, hi0, hi, hiv⟩ := hv2
  by_cases hik2 : i < k2
  · have := h2 i k2 hi0 hik2 a4
    exact a12 v hv1 ⟨i, hi0, hi, hiv⟩ (Or.inr (by omega))
  · have := hskip i (by omega) hi
    exact a12 v hv1 ⟨i, hi0, hi, hiv⟩ (Or.inl (by omega))

theorem inter_inv_advance1 (set1 : Int → Nat) (len1 : Int) (set2 : Int → Nat) (len2 : Int)
    (h1 : increasing set1 len1) (buffer : Int → Nat) (pos k1 k1' k2 : Int)
    (h : inter_inv set1 len1 set2 len2 buffer pos k1 k2)
    (hk : k1 ≤ k1') (hk' : k1' < len1) (hskip : ∀ j, k1 ≤ j → j < k1' → set1 j < set2 k2) :
    inter_inv set1 len1 set2 len2 buffer pos k1' k2 :=
  inter_inv_symm _ _ _ _ _ _ _ _
    (inter_inv_advance2 set2 len2 set1 len1 h1 buffer pos k2 k1 k1'
      (inter_inv_symm _ _ _ _ _ _ _ _ h) hk hk' hskip)

theorem inter_inv_exhaust1 (set1 : Int → Nat) (len1 : Int) (set2 : Int → Nat) (len2 : Int)
    (h1 : increasing set1 len1) (buffer : Int → Nat) (pos k1 k2 : Int)
    (h : inter_inv set1 len1 set2 len2 buffer pos k1 k2)
    (hskip : ∀ j, k1 ≤ j → j < len1 → set1 j < set2 k2) :
    inter_post set1 len1 set2 len2 (some (pos, buffer)) :=
  inter_post_symm _ _ _ _ _
    (inter_inv_exhaust2 set2 len2 set1 len1 h1 buffer pos k2 k1
      (inter_inv_symm _ _ _ _ _ _ _ _ h) hskip)

/-- Writing a common element: the output is complete when one of the inputs
ends here, and the invariant holds at the next pair of cursors otherwise. -/
theorem inter_inv_match (set1 : Int → Nat) (len1 : Int) (set2 : Int → Nat) (len2 : Int)
    (h1 : increasing set1 len1) (h2 : increasing set2 len2)
    (buffer : Int → Nat) (pos k1 k2 : Int)
    (h : inter_inv set1 len1 set2 len2 buffer pos k1 k2) (heq : set1 k1 = set2 k2) :
    ((k1 + 1 = len1 ∨ k2 + 1 = len2) →
      inter_post set1 len1 set2 len2 (some (pos + 1, store buffer pos (set1 k1)))) ∧
    (k1 + 1 < len1 → k2 + 1 < len2 →
      inter_inv set1 len1 set2 len2 (store buffer pos (set1 k1)) (pos + 1) (k1 + 1) (k2 + 1)) := by
  obtain ⟨a1, a2, a3, a4, a5, a6, a7, a8, a9, a10, a11, a12⟩ := h
  obtain ⟨e1, e2, e3⟩ := store_extend buffer pos (set1 k1) a5 a8 a9
  have hcommon : ∀ v, occurs (store buffer pos (set1 k1)) (pos + 1) v →
      (occurs set1 len1 v ∧ occurs set2 len2 v) := by
    intro v hv
    rcases (e2 v).mp hv with h | h
    · exact a11 v h
    · exact ⟨⟨k1, a1, a2, h.symm⟩, ⟨k2, a3, a4, by rw [h, heq]⟩⟩
  have hle1 : ∀ v, occurs set1 len1 v → occurs set2 len2 v → v ≤ set1 k1 →
      occurs (store buffer pos (set1 k1)) (pos + 1) v := by
    intro v hv1 hv2 hle
    rw [e2 v]
    by_cases hv : v = set1 k1
    · exact Or.inr hv
    · exact Or.inl (a12 v hv1 hv2 (Or.inl (by omega)))
  constructor
  · intro hend
    refine ⟨pos + 1, _, rfl, by omega, by omega, by omega, e1, fun v => ⟨hcommon v, ?_⟩⟩
    rintro ⟨hv1, hv2⟩
    apply hle1 v hv1 hv2
    rcases hend with hend | hend
    · obtain ⟨i, hi0, hi, hiv⟩ := hv1
      have := increasing_mono set1 len1 h1 i k1 hi0 (by omega) a2
      omega
    · obtain ⟨i, hi0, hi, hiv⟩ := hv2
      have := increasing_mono set2 len2 h2 i k2 hi0 (by omega) a4
      omega
  · intro hk1 hk2
    have s1 := h1 k1 (k1 + 1) a1 (by omega) hk1
    have s2 := h2 k2 (k2 + 1) a3 (by omega) hk2
    refine ⟨by omega, hk1, by omega, hk2, by omega, by omega, by omega, e1, e3 _ s1,
      e3 _ (by omega), hcommon, ?_⟩
    intro v hv1 hv2 hlt
    apply hle1 v hv1 hv2
    rcases hlt with hlt | hlt
    · obtain ⟨i, hi0, hi, hiv⟩ := hv1
      have hik := index_lt_of_lt set1 len1 h1 i (k1 + 1) hi (by omega) (by rw [hiv]; exact hlt)
      have := increasing_mono set1 len1 h1 i k1 hi0 (by omega) a2
      omega
    · obtain ⟨i, hi0, hi, hiv⟩ := hv2
      have hik := index_lt_of_lt set2 len2 h2 i (k2 + 1) hi (by omega) (by rw [hiv]; exact hlt)
      have := increasing_mono set2 len2 h2 i k2 hi0 (by omega) a4
      omega

/-- At the start of both routines, with both inputs non-empty. -/
theorem inter_inv_start (set1 : Int → Nat) (len1 : Int) (set2 : Int → Nat) (len2 : Int)
    (h1 : increasing set1 len1) (h2 : increasing set2 len2) (buffer : Int → Nat)
    (hl1 : 1 ≤ len1) (hl2 : 1 ≤ len2) :
    inter_inv set1 len1 set2 len2 buffer 0 0 0 := by
  refine ⟨le_refl 0, by omega, le_refl 0, by omega, le_refl 0, le_refl 0, le_refl 0,
    increasing_zero _, fun i h0 hi => by omega, fun i h0 hi => by omega,
    fun v hv => absurd hv (not_occurs_zero _ _), ?_⟩
  intro v hv1 hv2 hlt
  exfalso
  rcases hlt with hlt | hlt
  · obtain ⟨i, hi0, hi, hiv⟩ := hv1
    have := increasing_mono set1 len1 h1 0 i (le_refl 0) hi0 hi
    omega
  · obtain ⟨i, hi0, hi, hiv⟩ := hv2
    have := increasing_mono set2 len2 h2 0 i (le_refl 0) hi0 hi
    omega

/-! ## Linear-merge intersection -/

/-- The inner loops of `localintersect2by2` stop within `len - k` steps, either
at the first later element that reaches `bound` or at the end of the input. -/
theorem localintersect2by2_skip_spec (set : Int → Nat) (len : Int) (bound : Nat) (fuel : Nat) :
    ∀ k, 0 ≤ k → k < len → len - k ≤ fuel →
      (∃ k', localintersect2by2_skip set len bound fuel k = some (some (k', set k')) ∧
        k < k' ∧ k' < len ∧ bound ≤ set k' ∧ ∀ j, k < j → j < k' → set j < bound) ∨
      (localintersect2by2_skip set len bound fuel k = some none ∧
        ∀ j, k < j → j < len → set j < bound) := by
  induction fuel with
  | zero => intro k h0 hk hf; omega
  | succ fuel ih =>
    intro k h0 hk hf
    unfold localintersect2by2_skip
    by_cases hend : k + 1 = len
    · right
      simp only [hend, if_true, true_and]
      intro j h1 h2; omega
    · simp only [hend, if_false]
      by_cases hb : set (k + 1) ≥ bound
      · left
        simp only [hb, if_true]
        exact ⟨k + 1, rfl, by omega, by omega, hb, fun j h1 h2 => by omega⟩
      · simp only [hb, if_false]
        rcases ih (k + 1) (by omega) (by omega) (by omega) with ⟨k', e, a1, a2, a3, a4⟩ | ⟨e, a1⟩
        · left
          refine ⟨k', e, by omega, a2, a3, ?_⟩
          intro j h1 h2
          by_cases hj : j = k + 1
          · subst hj; omega
          · exact a4 j (by omega) h2
        · right
          refine ⟨e, ?_⟩
          intro j h1 h2
          by_cases hj : j = k + 1
          · subst hj; omega
          · exact a1 j (by omega) h2

theorem localintersect2by2_loop_spec (set1 : Int → Nat) (len1 : Int) (set2 : Int → Nat)
    (len2 : Int) (h1 : increasing set1 len1) (h2 : increasing set2 len2) (fuel : Nat) :
    ∀ (buffer : Int → Nat) (pos k1 k2 : Int),
      inter_inv set1 len1 set2 len2 buffer pos k1 k2 →
      (len1 - k1) + (len2 - k2) ≤ fuel + 1 →
      inter_post set1 len1 set2 len2
        (localintersect2by2_loop set1 len1 set2 len2 fuel buffer pos k1 k2 (set1 k1)
          (set2 k2)) := by
  induction fuel with
  | zero =>
    intro buffer pos k1 k2 hinv hf
    obtain ⟨a1, a2, a3, a4, -⟩ := hinv
    omega
  | succ fuel ih =>
    intro buffer pos k1 k2 hinv hf
    have second : ∀ k2v, inter_inv set1 len1 set2 len2 buffer pos k1 k2v → k2 ≤ k2v →
        set1 k1 ≤ set2 k2v →
        inter_post set1 len1 set2 len2
          (if set1 k1 < set2 k2v then
            match localintersect2by2_skip set1 len1 (set2 k2v) len1.toNat k1 with
            | none => none
            | some none => some (pos, buffer)
            | some (some (k1, s1)) =>
              localintersect2by2_loop set1 len1 set2 len2 fuel buffer pos k1 k2v s1 (set2 k2v)
          else
            if k1 + 1 = len1 then some (pos + 1, store buffer pos (set1 k1))
            else
              if k2v + 1 = len2 then some (pos + 1, store buffer pos (set1 k1))
              else
                localintersect2by2_loop set1 len1 set2 len2 fuel (store buffer pos (set1 k1))
                  (pos + 1) (k1 + 1) (k2v + 1) (set1 (k1 + 1)) (set2 (k2v + 1))) := by
      intro k2v hinv' hk2v hle
      have hb := hinv'
      obtain ⟨a1, a2, a3, a4, -⟩ := hb
      by_cases hlt : set1 k1 < set2 k2v
      · rw [if_pos hlt]
        rcases localintersect2by2_skip_spec set1 len1 (set2 k2v) len1.toNat k1 a1 a2 (by omega)
          with ⟨k1', e, b1, b2, b3, b4⟩ | ⟨e, b1⟩
        · rw [e]
          apply ih
          · apply inter_inv_advance1 set1 len1 set2 len2 h1 buffer pos k1 k1' k2v hinv'
              (by omega) b2
            intro j hj1 hj2
            by_cases hj : j = k1
            · subst hj; exact hlt
            · exact b4 j (by omega) hj2
          · omega
        · rw [e]
          apply inter_inv_exhaust1 set1 len1 set2 len2 h1 buffer pos k1 k2v hinv'
          intro j hj1 hj2
          by_cases hj : j = k1
          · subst hj; exact hlt
          · exact b1 j (by omega) hj2
      · rw [if_neg hlt]
        have heq : set1 k1 = set2 k2v := by omega
        obtain ⟨m1, m2⟩ := inter_inv_match set1 len1 set2 len2 h1 h2 buffer pos k1 k2v hinv' heq
        by_cases e1 : k1 + 1 = len1
        · rw [if_pos e1]; exact m1 (Or.inl e1)
        · rw [if_neg e1]
          by_cases e2 : k2v + 1 = len2
          · rw [if_pos e2]; exact m1 (Or.inr e2)
          · rw [if_neg e2]
            exact ih _ _ _ _ (m2 (by omega) (by omega)) (by omega)
    have hb := hinv
    obtain ⟨a1, a2, a3, a4, -⟩ := hb
    unfold localintersect2by2_loop
    by_cases hlt : set2 k2 < set1 k1
    · simp only [hlt, if_true]
      rcases localintersect2by2_skip_spec set2 len2 (set1 k1) len2.toNat k2 a3 a4 (by omega)
        with ⟨k2', e, b1, b2, b3, b4⟩ | ⟨e, b1⟩
      · rw [e]
        apply second k2' _ (by omega) b3
        apply inter_inv_advance2 set1 len1 set2 len2 h2 buffer pos k1 k2 k2' hinv (by omega) b2
        intro j hj1 hj2
        by_cases hj : j = k2
        · subst hj; exact hlt
        · exact b4 j (by omega) hj2
      · rw [e]
        apply inter_inv_exhaust2 set1 len1 set2 len2 h2 buffer pos k1 k2 hinv
        intro j hj1 hj2
        by_cases hj : j = k2
        · subst hj; exact hlt
        · exact b1 j (by omega) hj2
    · simp only [hlt, if_false]
      exact second k2 hinv (le_refl _) (by omega)

/-- Function `localintersect2by2` on strictly increasing inputs returns and
writes the sorted intersection. -/
theorem localintersect2by2_spec (set1 : Int → Nat) (len1 : Int) (set2 : Int → Nat) (len2 : Int)
    (buffer : Int → Nat) (hl1 : 0 ≤ len1) (hl2 : 0 ≤ len2)
    (h1 : increasing set1 len1) (h2 : increasing set2 len2) :
    inter_post set1 len1 set2 len2 (localintersect2by2 set1 len1 set2 len2 buffer) := by
  unfold localintersect2by2
  by_cases he : 0 = len1 ∨ 0 = len2
  · rw [if_pos he]
    refine ⟨0, buffer, rfl, le_refl 0, hl1, hl2, increasing_zero _, fun v => ?_⟩
    constructor
    · intro h; exact absurd h (not_occurs_zero _ _)
    · rintro ⟨⟨i, a1, a2, -⟩, ⟨j, b1, b2, -⟩⟩
      rcases he with he | he <;> omega
  · rw [if_neg he]
    have hn1 : 1 ≤ len1 := by
      by_contra hc; exact he (Or.inl (by omega))
    have hn2 : 1 ≤ len2 := by
      by_contra hc; exact he (Or.inr (by omega))
    exact localintersect2by2_loop_spec set1 len1 set2 len2 h1 h2 _ buffer 0 0 0
      (inter_inv_start set1 len1 set2 len2 h1 h2 buffer hn1 hn2) (by omega)

/-! ## Galloping search -/

theorem wrap32_eq (z : Int) (h1 : -2147483648 ≤ z) (h2 : z < 2147483648) : wrap32 z = z := by
  unfold wrap32
  omega

/-- The doubling loop of `advanceUntil` returns within its budget; the probe
at half the final span was below `min` and the probe at the final span is not,
or lies behind the array. -/
theorem advanceUntil_span_spec (array : Int → Nat) (lower length : Int) (min : Nat)
    (hlen : length ≤ 1073741824) (hlow : 0 ≤ lower) (fuel : Nat) :
    ∀ spansize : Int, 1 ≤ spansize → lower + spansize / 2 < length →
      array (lower + spansize / 2) < min → length - lower - spansize < fuel → 0 < fuel →
      ∃ sp, advanceUntil_span array lower length min fuel spansize = some sp ∧ 1 ≤ sp ∧
        lower + sp / 2 < length ∧ array (lower + sp / 2) < min ∧
        ¬ (lower + sp < length ∧ array (lower + sp) < min) := by
  induction fuel with
  | zero => intro spansize _ _ _ _ hf; omega
  | succ fuel ih =>
    intro spansize hs1 hs2 hs3 hm _
    unfold advanceUntil_span
    by_cases hc : lower + spansize < length ∧ array (lower + spansize) < min
    · rw [if_pos hc]
      have hw : wrap32 (spansize * 2) = spansize * 2 := wrap32_eq _ (by omega) (by omega)
      rw [hw]
      have e : spansize * 2 / 2 = spansize := by omega
      apply ih (spansize * 2) (by omega)
      · rw [e]; exact hc.1
      · rw [e]; exact hc.2
      · omega
      · omega
    · rw [if_neg hc]
      exact ⟨spansize, rfl, hs1, hs2, hs3, hc⟩

/-- The bisection loop of `advanceUntil` returns within its budget the first
index of the bracket whose element reaches `min`. -/
theorem advanceUntil_bisect_spec (array : Int → Nat) (min : Nat) (length : Int)
    (hinc : increasing array length) (fuel : Nat) :
    ∀ lower upper : Int, 0 ≤ lower → lower < upper → upper < length → array lower < min →
      min < array upper → upper - lower ≤ fuel →
      ∃ j, advanceUntil_bisect array min fuel lower upper = some j ∧ lower < j ∧ j ≤ upper ∧
        min ≤ array j ∧ array (j - 1) < min := by
  induction fuel with
  | zero => intro lower upper _ _ _ _ _ hf; omega
  | succ fuel ih =>
    intro lower upper h0 hlu hul hl hu hf
    unfold advanceUntil_bisect
    by_cases hc : lower + 1 ≠ upper
    · rw [if_pos hc]
      have hm1 : lower < (lower + upper) / 2 := by omega
      have hm2 : (lower + upper) / 2 < upper := by omega
      by_cases he : array ((lower + upper) / 2) = min
      · simp only [he, if_true]
        refine ⟨(lower + upper) / 2, rfl, hm1, by omega, by omega, ?_⟩
        have := hinc ((lower + upper) / 2 - 1) ((lower + upper) / 2) (by omega) (by omega)
          (by omega)
        omega
      · simp only [he, if_false]
        by_cases hlt : array ((lower + upper) / 2) < min
        · rw [if_pos hlt]
          obtain ⟨j, e, a1, a2, a3, a4⟩ := ih ((lower + upper) / 2) upper (by omega) hm2 hul hlt
            hu (by omega)
          exact ⟨j, e, by omega, a2, a3, a4⟩
        · rw [if_neg hlt]
          obtain ⟨j, e, a1, a2, a3, a4⟩ := ih lower ((lower + upper) / 2) h0 hm1 (by omega) hl
            (by omega) (by omega)
          exact ⟨j, e, a1, by omega, a3, a4⟩
    · rw [if_neg hc]
      have e : upper - 1 = lower := by omega
      exact ⟨upper, rfl, hlu, le_refl _, by omega, by rw [e]; exact hl⟩

/-- Function `advanceUntil` on a strictly increasing array, for a start
position `pos` with `-1 ≤ pos < length`: it returns the smallest index behind
`pos` whose element reaches `min`, or `length` when there is none. -/
theorem advanceUntil_spec (array : Int → Nat) (pos length : Int) (min : Nat)
    (hinc : increasing array length) (hpos : -1 ≤ pos) (hpl : pos < length)
    (hlen : length ≤ 1073741824) :
    ∃ j, advanceUntil array pos length min = some j ∧ pos < j ∧ j ≤ length ∧
      (j < length → min ≤ array j) ∧ ∀ i, pos < i → i < j → array i < min := by
  unfold advanceUntil
  by_cases hc : pos + 1 ≥ length ∨ array (pos + 1) ≥ min
  · simp only [hc, if_true]
    refine ⟨pos + 1, rfl, by omega, by omega, ?_, fun i h1 h2 => by omega⟩
    intro hj
    rcases hc with hc | hc
    · omega
    · exact hc
  · simp only [hc, if_false]
    have hl1 : pos + 1 < length := by
      by_contra h; exact hc (Or.inl (by omega))
    have hl2 : array (pos + 1) < min := by
      by_contra h; exact hc (Or.inr (by omega))
    have e0 : pos + 1 + 1 / 2 = pos + 1 := by omega
    obtain ⟨sp, e, s1, s2, s3, s4⟩ := advanceUntil_span_spec array (pos + 1) length min hlen
      (by omega) (length.toNat + 1) 1 (le_refl 1) (by rw [e0]; exact hl1)
      (by rw [e0]; exact hl2) (by omega) (by omega)
    rw [e]
    dsimp only
    have hbelow : ∀ u, 0 ≤ u → u < length → array u < min → ∀ i, pos < i → i ≤ u →
        array i < min := by
      intro u hu0 hul hu i hi1 hi2
      have := increasing_mono array length hinc i u (by omega) hi2 hul
      omega
    by_cases hA : pos + 1 + sp < length
    · rw [if_pos hA]
      have hge : min ≤ array (pos + 1 + sp) := by
        by_contra h; exact s4 ⟨hA, by omega⟩
      by_cases he : array (pos + 1 + sp) = min
      · rw [if_pos he]
        refine ⟨pos + 1 + sp, rfl, by omega, by omega, fun _ => hge, ?_⟩
        intro i h1 h2
        have := hinc i (pos + 1 + sp) (by omega) h2 hA
        omega
      · rw [if_neg he, if_neg (by omega)]
        have hlu : pos + 1 + sp / 2 < pos + 1 + sp := by omega
        obtain ⟨j, ej, a1, a2, a3, a4⟩ := advanceUntil_bisect_spec array min length hinc
          (length.toNat + 1) (pos + 1 + sp / 2) (pos + 1 + sp) (by omega) hlu hA s3 (by omega)
          (by omega)
        refine ⟨j, ej, by omega, by omega, fun _ => a3, ?_⟩
        intro i h1 h2
        exact hbelow (j - 1) (by omega) (by omega) a4 i h1 (by omega)
    · rw [if_neg hA]
      by_cases he : array (length - 1) = min
      · rw [if_pos he]
        refine ⟨length - 1, rfl, by omega, by omega, fun _ => by omega, ?_⟩
        intro i h1 h2
        have := hinc i (length - 1) (by omega) h2 (by omega)
        omega
      · rw [if_neg he]
        by_cases hlt : array (length - 1) < min
        · rw [if_pos hlt]
          refine ⟨length, rfl, by omega, le_refl _, fun h => by omega, ?_⟩
          intro i h1 h2
          exact hbelow (length - 1) (by omega) (by omega) hlt i h1 (by omega)
        · rw [if_neg hlt]
          have hlu : pos + 1 + sp / 2 < length - 1 := by
            apply index_lt_of_lt array length hinc _ _ s2 (by omega)
            omega
          obtain ⟨j, ej, a1, a2, a3, a4⟩ := advanceUntil_bisect_spec array min length hinc
            (length.toNat + 1) (pos + 1 + sp / 2) (length - 1) (by omega) hlu (by omega) s3
            (by omega) (by omega)
          refine ⟨j, ej, by omega, by omega, fun _ => a3, ?_⟩
          intro i h1 h2
          exact hbelow (j - 1) (by omega) (by omega) a4 i h1 (by omega)

/-! ## Galloping intersection -/

theorem onesidedgallopingintersect2by2_loop_spec (smallset : Int → Nat) (lensmallset : Int)
    (largeset : Int → Nat) (lenlargeset : Int) (hs : increasing smallset lensmallset)
    (hl : increasing largeset lenlargeset) (hlen : lenlargeset ≤ 1073741824) (fuel : Nat) :
    ∀ (buffer : Int → Nat) (pos k1 k2 : Int),
      inter_inv largeset lenlargeset smallset lensmallset buffer pos k1 k2 →
      lensmallset - k2 ≤ fuel →
      inter_post largeset lenlargeset smallset lensmallset
        (onesidedgallopingintersect2by2_loop smallset lensmallset largeset lenlargeset fuel
          buffer pos k1 k2 (largeset k1) (smallset k2)) := by
  induction fuel with
  | zero =>
    intro buffer pos k1 k2 hinv hf
    obtain ⟨a1, a2, a3, a4, -⟩ := hinv
    omega
  | succ fuel ih =>
    intro buffer pos k1 k2 hinv hf
    have second : ∀ k1v, inter_inv largeset lenlargeset smallset lensmallset buffer pos k1v k2 →
        smallset k2 ≤ largeset k1v →
        inter_post largeset lenlargeset smallset lensmallset
          (if smallset k2 < largeset k1v then
            if k2 + 1 = lensmallset then some (pos, buffer)
            else
              onesidedgallopingintersect2by2_loop smallset lensmallset largeset lenlargeset fuel
                buffer pos k1v (k2 + 1) (largeset k1v) (smallset (k2 + 1))
          else
            if k2 + 1 = lensmallset then some (pos + 1, store buffer pos (smallset k2))
            else
              match advanceUntil largeset k1v lenlargeset (smallset (k2 + 1)) with
              | none => none
              | some k1 =>
                if k1 = lenlargeset then some (pos + 1, store buffer pos (smallset k2))
                else
                  onesidedgallopingintersect2by2_loop smallset lensmallset largeset lenlargeset
                    fuel (store buffer pos (smallset k2)) (pos + 1) k1 (k2 + 1) (largeset k1)
                    (smallset (k2 + 1))) := by
      intro k1v hinv' hle
      have hb := hinv'
      obtain ⟨a1, a2, a3, a4, -⟩ := hb
      by_cases hlt : smallset k2 < largeset k1v
      · rw [if_pos hlt]
        by_cases e2 : k2 + 1 = lensmallset
        · rw [if_pos e2]
          apply inter_inv_exhaust2 largeset lenlargeset smallset lensmallset hs buffer pos k1v k2
            hinv'
          intro j hj1 hj2
          have hj : j = k2 := by omega
          subst hj; exact hlt
        · rw [if_neg e2]
          apply ih _ _ _ _ _ (by omega)
          apply inter_inv_advance2 largeset lenlargeset smallset lensmallset hs buffer pos k1v k2
            (k2 + 1) hinv' (by omega) (by omega)
          intro j hj1 hj2
          have hj : j = k2 := by omega
          subst hj; exact hlt
      · rw [if_neg hlt]
        have heq : largeset k1v = smallset k2 := by omega
        obtain ⟨m1, m2⟩ := inter_inv_match largeset lenlargeset smallset lensmallset hl hs buffer
          pos k1v k2 hinv' heq
        rw [heq] at m1 m2
        by_cases e2 : k2 + 1 = lensmallset
        · rw [if_pos e2]; exact m1 (Or.inr e2)
        · rw [if_neg e2]
          obtain ⟨j, ej, b1, b2, b3, b4⟩ := advanceUntil_spec largeset k1v lenlargeset
            (smallset (k2 + 1)) hl (by omega) a2 hlen
          rw [ej]
          dsimp only
          by_cases e1 : j = lenlargeset
          · rw [if_pos e1]
            by_cases e3 : k1v + 1 = lenlargeset
            · exact m1 (Or.inl e3)
            · apply inter_inv_exhaust1 largeset lenlargeset smallset lensmallset hl _ _ (k1v + 1)
                (k2 + 1) (m2 (by omega) (by omega))
              intro i hi1 hi2
              exact b4 i (by omega) (by omega)
          · rw [if_neg e1]
            apply ih _ _ _ _ _ (by omega)
            apply inter_inv_advance1 largeset lenlargeset smallset lensmallset hl _ _ (k1v + 1) j
              (k2 + 1) (m2 (by omega) (by omega)) (by omega) (by omega)
            intro i hi1 hi2
            exact b4 i (by omega) hi2
    have hb := hinv
    obtain ⟨a1, a2, a3, a4, -⟩ := hb
    unfold onesidedgallopingintersect2by2_loop
    by_cases hlt : largeset k1 < smallset k2
    · simp only [hlt, if_true]
      obtain ⟨j, ej, b1, b2, b3, b4⟩ := advanceUntil_spec largeset k1 lenlargeset (smallset k2)
        hl (by omega) a2 hlen
      rw [ej]
      dsimp only
      by_cases e1 : j = lenlargeset
      · rw [if_pos e1]
        apply inter_inv_exhaust1 largeset lenlargeset smallset lensmallset hl buffer pos k1 k2 hinv
        intro i hi1 hi2
        by_cases hi : i = k1
        · subst hi; exact hlt
        · exact b4 i (by omega) (by omega)
      · rw [if_neg e1]
        apply second j _ (b3 (by omega))
        apply inter_inv_advance1 largeset lenlargeset smallset lensmallset hl buffer pos k1 j k2
          hinv (by omega) (by omega)
        intro i hi1 hi2
        by_cases hi : i = k1
        · subst hi; exact hlt
        · exact b4 i (by omega) hi2
    · simp only [hlt, if_false]
      exact second k1 hinv (by omega)

/-- Function `onesidedgallopingintersect2by2` on strictly increasing inputs
returns and writes the sorted intersection, provided the large side is not
empty (or the small side is). -/
theorem onesidedgallopingintersect2by2_spec (smallset : Int → Nat) (lensmallset : Int)
    (largeset : Int → Nat) (lenlargeset : Int) (buffer : Int → Nat)
    (hs0 : 0 ≤ lensmallset) (hl0 : 0 ≤ lenlargeset)
    (hs : increasing smallset lensmallset) (hl : increasing largeset lenlargeset)
    (hlen : lenlargeset ≤ 1073741824) (hne : lensmallset = 0 ∨ 1 ≤ lenlargeset) :
    inter_post smallset lensmallset largeset lenlargeset
      (onesidedgallopingintersect2by2 smallset lensmallset largeset lenlargeset buffer) := by
  unfold onesidedgallopingintersect2by2
  by_cases he : 0 = lensmallset
  · rw [if_pos he]
    refine ⟨0, buffer, rfl, le_refl 0, hs0, hl0, increasing_zero _, fun v => ?_⟩
    constructor
    · intro h; exact absurd h (not_occurs_zero _ _)
    · rintro ⟨⟨i, a1, a2, -⟩, -⟩
      omega
  · rw [if_neg he]
    apply inter_post_symm
    exact onesidedgallopingintersect2by2_loop_spec smallset lensmallset largeset lenlargeset hs hl
      hlen _ buffer 0 0 0
      (inter_inv_start largeset lenlargeset smallset lensmallset hl hs buffer (by omega)
        (by omega)) (by omega)

/-- Function `intersection2by2` (scalar build) on strictly increasing inputs of
at most 65536 elements returns and writes the sorted intersection, whichever
routine it selects. -/
theorem intersection2by2_spec (set1 : Int → Nat) (len1 : Int) (set2 : Int → Nat) (len2 : Int)
    (buffer : Int → Nat) (hl1 : 0 ≤ len1) (hl2 : 0 ≤ len2) (hb1 : len1 ≤ 65536)
    (hb2 : len2 ≤ 65536) (h1 : increasing set1 len1) (h2 : increasing set2 len2) :
    inter_post set1 len1 set2 len2 (intersection2by2 set1 len1 set2 len2 buffer) := by
  unfold intersection2by2
  have w1 : wrap32 (len1 * 4) = len1 * 4 := wrap32_eq _ (by omega) (by omega)
  have w2 : wrap32 (len2 * 4) = len2 * 4 := wrap32_eq _ (by omega) (by omega)
  simp only [w1, w2]
  by_cases c1 : len1 * 4 < len2
  · rw [if_pos c1]
    exact onesidedgallopingintersect2by2_spec set1 len1 set2 len2 buffer hl1 hl2 h1 h2 (by omega)
      (Or.inr (by omega))
  · rw [if_neg c1]
    by_cases c2 : len2 * 4 < len1
    · rw [if_pos c2]
      apply inter_post_symm
      exact onesidedgallopingintersect2by2_spec set2 len2 set1 len1 buffer hl2 hl1 h2 h1
        (by omega) (Or.inr (by omega))
    · rw [if_neg c2]
      exact localintersect2by2_spec set1 len1 set2 len2 buffer hl1 hl2 h1 h2

/-! ## Claims C7 and C8 -/

/-- Two strictly increasing lists with the same elements are equal. -/
theorem sorted_ext (l1 l2 : List Nat) (h1 : l1.Pairwise (· < ·)) (h2 : l2.Pairwise (· < ·))
    (h : ∀ v, v ∈ l1 ↔ v ∈ l2) : l1 = l2 := by
  have n1 : l1.Nodup := h1.imp (fun hab => Nat.ne_of_lt hab)
  have n2 : l2.Nodup := h2.imp (fun hab => Nat.ne_of_lt hab)
  exact List.eq_of_perm_of_sorted ((List.perm_ext_iff_of_nodup n1 n2).mpr h) h1 h2

/-- A result that meets `inter_post` is observed as the list of the elements
of the first input that occur in the second, and the count is its length. -/
theorem inter_post_observed (set1 : Int → Nat) (len1 : Int) (set2 : Int → Nat) (len2 : Int)
    (r : Option (Int × (Int → Nat))) (h1 : increasing set1 len1)
    (h : inter_post set1 len1 set2 len2 r) :
    observed r = some ((((prefixOf set1 len1).filter
        (fun v => decide (v ∈ prefixOf set2 len2))).length : Int),
      (prefixOf set1 len1).filter (fun v => decide (v ∈ prefixOf set2 len2))) := by
  obtain ⟨pos, buf, e, p0, -, -, hinc, hocc⟩ := h
  have hl : prefixOf buf pos
      = (prefixOf set1 len1).filter (fun v => decide (v ∈ prefixOf set2 len2)) := by
    apply sorted_ext
    · exact (pairwise_prefixOf _ _).mpr hinc
    · exact ((pairwise_prefixOf _ _).mpr h1).filter _
    · intro v
      rw [List.mem_filter, mem_prefixOf, mem_prefixOf, hocc v]
      simp [mem_prefixOf]
  have hn : pos = ((prefixOf buf pos).length : Int) := by
    rw [length_prefixOf, Int.toNat_of_nonneg p0]
  rw [e]
  show some (pos, prefixOf buf pos) = _
  rw [← hl, ← hn]

/-- C7: for well-formed containers `A` and `B` (either may be empty, and the
sizes may be balanced or skewed) and any destination, the scalar
`array_container_intersection` returns, the live prefix of the destination is
strictly increasing, its elements are exactly the common elements of `A` and
`B` (it is the list of the elements of `A` that occur in `B`), and the
cardinality is its length. The intersection of `[1, 3, 5, 7, 9]` and `[3, 9]`
is `[3, 9]`; that of `[]` and `[1, 2, 3]` is `[]` with cardinality 0. -/
theorem C7_intersection_is_sorted_set_intersection (A B out : array_container_t)
    (fresh : Int → Nat) (hA : wf A) (hB : wf B) :
    (∃ r, array_container_intersection A B out fresh = some r ∧
      (live r).Pairwise (· < ·) ∧
      (∀ v, v ∈ live r ↔ (v ∈ live A ∧ v ∈ live B)) ∧
      live r = (live A).filter (fun v => decide (v ∈ live B)) ∧
      r.cardinality = ((live r).length : Int)) ∧
    (array_container_intersection (mkContainer 5 [1, 3, 5, 7, 9]) (mkContainer 2 [3, 9])
      (mkContainer 0 []) (fun _ => 0)).map live = some [3, 9] ∧
    (array_container_intersection (mkContainer 0 []) (mkContainer 3 [1, 2, 3])
      (mkContainer 0 []) (fun _ => 0)).map (fun r => (r.cardinality, live r)) = some (0, []) := by
  refine ⟨?_, by decide, by decide⟩
  have hAi := wf_increasing A hA
  have hBi := wf_increasing B hB
  have hAc := wf_cardinality_le A hA
  have hBc := wf_cardinality_le B hB
  have key : ∀ buffer : Int → Nat, inter_post A.array.data A.cardinality B.array.data
      B.cardinality (intersection2by2 A.array.data A.cardinality B.array.data B.cardinality
        buffer) :=
    fun buffer => intersection2by2_spec _ _ _ _ buffer hA.1 hB.1 hAc hBc hAi hBi
  unfold array_container_intersection
  dsimp only
  generalize (if out.capacity < (if A.cardinality < B.cardinality then A.cardinality
      else B.cardinality) then
      increaseCapacity out (if A.cardinality < B.cardinality then A.cardinality
        else B.cardinality) INT32_MAX false fresh
    else out) = out'
  have hk := key out'.array.data
  have ho := inter_post_observed _ _ _ _ _ hAi hk
  obtain ⟨pos, buf, e, p0, -, -, hinc, hocc⟩ := hk
  rw [e] at ho ⊢
  have ho2 : prefixOf buf pos
      = (prefixOf A.array.data A.cardinality).filter
          (fun v => decide (v ∈ prefixOf B.array.data B.cardinality)) := by
    have := congrArg (Option.map Prod.snd) ho
    simpa [observed] using this
  refine ⟨_, rfl, (pairwise_prefixOf _ _).mpr hinc, ?_, ho2, ?_⟩
  · intro v
    unfold live
    rw [mem_prefixOf, mem_prefixOf, mem_prefixOf]
    exact hocc v
  · show pos = ((prefixOf buf pos).length : Int)
    rw [length_prefixOf, Int.toNat_of_nonneg p0]

/-- Witness of C7 on `[1, 3, 5, 7, 9]` and `[3, 9]`. -/
theorem C7_intersection_is_sorted_set_intersection_witness :
    wf (mkContainer 5 [1, 3, 5, 7, 9]) ∧ wf (mkContainer 2 [3, 9]) ∧
    ∃ r, array_container_intersection (mkContainer 5 [1, 3, 5, 7, 9]) (mkContainer 2 [3, 9])
        (mkContainer 1 [4]) (fun _ => 0) = some r ∧
      (live r).Pairwise (· < ·) ∧
      (∀ v, v ∈ live r ↔
        (v ∈ live (mkContainer 5 [1, 3, 5, 7, 9]) ∧ v ∈ live (mkContainer 2 [3, 9]))) ∧
      live r = (live (mkContainer 5 [1, 3, 5, 7, 9])).filter
        (fun v => decide (v ∈ live (mkContainer 2 [3, 9]))) ∧
      r.cardinality = ((live r).length : Int) :=
  ⟨by decide, by decide,
   (C7_intersection_is_sorted_set_intersection (mkContainer 5 [1, 3, 5, 7, 9])
     (mkContainer 2 [3, 9]) (mkContainer 1 [4]) (fun _ => 0) (by decide) (by decide)).1⟩

/-- C8 as stated fails: with a non-empty small side `[5]` and an empty large
side whose buffer still holds 5 in slot 0, `onesidedgallopingintersect2by2`
reads that slot and returns the count 1 and the output `[5]`, while
`localintersect2by2` returns 0. -/
theorem C8_galloping_differs_on_empty_large_side :
    emptiedDestination.cardinality = 0 ∧ live emptiedDestination = [] ∧
    (prefixOf (bufOf [5] 0) 1).Pairwise (· < ·) ∧
    observed (onesidedgallopingintersect2by2 (bufOf [5] 0) 1 emptiedDestination.array.data
      emptiedDestination.cardinality (bufOf [] 0)) = some (1, [5]) ∧
    observed (localintersect2by2 (bufOf [5] 0) 1 emptiedDestination.array.data
      emptiedDestination.cardinality (bufOf [] 0)) = some (0, []) := by
  decide

/-- C8, amended: for strictly increasing sequences `S` and `L` of 16-bit values
such that the large side `L` is not empty or the small side `S` is empty,
`onesidedgallopingintersect2by2` and `localintersect2by2` return the same
count and write the same output prefix, the elements of `S` that occur in `L`;
when the swapped call meets the same condition, passing `L` as the small side
gives this result too. -/
theorem C8_galloping_agrees_with_linear (S : Int → Nat) (lenS : Int) (L : Int → Nat)
    (lenL : Int) (buf1 buf2 buf3 : Int → Nat) (hS0 : 0 ≤ lenS) (hL0 : 0 ≤ lenL)
    (hS : (prefixOf S lenS).Pairwise (· < ·)) (hL : (prefixOf L lenL).Pairwise (· < ·))
    (hS16 : ∀ v ∈ prefixOf S lenS, v < 65536) (hL16 : ∀ v ∈ prefixOf L lenL, v < 65536)
    (hne : lenS = 0 ∨ 1 ≤ lenL) :
    observed (onesidedgallopingintersect2by2 S lenS L lenL buf1)
      = some ((((prefixOf S lenS).filter (fun v => decide (v ∈ prefixOf L lenL))).length : Int),
          (prefixOf S lenS).filter (fun v => decide (v ∈ prefixOf L lenL))) ∧
    observed (localintersect2by2 S lenS L lenL buf2)
      = observed (onesidedgallopingintersect2by2 S lenS L lenL buf1) ∧
    ((lenL = 0 ∨ 1 ≤ lenS) →
      observed (onesidedgallopingintersect2by2 L lenL S lenS buf3)
        = observed (onesidedgallopingintersect2by2 S lenS L lenL buf1)) := by
  have hSi : increasing S lenS := (pairwise_prefixOf _ _).mp hS
  have hLi : increasing L lenL := (pairwise_prefixOf _ _).mp hL
  have hSc : lenS ≤ 65536 := increasing_length_le S lenS hSi
    (fun i h0 hi => hS16 _ ((mem_prefixOf _ _ _).mpr ⟨i, h0, hi, rfl⟩))
  have hLc : lenL ≤ 65536 := increasing_length_le L lenL hLi
    (fun i h0 hi => hL16 _ ((mem_prefixOf _ _ _).mpr ⟨i, h0, hi, rfl⟩))
  have g1 := inter_post_observed _ _ _ _ _ hSi
    (onesidedgallopingintersect2by2_spec S lenS L lenL buf1 hS0 hL0 hSi hLi (by omega) hne)
  have g2 := inter_post_observed _ _ _ _ _ hSi
    (localintersect2by2_spec S lenS L lenL buf2 hS0 hL0 hSi hLi)
  refine ⟨g1, by rw [g1, g2], ?_⟩
  intro hne'
  have g3 := inter_post_observed _ _ _ _ _ hSi (inter_post_symm _ _ _ _ _
    (onesidedgallopingintersect2by2_spec L lenL S lenS buf3 hL0 hS0 hLi hSi (by omega) hne'))
  rw [g1, g3]

/-- Witness of C8, amended, on `S = [3, 9]` and `L = [1, 3, 5, 7, 9]`. -/
theorem C8_galloping_agrees_with_linear_witness :
    (prefixOf (bufOf [3, 9] 0) 2).Pairwise (· < ·) ∧
    (prefixOf (bufOf [1, 3, 5, 7, 9] 0) 5).Pairwise (· < ·) ∧
    observed (localintersect2by2 (bufOf [3, 9] 0) 2 (bufOf [1, 3, 5, 7, 9] 0) 5 (bufOf [] 0))
      = observed (onesidedgallopingintersect2by2 (bufOf [3, 9] 0) 2 (bufOf [1, 3, 5, 7, 9] 0) 5
          (bufOf [] 1)) ∧
    observed (onesidedgallopingintersect2by2 (bufOf [1, 3, 5, 7, 9] 0) 5 (bufOf [3, 9] 0) 2
        (bufOf [] 2))
      = observed (onesidedgallopingintersect2by2 (bufOf [3, 9] 0) 2 (bufOf [1, 3, 5, 7, 9] 0) 5
          (bufOf [] 1)) :=
  ⟨by decide, by decide,
   (C8_galloping_agrees_with_linear (bufOf [3, 9] 0) 2 (bufOf [1, 3, 5, 7, 9] 0) 5 (bufOf [] 1)
     (bufOf [] 0) (bufOf [] 2) (by decide) (by decide) (by decide) (by decide) (by decide)
     (by decide) (by decide)).2.1,
   (C8_galloping_agrees_with_linear (bufOf [3, 9] 0) 2 (bufOf [1, 3, 5, 7, 9] 0) 5 (bufOf [] 1)
     (bufOf [] 0) (bufOf [] 2) (by decide) (by decide) (by decide) (by decide) (by decide)
     (by decide) (by decide)).2.2 (by decide)⟩

/-! ## Reachable containers: bounds on cardinality and capacity -/

/-- With the ceiling `INT32_MAX` the new capacity does not exceed it. -/
theorem increaseCapacity_capacity_le (arr : array_container_t) (min : Int) (copy : Bool)
    (fresh : Int → Nat) :
    (increaseCapacity arr min INT32_MAX copy fresh).capacity ≤ 2147483647 := by
  simp only [increaseCapacity, INT32_MAX]
  have e : (2147483647 : Int) - Int.tdiv 2147483647 16 = 2013265920 := by decide
  rw [e]
  split
  · omega
  · split <;> omega

/-- The pre-sizing step of `array_container_union` and
`array_container_intersection`: afterwards the capacity is at least `need`,
and the block is the old one or one grown to the ceiling. -/
theorem presize_spec (out : array_container_t) (need : Int) (fresh : Int → Nat)
    (hneed : need ≤ 2147483647) (hcap : out.capacity ≤ 2147483647) :
    need ≤ (if out.capacity < need then increaseCapacity out need INT32_MAX false fresh
      else out).capacity ∧
    (if out.capacity < need then increaseCapacity out need INT32_MAX false fresh
      else out).capacity ≤ 2147483647 ∧
    (((if out.capacity < need then increaseCapacity out need INT32_MAX false fresh
        else out) = out ∧ need ≤ out.capacity) ∨
      (2013265920 ≤ (if out.capacity < need then increaseCapacity out need INT32_MAX false
          fresh else out).capacity ∧
        2013265920 ≤ ((if out.capacity < need then increaseCapacity out need INT32_MAX false
          fresh else out).array.size : Int))) := by
  by_cases h : out.capacity < need
  · simp only [h, if_true]
    have h1 := increaseCapacity_capacity_ge out need false fresh
    have h2 := increaseCapacity_capacity_le out need false fresh
    have h3 := increaseCapacity_size out need INT32_MAX false fresh
    refine ⟨?_, h2, Or.inr ⟨h1, by rw [h3]; omega⟩⟩
    simp only [increaseCapacity, INT32_MAX] at h1 h2 ⊢
    have e : (2147483647 : Int) - Int.tdiv 2147483647 16 = 2013265920 := by decide
    rw [e] at h1 h2 ⊢
    split
    · omega
    · split
      · omega
      · split <;> omega
  · simp only [h, if_false]
    exact ⟨by omega, hcap, Or.inl (by simp; omega)⟩

/-- A destination that receives a strictly increasing prefix of 16-bit values
of length at most `need` after the pre-sizing step satisfies the invariant of
the reachable containers. -/
theorem reachable_inv_destination (out : array_container_t) (need : Int) (fresh : Int → Nat)
    (pos : Int) (buf : Int → Nat) (hout : reachable_inv out) (hcap : out.capacity ≤ 2147483647)
    (hneed : need ≤ 2147483647) (hp0 : 0 ≤ pos) (hpn : pos ≤ need) (hinc : increasing buf pos)
    (h16 : ∀ i, 0 ≤ i → i < pos → buf i < 65536) :
    reachable_inv
      { cardinality := pos
        capacity := (if out.capacity < need then increaseCapacity out need INT32_MAX false fresh
          else out).capacity
        array :=
          { size := (if out.capacity < need then increaseCapacity out need INT32_MAX false fresh
              else out).array.size
            data := buf } } ∧
    (if out.capacity < need then increaseCapacity out need INT32_MAX false fresh
      else out).capacity ≤ 2147483647 := by
  obtain ⟨-, h2, h3⟩ := presize_spec out need fresh hneed hcap
  refine ⟨?_, h2⟩
  have hlen := increasing_length_le buf pos hinc h16
  have hsorted : (prefixOf buf pos).Pairwise (· < ·) := (pairwise_prefixOf _ _).mpr hinc
  have hval : ∀ v ∈ prefixOf buf pos, v < 65536 := by
    intro v hv
    obtain ⟨i, a1, a2, a3⟩ := (mem_prefixOf _ _ _).mp hv
    rw [← a3]; exact h16 i a1 a2
  rcases h3 with ⟨e, hle⟩ | ⟨c1, c2⟩
  · rw [e]
    obtain ⟨hwf, hb⟩ := hout
    rcases hb with ⟨b1, b2, b3⟩ | ⟨b1, b2⟩
    · refine ⟨⟨hp0, ?_, hsorted, hval⟩, Or.inl ⟨b1, b2, ?_⟩⟩
      · show 2 * pos ≤ (out.array.size : Int)
        rw [b2]; omega
      · show pos ≤ 16
        omega
    · refine ⟨⟨hp0, ?_, hsorted, hval⟩, Or.inr ⟨b1, b2⟩⟩
      show 2 * pos ≤ (out.array.size : Int)
      omega
  · refine ⟨⟨hp0, ?_, hsorted, hval⟩, Or.inr ⟨c1, c2⟩⟩
    show 2 * pos ≤ (((if out.capacity < need then increaseCapacity out need INT32_MAX false fresh
      else out).array.size : Nat) : Int)
    omega

theorem add_capacity_le (arr : array_container_t) (x : Nat) (fresh : Int → Nat)
    (h : arr.capacity ≤ 2147483647) :
    (array_container_add arr x fresh).2.capacity ≤ 2147483647 := by
  unfold array_container_add
  split
  · unfold append
    by_cases hc : arr.cardinality = arr.capacity
    · simp only [hc, if_true]
      exact increaseCapacity_capacity_le arr _ true fresh
    · simp only [hc, if_false]
      exact h
  · dsimp only
    split
    · simp only [if_true]
      exact increaseCapacity_capacity_le arr _ true fresh
    · exact h

theorem remove_capacity (arr : array_container_t) (x : Nat) :
    (array_container_remove arr x).2.capacity = arr.capacity := by
  unfold array_container_remove
  dsimp only
  split <;> rfl

/-- Every reachable container satisfies the invariant `reachable_inv` and has a
capacity of at most `INT32_MAX`. -/
theorem reachable_spec (arr : array_container_t) (h : reachable arr) :
    reachable_inv arr ∧ arr.capacity ≤ 2147483647 := by
  induction h with
  | create fresh =>
    exact ⟨reachable_inv_create fresh, by show (16 : Int) ≤ 2147483647; omega⟩
  | add arr x fresh _ hx ih =>
    exact ⟨reachable_inv_add arr x fresh ih.1 hx, add_capacity_le arr x fresh ih.2⟩
  | remove arr x _ ih =>
    exact ⟨reachable_inv_remove arr x ih.1, by rw [remove_capacity]; exact ih.2⟩
  | union a b out fresh _ _ _ iha ihb ihout =>
    have ha := iha.1.1
    have hb := ihb.1.1
    have hac := wf_cardinality_le a ha
    have hbc := wf_cardinality_le b hb
    obtain ⟨r0, r1, r2, r3⟩ := union2by2_spec a.array.data a.cardinality b.array.data
      b.cardinality (if out.capacity < a.cardinality + b.cardinality then
        increaseCapacity out (a.cardinality + b.cardinality) INT32_MAX false fresh
      else out).array.data ha.1 hb.1 (wf_increasing a ha) (wf_increasing b hb)
    apply reachable_inv_destination out (a.cardinality + b.cardinality) fresh _ _ ihout.1
      ihout.2 (by omega) r0 r1 r2
    intro i h0 hi
    rcases (r3 _).mp ⟨i, h0, hi, rfl⟩ with hv | hv
    · exact ha.2.2.2 _ ((mem_prefixOf _ _ _).mpr hv)
    · exact hb.2.2.2 _ ((mem_prefixOf _ _ _).mpr hv)
  | intersection a b out r fresh _ _ _ hr iha ihb ihout =>
    have ha := iha.1.1
    have hb := ihb.1.1
    have hac := wf_cardinality_le a ha
    have hbc := wf_cardinality_le b hb
    have hk := intersection2by2_spec a.array.data a.cardinality b.array.data b.cardinality
      (if out.capacity < (if a.cardinality < b.cardinality then a.cardinality
        else b.cardinality) then
        increaseCapacity out (if a.cardinality < b.cardinality then a.cardinality
          else b.cardinality) INT32_MAX false fresh
      else out).array.data ha.1 hb.1 hac hbc (wf_increasing a ha) (wf_increasing b hb)
    obtain ⟨pos, buf, e, p0, p1, p2, hinc, hocc⟩ := hk
    unfold array_container_intersection at hr
    dsimp only at hr
    rw [e] at hr
    simp only [Option.some.injEq] at hr
    rw [← hr]
    apply reachable_inv_destination out _ fresh pos buf ihout.1 ihout.2
      (by split <;> omega) p0 (by split <;> omega) hinc
    intro i h0 hi
    exact ha.2.2.2 _ ((mem_prefixOf _ _ _).mpr ((hocc _).mp ⟨i, h0, hi, rfl⟩).1)

/-! ## Claims C11 and C12 -/

/-- C11 as stated fails: after `add(5)` and `add(1)` on a new container the
capacity is 2147483647, above 65536. -/
theorem C11_capacity_exceeds_65536 :
    reachable (run (array_container_create (fun _ => 0))
      [op.add 5 (fun _ => 0), op.add 1 (fun _ => 0)]) ∧
    (run (array_container_create (fun _ => 0))
      [op.add 5 (fun _ => 0), op.add 1 (fun _ => 0)]).capacity = 2147483647 ∧
    ¬ (run (array_container_create (fun _ => 0))
      [op.add 5 (fun _ => 0), op.add 1 (fun _ => 0)]).capacity ≤ 65536 :=
  ⟨reachable.add _ 1 _ (reachable.add _ 5 _ (reachable.create _) (by decide)) (by decide),
   by decide, by decide⟩

/-- C11, amended: in every state reachable from `array_container_create` by
add, remove, union and intersection (as source or destination) with 16-bit
keys, `0 ≤ cardinality ≤ capacity ≤ 2147483647` and `cardinality ≤ 65536`. -/
theorem C11_reachable_bounds (arr : array_container_t) (h : reachable arr) :
    0 ≤ arr.cardinality ∧ arr.cardinality ≤ arr.capacity ∧ arr.capacity ≤ 2147483647 ∧
      arr.cardinality ≤ 65536 := by
  obtain ⟨⟨hwf, hb⟩, hcap⟩ := reachable_spec arr h
  have hc := wf_cardinality_le arr hwf
  refine ⟨hwf.1, ?_, hcap, hc⟩
  rcases hb with ⟨b1, b2, b3⟩ | ⟨b1, b2⟩ <;> omega

/-- Witness of C11, amended, on the container after `add(5)` and `add(1)`. -/
theorem C11_reachable_bounds_witness :
    reachable (array_container_add (array_container_add (array_container_create (fun _ => 0)) 5
      (fun _ => 0)).2 1 (fun _ => 0)).2 ∧
    (array_container_add (array_container_add (array_container_create (fun _ => 0)) 5
      (fun _ => 0)).2 1 (fun _ => 0)).2.cardinality ≤
    (array_container_add (array_container_add (array_container_create (fun _ => 0)) 5
      (fun _ => 0)).2 1 (fun _ => 0)).2.capacity :=
  ⟨reachable.add _ 1 _ (reachable.add _ 5 _ (reachable.create _) (by decide)) (by decide),
   (C11_reachable_bounds _
     (reachable.add _ 1 _ (reachable.add _ 5 _ (reachable.create _) (by decide))
       (by decide))).2.1⟩

theorem prefixOf_succ (a : Int → Nat) (n : Int) (hn : 0 ≤ n) :
    prefixOf a (n + 1) = prefixOf a n ++ [a n] := by
  unfold prefixOf
  have e : (n + 1).toNat = n.toNat + 1 := by omega
  rw [e, List.range_succ, List.map_append]
  simp [Int.toNat_of_nonneg hn]

/-- Adding a key above every live element of a reachable container appends it. -/
theorem add_above (arr : array_container_t) (k : Nat) (fresh : Int → Nat)
    (h : reachable_inv arr) (hk : ∀ v ∈ live arr, v < k) :
    (array_container_add arr k fresh).1 = true ∧
    live (array_container_add arr k fresh).2 = live arr ++ [k] ∧
    (array_container_add arr k fresh).2.cardinality = arr.cardinality + 1 := by
  have hwf := h.1
  have hlive : ∀ i, 0 ≤ i → i < arr.cardinality → arr.array.data i < k :=
    fun i h0 hi => hk _ ((mem_prefixOf _ _ _).mpr ⟨i, h0, hi, rfl⟩)
  rcases add_cases arr k fresh hwf with ⟨⟨i, h0, hi, hv⟩, -⟩ | ⟨-, hret, hc, p, hp0, hpn, -, hup,
      h_lo, h_p, -⟩
  · have := hlive i h0 hi
    omega
  · have hpe : p = arr.cardinality := by
      by_contra hne
      have a1 := hup p (le_refl p) (by omega)
      have a2 := hlive p hp0 (by omega)
      omega
    subst hpe
    refine ⟨hret, ?_, hc⟩
    unfold live
    rw [hc, prefixOf_succ _ _ hwf.1, h_p]
    congr 1
    exact prefixOf_congr _ _ _ h_lo

/-- Adding an increasing run of 16-bit keys, all above the live elements, to a
reachable container appends the run. -/
theorem run_adds_above (fr : Nat → Int → Nat) (ks : List Nat) :
    ∀ arr, reachable_inv arr → ks.Pairwise (· < ·) → (∀ k ∈ ks, k < 65536) →
      (∀ v ∈ live arr, ∀ k ∈ ks, v < k) →
      reachable_inv (run arr (ks.map (fun k => op.add k (fr k)))) ∧
      live (run arr (ks.map (fun k => op.add k (fr k)))) = live arr ++ ks ∧
      (run arr (ks.map (fun k => op.add k (fr k)))).cardinality
        = arr.cardinality + (ks.length : Int) := by
  induction ks with
  | nil =>
    intro arr h _ _ _
    exact ⟨h, by simp [run], by simp [run]⟩
  | cons k ks ih =>
    intro arr h hs h16 habove
    obtain ⟨hk1, hk2⟩ := List.pairwise_cons.mp hs
    obtain ⟨a1, a2, a3⟩ := add_above arr k (fr k) h
      (fun v hv => habove v hv k (List.mem_cons_self _ _))
    have hinv := reachable_inv_add arr k (fr k) h (h16 k (List.mem_cons_self _ _))
    obtain ⟨b1, b2, b3⟩ := ih (array_container_add arr k (fr k)).2 hinv hk2
      (fun k' hk' => h16 k' (List.mem_cons_of_mem _ hk')) (by
        intro v hv k' hk'
        rw [a2, List.mem_append] at hv
        rcases hv with hv | hv
        · exact habove v hv k' (List.mem_cons_of_mem _ hk')
        · rw [List.mem_singleton] at hv
          subst hv
          exact hk1 k' hk')
    have e : run arr ((k :: ks).map (fun k => op.add k (fr k)))
        = run (array_container_add arr k (fr k)).2 (ks.map (fun k => op.add k (fr k))) := rfl
    rw [e]
    refine ⟨b1, ?_, ?_⟩
    · rw [b2, a2, List.append_assoc]; rfl
    · rw [b3, a3, List.length_cons]; push_cast; omega

theorem reachable_inv_cardinality_le_capacity (arr : array_container_t)
    (h : reachable_inv arr) : arr.cardinality ≤ arr.capacity := by
  have hc := wf_cardinality_le arr h.1
  rcases h.2 with ⟨b1, b2, b3⟩ | ⟨b1, b2⟩ <;> omega

/-- The state after a bulk load of a strictly increasing run of 16-bit keys. -/
theorem bulk_load_spec (fresh : Int → Nat) (fr : Nat → Int → Nat) (ks : List Nat)
    (hs : ks.Pairwise (· < ·)) (h16 : ∀ k ∈ ks, k < 65536) :
    reachable_inv (bulk_load fresh fr ks) ∧ live (bulk_load fresh fr ks) = ks ∧
      (bulk_load fresh fr ks).cardinality = (ks.length : Int) := by
  obtain ⟨a1, a2, a3⟩ := run_adds_above fr ks (array_container_create fresh)
    (reachable_inv_create fresh) hs h16 (by
      intro v hv
      simp [live, prefixOf, array_container_create] at hv)
  refine ⟨a1, ?_, ?_⟩
  · unfold bulk_load
    rw [a2]
    simp [live, prefixOf, array_container_create]
  · unfold bulk_load
    rw [a3]
    simp [array_container_create]

/-- C12: when a strictly increasing sequence `ks` of 16-bit keys is added in
order to a new container, then at every step, that is for every split
`ks = p ++ k :: rest`, the call that adds `k` returns true and afterwards the
cardinality is `|p| + 1`, it does not exceed the capacity, and the live prefix
is exactly `p ++ [k]`; adding 0, ..., 999 gives cardinality 1000, capacity at
least 1000 and the live prefix `[0, ..., 999]`. -/
theorem C12_bulk_load_in_order (fresh : Int → Nat) (fr : Nat → Int → Nat) (ks : List Nat)
    (hs : ks.Pairwise (· < ·)) (h16 : ∀ k ∈ ks, k < 65536) :
    (∀ (p : List Nat) (k : Nat) (rest : List Nat), ks = p ++ k :: rest →
      (array_container_add (bulk_load fresh fr p) k (fr k)).1 = true ∧
      bulk_load fresh fr (p ++ [k]) = (array_container_add (bulk_load fresh fr p) k (fr k)).2 ∧
      (bulk_load fresh fr (p ++ [k])).cardinality = (p.length : Int) + 1 ∧
      (bulk_load fresh fr (p ++ [k])).cardinality ≤ (bulk_load fresh fr (p ++ [k])).capacity ∧
      live (bulk_load fresh fr (p ++ [k])) = p ++ [k]) ∧
    (bulk_load fresh fr (List.range 1000)).cardinality = 1000 ∧
    1000 ≤ (bulk_load fresh fr (List.range 1000)).capacity ∧
    live (bulk_load fresh fr (List.range 1000)) = List.range 1000 := by
  constructor
  · intro p k rest hsplit
    subst hsplit
    obtain ⟨hp, hrest, hcross⟩ := List.pairwise_append.mp hs
    have hp16 : ∀ v ∈ p, v < 65536 := fun v hv => h16 v (List.mem_append_left _ hv)
    have hk16 : k < 65536 := h16 k (List.mem_append_right _ (List.mem_cons_self _ _))
    obtain ⟨a1, a2, a3⟩ := bulk_load_spec fresh fr p hp hp16
    obtain ⟨b1, b2, b3⟩ := add_above (bulk_load fresh fr p) k (fr k) a1 (by
      intro v hv
      rw [a2] at hv
      exact hcross v hv k (List.mem_cons_self _ _))
    have e : bulk_load fresh fr (p ++ [k])
        = (array_container_add (bulk_load fresh fr p) k (fr k)).2 := by
      unfold bulk_load run
      rw [List.map_append, List.foldl_append]
      rfl
    have hinv := reachable_inv_add (bulk_load fresh fr p) k (fr k) a1 hk16
    refine ⟨b1, e, ?_, ?_, ?_⟩
    · rw [e, b3, a3]
    · rw [e]; exact reachable_inv_cardinality_le_capacity _ hinv
    · rw [e, b2, a2]
  · obtain ⟨a1, a2, a3⟩ := bulk_load_spec fresh fr (List.range 1000) (List.pairwise_lt_range 1000)
      (by intro k hk; rw [List.mem_range] at hk; omega)
    have hc := reachable_inv_cardinality_le_capacity _ a1
    rw [List.length_range] at a3
    refine ⟨by rw [a3]; rfl, ?_, a2⟩
    rw [a3] at hc
    exact_mod_cast hc

/-- Witness of C12 on the keys 2, 5, 9, at the step that adds 9. -/
theorem C12_bulk_load_in_order_witness :
    [2, 5, 9].Pairwise (· < ·) ∧ (∀ k ∈ [2, 5, 9], k < 65536) ∧
    live (bulk_load (fun _ => 0) (fun _ _ => 7) ([2, 5] ++ [9])) = [2, 5] ++ [9] :=
  ⟨by decide, by decide,
   ((C12_bulk_load_in_order (fun _ => 0) (fun _ _ => 7) [2, 5, 9] (by decide) (by decide)).1
     [2, 5] 9 [] rfl).2.2.2.2⟩

/-! ## Which output slots the set operations write -/

/-- The loop of `union2by2` leaves every output slot outside `[pos, r.1)` as
it was, where `r.1` is the returned length. -/
theorem union2by2_loop_frame (set1 : Int → Nat) (len1 : Int) (set2 : Int → Nat) (len2 : Int)
    (fuel : Nat) :
    ∀ (buffer : Int → Nat) (pos k1 k2 : Int) (s1 s2 : Nat), k1 < len1 → k2 < len2 →
      pos ≤ (union2by2_loop set1 len1 set2 len2 fuel buffer pos k1 k2 s1 s2).1 ∧
      ∀ i, (i < pos ∨ (union2by2_loop set1 len1 set2 len2 fuel buffer pos k1 k2 s1 s2).1 ≤ i) →
        (union2by2_loop set1 len1 set2 len2 fuel buffer pos k1 k2 s1 s2).2 i = buffer i := by
  have hexit : ∀ (buffer : Int → Nat) (pos : Int) (s : Nat) (a : Int → Nat) (k n : Int), 0 ≤ n →
      pos ≤ pos + 1 + n ∧ ∀ i, (i < pos ∨ pos + 1 + n ≤ i) →
        memcpy (store buffer pos s) (pos + 1) a k n i = buffer i := by
    intro buffer pos s a k n hn
    refine ⟨by omega, ?_⟩
    intro i hi
    unfold memcpy store
    rw [if_neg (by omega), if_neg (by omega)]
  have hstep : ∀ (buffer : Int → Nat) (pos : Int) (s : Nat) (r : Int × (Int → Nat)),
      (pos + 1 ≤ r.1 ∧ ∀ i, (i < pos + 1 ∨ r.1 ≤ i) → r.2 i = store buffer pos s i) →
      pos ≤ r.1 ∧ ∀ i, (i < pos ∨ r.1 ≤ i) → r.2 i = buffer i := by
    intro buffer pos s r ⟨h1, h2⟩
    refine ⟨by omega, ?_⟩
    intro i hi
    rw [h2 i (by omega)]
    unfold store
    rw [if_neg (by omega)]
  induction fuel with
  | zero =>
    intro buffer pos k1 k2 s1 s2 _ _
    exact ⟨le_refl _, fun i _ => rfl⟩
  | succ fuel ih =>
    intro buffer pos k1 k2 s1 s2 hk1 hk2
    unfold union2by2_loop
    by_cases hlt : s1 < s2
    · simp only [hlt, if_true]
      by_cases hex : k1 + 1 ≥ len1
      · simp only [hex, if_true]
        exact hexit buffer pos s1 set2 k2 (len2 - k2) (by omega)
      · simp only [hex, if_false]
        exact hstep buffer pos s1 _ (ih _ _ _ _ _ _ (by omega) hk2)
    · simp only [hlt, if_false]
      by_cases heq : s1 = s2
      · simp only [heq, if_true]
        by_cases hex : k1 + 1 ≥ len1
        · simp only [hex, if_true]
          exact hexit buffer pos s2 set2 (k2 + 1) (len2 - (k2 + 1)) (by omega)
        · simp only [hex, if_false]
          by_cases hex2 : k2 + 1 ≥ len2
          · simp only [hex2, if_true]
            exact hexit buffer pos s2 set1 (k1 + 1) (len1 - (k1 + 1)) (by omega)
          · simp only [hex2, if_false]
            exact hstep buffer pos s2 _ (ih _ _ _ _ _ _ (by omega) (by omega))
      · simp only [heq, if_false]
        by_cases hex2 : k2 + 1 ≥ len2
        · simp only [hex2, if_true]
          exact hexit buffer pos s2 set1 k1 (len1 - k1) (by omega)
        · simp only [hex2, if_false]
          exact hstep buffer pos s2 _ (ih _ _ _ _ _ _ hk1 (by omega))

/-- Function `union2by2` leaves every output slot outside `[0, r.1)` as it
was, where `r.1` is the returned length. -/
theorem union2by2_frame (set1 : Int → Nat) (len1 : Int) (set2 : Int → Nat) (len2 : Int)
    (buffer : Int → Nat) (hl1 : 0 ≤ len1) (hl2 : 0 ≤ len2) :
    ∀ i, (i < 0 ∨ (union2by2 set1 len1 set2 len2 buffer).1 ≤ i) →
      (union2by2 set1 len1 set2 len2 buffer).2 i = buffer i := by
  unfold union2by2
  by_cases e2 : 0 = len2
  · rw [if_pos e2]
    intro i hi
    show memcpy buffer 0 set1 0 len1 i = buffer i
    have hi' : i < 0 ∨ len1 ≤ i := hi
    unfold memcpy
    rw [if_neg (by omega)]
  · rw [if_neg e2]
    by_cases e1 : 0 = len1
    · rw [if_pos e1]
      intro i hi
      show memcpy buffer 0 set2 0 len2 i = buffer i
      have hi' : i < 0 ∨ len2 ≤ i := hi
      unfold memcpy
      rw [if_neg (by omega)]
    · rw [if_neg e1]
      exact (union2by2_loop_frame set1 len1 set2 len2 _ buffer 0 0 0 _ _ (by omega)
        (by omega)).2

/-- The pre-sizing step makes the capacity at least `need`. -/
theorem presize_ge (out : array_container_t) (need : Int) (fresh : Int → Nat)
    (hneed : need ≤ 2147483647) :
    need ≤ (if out.capacity < need then increaseCapacity out need INT32_MAX false fresh
      else out).capacity := by
  by_cases h : out.capacity < need
  · simp only [h, if_true]
    simp only [increaseCapacity, INT32_MAX]
    have e : (2147483647 : Int) - Int.tdiv 2147483647 16 = 2013265920 := by decide
    rw [e]
    split
    · omega
    · split
      · omega
      · split <;> omega
  · simp only [h, if_false]
    omega

/-- The loop of `localintersect2by2`, when it returns, has left every output
slot outside `[pos, p)` as it was, where `p` is the returned count. -/
theorem localintersect2by2_loop_frame (set1 : Int → Nat) (len1 : Int) (set2 : Int → Nat)
    (len2 : Int) (fuel : Nat) :
    ∀ (buffer : Int → Nat) (pos k1 k2 : Int) (s1 s2 : Nat) (p : Int) (b : Int → Nat),
      localintersect2by2_loop set1 len1 set2 len2 fuel buffer pos k1 k2 s1 s2 = some (p, b) →
      pos ≤ p ∧ ∀ i, (i < pos ∨ p ≤ i) → b i = buffer i := by
  induction fuel with
  | zero =>
    intro buffer pos k1 k2 s1 s2 p b h
    simp [localintersect2by2_loop] at h
  | succ fuel ih =>
    intro buffer pos k1 k2 s1 s2 p b h
    have hstore : ∀ i, (i < pos ∨ pos + 1 ≤ i) → store buffer pos s1 i = buffer i := by
      intro i hi
      unfold store
      rw [if_neg (by omega)]
    unfold localintersect2by2_loop at h
    dsimp only at h
    split at h
    · simp at h
    · simp only [Option.some.injEq, Prod.mk.injEq] at h
      obtain ⟨rfl, rfl⟩ := h
      exact ⟨le_refl _, fun i _ => rfl⟩
    · split at h
      · split at h
        · simp at h
        · simp only [Option.some.injEq, Prod.mk.injEq] at h
          obtain ⟨rfl, rfl⟩ := h
          exact ⟨le_refl _, fun i _ => rfl⟩
        · exact ih _ _ _ _ _ _ _ _ h
      · split at h
        · simp only [Option.some.injEq, Prod.mk.injEq] at h
          obtain ⟨rfl, rfl⟩ := h
          exact ⟨by omega, hstore⟩
        · split at h
          · simp only [Option.some.injEq, Prod.mk.injEq] at h
            obtain ⟨rfl, rfl⟩ := h
            exact ⟨by omega, hstore⟩
          · obtain ⟨a1, a2⟩ := ih _ _ _ _ _ _ _ _ h
            refine ⟨by omega, ?_⟩
            intro i hi
            rw [a2 i (by omega)]
            exact hstore i (by omega)

/-- The loop of `onesidedgallopingintersect2by2`, when it returns, has left
every output slot outside `[pos, p)` as it was, where `p` is the returned
count. -/
theorem onesidedgallopingintersect2by2_loop_frame (smallset : Int → Nat) (lensmallset : Int)
    (largeset : Int → Nat) (lenlargeset : Int) (fuel : Nat) :
    ∀ (buffer : Int → Nat) (pos k1 k2 : Int) (s1 s2 : Nat) (p : Int) (b : Int → Nat),
      onesidedgallopingintersect2by2_loop smallset lensmallset largeset lenlargeset fuel buffer
        pos k1 k2 s1 s2 = some (p, b) →
      pos ≤ p ∧ ∀ i, (i < pos ∨ p ≤ i) → b i = buffer i := by
  induction fuel with
  | zero =>
    intro buffer pos k1 k2 s1 s2 p b h
    simp [onesidedgallopingintersect2by2_loop] at h
  | succ fuel ih =>
    intro buffer pos k1 k2 s1 s2 p b h
    have hstore : ∀ i, (i < pos ∨ pos + 1 ≤ i) → store buffer pos s2 i = buffer i := by
      intro i hi
      unfold store
      rw [if_neg (by omega)]
    unfold onesidedgallopingintersect2by2_loop at h
    dsimp only at h
    split at h
    · simp at h
    · simp only [Option.some.injEq, Prod.mk.injEq] at h
      obtain ⟨rfl, rfl⟩ := h
      exact ⟨le_refl _, fun i _ => rfl⟩
    · split at h
      · split at h
        · simp only [Option.some.injEq, Prod.mk.injEq] at h
          obtain ⟨rfl, rfl⟩ := h
          exact ⟨le_refl _, fun i _ => rfl⟩
        · exact ih _ _ _ _ _ _ _ _ h
      · split at h
        · simp only [Option.some.injEq, Prod.mk.injEq] at h
          obtain ⟨rfl, rfl⟩ := h
          exact ⟨by omega, hstore⟩
        · split at h
          · simp at h
          · split at h
            · simp only [Option.some.injEq, Prod.mk.injEq] at h
              obtain ⟨rfl, rfl⟩ := h
              exact ⟨by omega, hstore⟩
            · obtain ⟨a1, a2⟩ := ih _ _ _ _ _ _ _ _ h
              refine ⟨by omega, ?_⟩
              intro i hi
              rw [a2 i (by omega)]
              exact hstore i (by omega)

/-- Function `intersection2by2`, when it returns, has left every output slot
outside `[0, p)` as it was, where `p` is the returned count. -/
theorem intersection2by2_frame (set1 : Int → Nat) (len1 : Int) (set2 : Int → Nat) (len2 : Int)
    (buffer : Int → Nat) (p : Int) (b : Int → Nat)
    (h : intersection2by2 set1 len1 set2 len2 buffer = some (p, b)) :
    0 ≤ p ∧ ∀ i, (i < 0 ∨ p ≤ i) → b i = buffer i := by
  have hg : ∀ (s : Int → Nat) (ls : Int) (l : Int → Nat) (ll : Int),
      onesidedgallopingintersect2by2 s ls l ll buffer = some (p, b) →
      0 ≤ p ∧ ∀ i, (i < 0 ∨ p ≤ i) → b i = buffer i := by
    intro s ls l ll hh
    unfold onesidedgallopingintersect2by2 at hh
    split at hh
    · simp only [Option.some.injEq, Prod.mk.injEq] at hh
      obtain ⟨rfl, rfl⟩ := hh
      exact ⟨le_refl _, fun i _ => rfl⟩
    · exact onesidedgallopingintersect2by2_loop_frame _ _ _ _ _ _ _ _ _ _ _ _ _ hh
  unfold intersection2by2 at h
  dsimp only at h
  split at h
  · exact hg _ _ _ _ h
  · split at h
    · exact hg _ _ _ _ h
    · unfold localintersect2by2 at h
      split at h
      · simp only [Option.some.injEq, Prod.mk.injEq] at h
        obtain ⟨rfl, rfl⟩ := h
        exact ⟨le_refl _, fun i _ => rfl⟩
      · exact localintersect2by2_loop_frame _ _ _ _ _ _ _ _ _ _ _ _ _ h

/-! ## Claims C13 and C14 -/

/-- C13: for well-formed containers `A` and `B` and any destination, after
`array_container_union` the cardinality of the destination is at most
`A.cardinality + B.cardinality`, which is at most its capacity, and every
output slot at an index from the new cardinality on (so every slot at an index
`≥ capacity`) holds what it held when the merge started: the merge writes
below the capacity only. -/
theorem C13_union_within_capacity (A B out : array_container_t) (fresh : Int → Nat)
    (hA : wf A) (hB : wf B) :
    0 ≤ (array_container_union A B out fresh).cardinality ∧
    (array_container_union A B out fresh).cardinality ≤ A.cardinality + B.cardinality ∧
    A.cardinality + B.cardinality ≤ (array_container_union A B out fresh).capacity ∧
    ∀ i, (i < 0 ∨ (array_container_union A B out fresh).cardinality ≤ i) →
      (array_container_union A B out fresh).array.data i
        = if out.capacity < A.cardinality + B.cardinality then fresh i else out.array.data i := by
  have hAc := wf_cardinality_le A hA
  have hBc := wf_cardinality_le B hB
  have hpre := presize_ge out (A.cardinality + B.cardinality) fresh (by omega)
  have hdata : ∀ i, (if out.capacity < A.cardinality + B.cardinality then
        increaseCapacity out (A.cardinality + B.cardinality) INT32_MAX false fresh
      else out).array.data i
      = if out.capacity < A.cardinality + B.cardinality then fresh i else out.array.data i := by
    intro i
    split
    · simp [increaseCapacity, malloc]
    · rfl
  obtain ⟨r0, r1, -, -⟩ := union2by2_spec A.array.data A.cardinality B.array.data
    B.cardinality (if out.capacity < A.cardinality + B.cardinality then
      increaseCapacity out (A.cardinality + B.cardinality) INT32_MAX false fresh
    else out).array.data hA.1 hB.1 (wf_increasing A hA) (wf_increasing B hB)
  have hf := union2by2_frame A.array.data A.cardinality B.array.data B.cardinality
    (if out.capacity < A.cardinality + B.cardinality then
      increaseCapacity out (A.cardinality + B.cardinality) INT32_MAX false fresh
    else out).array.data hA.1 hB.1
  refine ⟨r0, r1, hpre, ?_⟩
  intro i hi
  rw [← hdata i]
  exact hf i hi

/-- Witness of C13: the union of `[1, 3, 5]` and `[2, 3, 4]` into a container
whose slots hold 9, 9, 9, 9, 9, 9. -/
theorem C13_union_within_capacity_witness :
    wf (mkContainer 3 [1, 3, 5]) ∧ wf (mkContainer 3 [2, 3, 4]) ∧
    (array_container_union (mkContainer 3 [1, 3, 5]) (mkContainer 3 [2, 3, 4])
      (mkContainer 1 [9, 9, 9, 9, 9, 9]) (fun _ => 0)).cardinality ≤
      (mkContainer 3 [1, 3, 5]).cardinality + (mkContainer 3 [2, 3, 4]).cardinality ∧
    (array_container_union (mkContainer 3 [1, 3, 5]) (mkContainer 3 [2, 3, 4])
      (mkContainer 1 [9, 9, 9, 9, 9, 9]) (fun _ => 0)).array.data 5 = 9 :=
  ⟨by decide, by decide,
   (C13_union_within_capacity (mkContainer 3 [1, 3, 5]) (mkContainer 3 [2, 3, 4])
     (mkContainer 1 [9, 9, 9, 9, 9, 9]) (fun _ => 0) (by decide) (by decide)).2.1,
   by decide⟩

/-- C14: for well-formed containers `A` and `B` and any destination, the scalar
`array_container_intersection` returns; the count that `intersection2by2`
reports is at most `min(A.cardinality, B.cardinality)`, which is at most the
capacity of the destination after its pre-sizing, and every output slot at an
index from that count on (so every slot at an index
`≥ min(A.cardinality, B.cardinality)`) holds what it held before. -/
theorem C14_intersection_within_capacity (A B out : array_container_t) (fresh : Int → Nat)
    (hA : wf A) (hB : wf B) :
    ∃ r, array_container_intersection A B out fresh = some r ∧
      0 ≤ r.cardinality ∧ r.cardinality ≤ min A.cardinality B.cardinality ∧
      min A.cardinality B.cardinality ≤ r.capacity ∧
      ∀ i, (i < 0 ∨ r.cardinality ≤ i) →
        r.array.data i
          = if out.capacity < min A.cardinality B.cardinality then fresh i
            else out.array.data i := by
  have hAc := wf_cardinality_le A hA
  have hBc := wf_cardinality_le B hB
  have hm : (if A.cardinality < B.cardinality then A.cardinality else B.cardinality)
      = min A.cardinality B.cardinality := by
    split <;> omega
  have hpre := presize_ge out (min A.cardinality B.cardinality) fresh (by omega)
  have hdata : ∀ i, (if out.capacity < min A.cardinality B.cardinality then
        increaseCapacity out (min A.cardinality B.cardinality) INT32_MAX false fresh
      else out).array.data i
      = if out.capacity < min A.cardinality B.cardinality then fresh i
        else out.array.data i := by
    intro i
    split
    · simp [increaseCapacity, malloc]
    · rfl
  have hk := intersection2by2_spec A.array.data A.cardinality B.array.data B.cardinality
    (if out.capacity < min A.cardinality B.cardinality then
      increaseCapacity out (min A.cardinality B.cardinality) INT32_MAX false fresh
    else out).array.data hA.1 hB.1 hAc hBc (wf_increasing A hA) (wf_increasing B hB)
  obtain ⟨pos, buf, e, p0, p1, p2, -, -⟩ := hk
  obtain ⟨-, hf⟩ := intersection2by2_frame _ _ _ _ _ _ _ e
  unfold array_container_intersection
  dsimp only
  rw [hm, e]
  refine ⟨_, rfl, p0, by show pos ≤ min A.cardinality B.cardinality; omega, hpre, ?_⟩
  intro i hi
  show buf i = _
  rw [← hdata i]
  exact hf i hi

/-- Witness of C14: the intersection of `[1, 3, 5, 7, 9]` and `[3, 9]`. -/
theorem C14_intersection_within_capacity_witness :
    wf (mkContainer 5 [1, 3, 5, 7, 9]) ∧ wf (mkContainer 2 [3, 9]) ∧
    ∃ r, array_container_intersection (mkContainer 5 [1, 3, 5, 7, 9]) (mkContainer 2 [3, 9])
        (mkContainer 1 [4, 4, 4]) (fun _ => 0) = some r ∧
      0 ≤ r.cardinality ∧
      r.cardinality ≤ min (mkContainer 5 [1, 3, 5, 7, 9]).cardinality
        (mkContainer 2 [3, 9]).cardinality ∧
      min (mkContainer 5 [1, 3, 5, 7, 9]).cardinality (mkContainer 2 [3, 9]).cardinality
        ≤ r.capacity ∧
      ∀ i, (i < 0 ∨ r.cardinality ≤ i) →
        r.array.data i
          = if (mkContainer 1 [4, 4, 4]).capacity
              < min (mkContainer 5 [1, 3, 5, 7, 9]).cardinality
                (mkContainer 2 [3, 9]).cardinality then (fun _ => 0) i
            else (mkContainer 1 [4, 4, 4]).array.data i :=
  ⟨by decide, by decide,
   C14_intersection_within_capacity (mkContainer 5 [1, 3, 5, 7, 9]) (mkContainer 2 [3, 9])
     (mkContainer 1 [4, 4, 4]) (fun _ => 0) (by decide) (by decide)⟩

/-! ## Claims C15 to C20 -/

/-- When the allocation succeeds, `increaseCapacity_alloc` is
`increaseCapacity`. -/
theorem increaseCapacity_alloc_some (arr : array_container_t) (min max : Int) (copy : Bool)
    (fresh : Int → Nat) :
    increaseCapacity_alloc arr min max copy (some fresh)
      = { cardinality := (increaseCapacity arr min max copy fresh).cardinality
          capacity := (increaseCapacity arr min max copy fresh).capacity
          array := some (increaseCapacity arr min max copy fresh).array } := rfl

/-- When the allocation succeeds, `append_alloc` is `append`. -/
theorem append_alloc_some (arr : array_container_t) (i : Nat) (fresh : Int → Nat) :
    append_alloc arr i (some fresh)
      = some { cardinality := (append arr i fresh).cardinality
               capacity := (append arr i fresh).capacity
               array := some (append arr i fresh).array } := by
  unfold append_alloc append
  by_cases h : arr.cardinality = arr.capacity
  · simp only [h, if_true]
    rfl
  · simp only [h, if_false]

/-- When the allocation fails, `increaseCapacity` still stores the new
capacity, and the pointer it leaves is NULL. -/
theorem increaseCapacity_alloc_none (arr : array_container_t) (min max : Int) (copy : Bool)
    (fresh : Int → Nat) :
    (increaseCapacity_alloc arr min max copy none).array = none ∧
    (increaseCapacity_alloc arr min max copy none).capacity
      = (increaseCapacity arr min max copy fresh).capacity ∧
    (increaseCapacity_alloc arr min max copy none).cardinality = arr.cardinality :=
  ⟨rfl, rfl, rfl⟩

/-- On a full container `append` stores through the NULL pointer when the
allocation fails. -/
theorem append_alloc_none (arr : array_container_t) (i : Nat)
    (h : arr.cardinality = arr.capacity) : append_alloc arr i none = none := by
  unfold append_alloc
  simp only [h, if_true]
  rfl

/-- C15 (defect of the code): a failed allocation must be reported and must
leave the container valid, but `increaseCapacity` returns nothing, has already
stored the new capacity and leaves a NULL pointer. On the full container
`[1, ..., 16]` of capacity 16 with a failing `realloc`, the container after
`increaseCapacity(arr, 17, INT32_MAX, true)` has capacity 2147483647 and no
buffer, and `append(arr, 17)` stores through the NULL pointer. -/
theorem C15_allocation_failure_not_surfaced :
    (fullContainer 0).cardinality = (fullContainer 0).capacity ∧
    (increaseCapacity_alloc (fullContainer 0) 17 INT32_MAX true none).capacity = 2147483647 ∧
    (increaseCapacity_alloc (fullContainer 0) 17 INT32_MAX true none).cardinality = 16 ∧
    (increaseCapacity_alloc (fullContainer 0) 17 INT32_MAX true none).array.isNone = true ∧
    (append_alloc (fullContainer 0) 17 none).isNone = true := by
  decide

/-- The scalar `array_container_intersection` on well-formed inputs returns;
its live prefix is the list of the elements of `A` that occur in `B`. -/
theorem array_container_intersection_spec (A B out : array_container_t) (fresh : Int → Nat)
    (hA : wf A) (hB : wf B) :
    ∃ r, array_container_intersection A B out fresh = some r ∧
      live r = (live A).filter (fun v => decide (v ∈ live B)) ∧
      r.cardinality = (((live A).filter (fun v => decide (v ∈ live B))).length : Int) := by
  have hAi := wf_increasing A hA
  have hk := intersection2by2_spec A.array.data A.cardinality B.array.data B.cardinality
    (if out.capacity < (if A.cardinality < B.cardinality then A.cardinality
      else B.cardinality) then
      increaseCapacity out (if A.cardinality < B.cardinality then A.cardinality
        else B.cardinality) INT32_MAX false fresh
    else out).array.data hA.1 hB.1 (wf_cardinality_le A hA) (wf_cardinality_le B hB) hAi
    (wf_increasing B hB)
  have ho := inter_post_observed _ _ _ _ _ hAi hk
  obtain ⟨pos, buf, e, -⟩ := hk
  unfold array_container_intersection
  dsimp only
  rw [e] at ho ⊢
  simp only [observed, Option.map_some', Option.some.injEq, Prod.mk.injEq] at ho
  exact ⟨_, rfl, ho.2, ho.1⟩

/-- C16: two runs of the scalar `array_container_intersection` on well-formed
inputs with the same live prefixes give the same cardinality and the same live
prefix, whatever the slots behind the live prefixes of the inputs hold and
whatever the capacity, cardinality and content of the destination and of newly
allocated memory are. -/
theorem C16_intersection_independent_of_stale_data (A B out A' B' out' : array_container_t)
    (fresh fresh' : Int → Nat) (hA : wf A) (hB : wf B) (hA' : wf A') (hB' : wf B')
    (eA : live A = live A') (eB : live B = live B') :
    ∃ r r', array_container_intersection A B out fresh = some r ∧
      array_container_intersection A' B' out' fresh' = some r' ∧
      r.cardinality = r'.cardinality ∧ live r = live r' := by
  obtain ⟨r, e, a1, a2⟩ := array_container_intersection_spec A B out fresh hA hB
  obtain ⟨r', e', b1, b2⟩ := array_container_intersection_spec A' B' out' fresh' hA' hB'
  refine ⟨r, r', e, e', ?_, ?_⟩
  · rw [a2, b2, eA, eB]
  · rw [a1, b1, eA, eB]

/-- Witness of C16: `[1, 3, 5, 7, 9]` and `[3, 9]` with different slots behind
the live prefixes and different destinations. -/
theorem C16_intersection_independent_of_stale_data_witness :
    wf (mkContainer 5 [1, 3, 5, 7, 9]) ∧ wf (mkContainer 2 [3, 9]) ∧
    wf (mkContainer 5 [1, 3, 5, 7, 9, 3, 3]) ∧ wf (mkContainer 2 [3, 9, 9, 1]) ∧
    live (mkContainer 5 [1, 3, 5, 7, 9]) = live (mkContainer 5 [1, 3, 5, 7, 9, 3, 3]) ∧
    live (mkContainer 2 [3, 9]) = live (mkContainer 2 [3, 9, 9, 1]) ∧
    ∃ r r', array_container_intersection (mkContainer 5 [1, 3, 5, 7, 9]) (mkContainer 2 [3, 9])
        (mkContainer 0 []) (fun _ => 0) = some r ∧
      array_container_intersection (mkContainer 5 [1, 3, 5, 7, 9, 3, 3])
        (mkContainer 2 [3, 9, 9, 1]) (mkContainer 3 [8, 8, 8]) (fun _ => 6) = some r' ∧
      r.cardinality = r'.cardinality ∧ live r = live r' :=
  ⟨by decide, by decide, by decide, by decide, by decide, by decide,
   C16_intersection_independent_of_stale_data _ _ _ _ _ _ _ _ (by decide) (by decide)
     (by decide) (by decide) (by decide) (by decide)⟩

/-- C17 (defect of the code): an insertion into a container that is not full
must leave the capacity unchanged, but the general path of
`array_container_add` tests `arr->capacity == arr->capacity` and grows on every
insertion. Adding 4 to `[1, 3, 5]` with capacity 16 leaves the capacity
2147483647. -/
theorem C17_add_grows_when_not_full :
    (mkContainer 3 [1, 3, 5]).cardinality < (mkContainer 3 [1, 3, 5]).capacity ∧
    (mkContainer 3 [1, 3, 5]).capacity = 16 ∧
    (array_container_add (mkContainer 3 [1, 3, 5]) 4 (fun _ => 0)).1 = true ∧
    (array_container_add (mkContainer 3 [1, 3, 5]) 4 (fun _ => 0)).2.capacity = 2147483647 := by
  decide

/-- C18 (defect of the code): the removal must move `cardinality - loc - 1`
elements, but `array_container_remove` moves `cardinality - loc`. On the full
container `[1, ..., 16]` of capacity 16 in its block of 32 bytes, removing 3
overwrites the slot at the old index `cardinality - 1 = 15` with the content of
slot 16, which lies behind the live prefix and outside the block. -/
theorem C18_remove_moves_one_element_too_many :
    (fullContainer 99).cardinality = 16 ∧ (fullContainer 99).capacity = 16 ∧
    (fullContainer 99).array.size = 32 ∧
    (fullContainer 99).array.data 15 = 16 ∧ (fullContainer 99).array.data 16 = 99 ∧
    (array_container_remove (fullContainer 99) 3).1 = true ∧
    (array_container_remove (fullContainer 99) 3).2.array.data 15 = 99 ∧
    (array_container_remove (fullContainer 7) 3).2.array.data 15 = 7 := by
  decide

/-- C19 (defect of the code): for an absent target `binarySearch` must return
`-(p + 1)`, a negative value, but for a target above every element it compares
the target with `source[n]`. On the buffer of the reused destination, whose
first slot is the strictly increasing prefix `[1]` and whose next slot holds 5,
`binarySearch(source, 1, 5)` returns 1 where the encoding of the insertion
point is -2. -/
theorem C19_binarySearch_reports_absent_target :
    prefixOf reusedDestination.array.data 1 = [1] ∧
    5 ∉ prefixOf reusedDestination.array.data 1 ∧
    binarySearch reusedDestination.array.data 1 5 = 1 ∧
    binarySearch reusedDestination.array.data 1 4 = -2 := by
  decide

/-- C20: for a strictly increasing array of 16-bit values of length `length`
and a position `pos` with `-1 ≤ pos < length`, `advanceUntil` returns an index
`j` with `pos < j ≤ length` such that every element strictly between `pos` and
`j` is below `min` and, when `j < length`, `array[j] ≥ min`: the smallest index
behind `pos` whose element reaches `min`, or `length` when there is none. -/
theorem C20_advanceUntil_contract (array : Int → Nat) (pos length : Int) (min : Nat)
    (hs : (prefixOf array length).Pairwise (· < ·))
    (h16 : ∀ v ∈ prefixOf array length, v < 65536) (hpos : -1 ≤ pos) (hpl : pos < length) :
    ∃ j, advanceUntil array pos length min = some j ∧ pos < j ∧ j ≤ length ∧
      (j < length → min ≤ array j) ∧ (∀ i, pos < i → i < j → array i < min) ∧
      (j = length → ¬ ∃ i, pos < i ∧ i < length ∧ min ≤ array i) := by
  have hinc : increasing array length := (pairwise_prefixOf _ _).mp hs
  have hlen : length ≤ 65536 := increasing_length_le array length hinc
    (fun i h0 hi => h16 _ ((mem_prefixOf _ _ _).mpr ⟨i, h0, hi, rfl⟩))
  obtain ⟨j, e, a1, a2, a3, a4⟩ := advanceUntil_spec array pos length min hinc hpos hpl
    (by omega)
  refine ⟨j, e, a1, a2, a3, a4, ?_⟩
  rintro rfl ⟨i, b1, b2, b3⟩
  have := a4 i b1 b2
  omega

/-- Witness of C20 on `[1, 3, 5, 7, 9]`, from position 0, for the bound 6. -/
theorem C20_advanceUntil_contract_witness :
    (prefixOf (bufOf [1, 3, 5, 7, 9] 0) 5).Pairwise (· < ·) ∧
    advanceUntil (bufOf [1, 3, 5, 7, 9] 0) 0 5 6 = some 3 ∧
    ∃ j, advanceUntil (bufOf [1, 3, 5, 7, 9] 0) 0 5 6 = some j ∧ 0 < j ∧ j ≤ 5 ∧
      (j < 5 → 6 ≤ bufOf [1, 3, 5, 7, 9] 0 j) ∧
      (∀ i, 0 < i → i < j → bufOf [1, 3, 5, 7, 9] 0 i < 6) ∧
      (j = 5 → ¬ ∃ i, 0 < i ∧ i < 5 ∧ 6 ≤ bufOf [1, 3, 5, 7, 9] 0 i) :=
  ⟨by decide, by decide,
   C20_advanceUntil_contract (bufOf [1, 3, 5, 7, 9] 0) 0 5 6 (by decide) (by decide) (by decide)
     (by decide)⟩

/-! ## Growth policy: claims C21, C22 and C26 -/

/-- The growth step `g` of `increaseCapacity` for a capacity between 0 and
65536 lies between 0 and 81920. -/
theorem grow_bounds (cap : Int) (h0 : 0 ≤ cap) (h1 : cap ≤ 65536) :
    0 ≤ (if cap = 0 then DEFAULT_INIT_SIZE
      else if cap < 64 then wrap32 (cap * 2)
      else if cap < 1024 then (wrap32 (cap * 3)).tdiv 2
      else (wrap32 (cap * 5)).tdiv 4) ∧
    (if cap = 0 then DEFAULT_INIT_SIZE
      else if cap < 64 then wrap32 (cap * 2)
      else if cap < 1024 then (wrap32 (cap * 3)).tdiv 2
      else (wrap32 (cap * 5)).tdiv 4) ≤ 81920 := by
  have w2 : wrap32 (cap * 2) = cap * 2 := wrap32_eq _ (by omega) (by omega)
  have w3 : wrap32 (cap * 3) = cap * 3 := wrap32_eq _ (by omega) (by omega)
  have w5 : wrap32 (cap * 5) = cap * 5 := wrap32_eq _ (by omega) (by omega)
  have d3 : (cap * 3).tdiv 2 = cap * 3 / 2 := Int.tdiv_eq_ediv (by omega) (by omega)
  have d5 : (cap * 5).tdiv 4 = cap * 5 / 4 := Int.tdiv_eq_ediv (by omega) (by omega)
  rw [w2, w3, w5, d3, d5]
  unfold DEFAULT_INIT_SIZE
  split
  · omega
  · split
    · omega
    · split <;> omega

/-- For a capacity between 0 and 65536 and `min ≤ max`, the new capacity lies
between `min` and `max`, and the cardinality is unchanged. -/
theorem increaseCapacity_bounds (arr : array_container_t) (min max : Int) (copy : Bool)
    (fresh : Int → Nat) (hmm : min ≤ max) :
    min ≤ (increaseCapacity arr min max copy fresh).capacity ∧
    (increaseCapacity arr min max copy fresh).capacity ≤ max ∧
    (increaseCapacity arr min max copy fresh).cardinality = arr.cardinality := by
  refine ⟨?_, ?_, rfl⟩
  · simp only [increaseCapacity]
    split
    · omega
    · split
      · omega
      · split <;> omega
  · simp only [increaseCapacity]
    split
    · omega
    · split
      · omega
      · split <;> omega

/-- For a capacity between 0 and 65536 and a required minimum of at most
131072, a growth with the ceiling `INT32_MAX` ends at the ceiling. -/
theorem increaseCapacity_capacity_max (arr : array_container_t) (min : Int) (copy : Bool)
    (fresh : Int → Nat) (h0 : 0 ≤ arr.capacity) (h1 : arr.capacity ≤ 65536)
    (hm : min ≤ 131072) :
    (increaseCapacity arr min INT32_MAX copy fresh).capacity = 2147483647 := by
  obtain ⟨g0, g1⟩ := grow_bounds arr.capacity h0 h1
  simp only [increaseCapacity, INT32_MAX]
  have e : (2147483647 : Int) - Int.tdiv 2147483647 16 = 2013265920 := by decide
  rw [e]
  generalize (if arr.capacity = 0 then DEFAULT_INIT_SIZE
      else if arr.capacity < 64 then wrap32 (arr.capacity * 2)
      else if arr.capacity < 1024 then (wrap32 (arr.capacity * 3)).tdiv 2
      else (wrap32 (arr.capacity * 5)).tdiv 4) = g at g0 g1
  split_ifs <;> omega

/-- A container whose capacity is already `INT32_MAX` stays at the ceiling
when `increaseCapacity` is asked for `capacity + 1`. -/
theorem increaseCapacity_capacity_at_max (arr : array_container_t) (copy : Bool)
    (fresh : Int → Nat) (h : arr.capacity = 2147483647) :
    (increaseCapacity arr (wrap32 (arr.capacity + 1)) INT32_MAX copy fresh).capacity
      = 2147483647 := by
  simp only [increaseCapacity, INT32_MAX, h]
  decide

/-- C21 (defect of the code): the growth policy must snap to `max` when the
clamped value is within 1/16 of `max`, as the comment `if we are within 1/16th
of the max, go to max` in the code says, and keep it otherwise; the test of
the code is `newCapacity < max - max/16`, the opposite one. For capacity 16,
`min = 17` and `max = 65536` the new capacity is 65536, not 32. -/
theorem C21_snap_test_is_inverted :
    (mkContainer 0 []).capacity = 16 ∧
    (increaseCapacity (mkContainer 0 []) 17 65536 true (fun _ => 0)).capacity = 65536 ∧
    (increaseCapacity (mkContainer 0 []) 17 65536 false (fun _ => 0)).capacity = 65536 ∧
    (increaseCapacity (mkContainer 0 []) 61441 65536 true (fun _ => 0)).capacity = 61441 := by
  decide

/-- C22 (defect of the code): with `copy = true` the live prefix must survive
`increaseCapacity`, but the code passes the new capacity, a number of
elements, to `realloc` as a number of bytes. On the full container
`[1, ..., 16]` with `min = 17` and `max = 20` the new capacity is 20, the new
block has 20 bytes, that is 10 slots, and the last six live values are not
kept. -/
theorem C22_realloc_counts_bytes :
    live (fullContainer 0) = [1, 2, 3, 4, 5, 6, 7, 8, 9, 10, 11, 12, 13, 14, 15, 16] ∧
    (increaseCapacity (fullContainer 0) 17 20 true (fun _ => 0)).capacity = 20 ∧
    (increaseCapacity (fullContainer 0) 17 20 true (fun _ => 0)).cardinality = 16 ∧
    (increaseCapacity (fullContainer 0) 17 20 true (fun _ => 0)).array.size = 20 ∧
    live (increaseCapacity (fullContainer 0) 17 20 true (fun _ => 0))
      = [1, 2, 3, 4, 5, 6, 7, 8, 9, 10, 0, 0, 0, 0, 0, 0] ∧
    live (increaseCapacity (fullContainer 0) 17 20 true (fun _ => 7))
      = [1, 2, 3, 4, 5, 6, 7, 8, 9, 10, 7, 7, 7, 7, 7, 7] := by
  decide

/-- The capacity of a reachable container is 16 or `INT32_MAX`. -/
theorem reachable_capacity (arr : array_container_t) (h : reachable arr) :
    arr.capacity = 16 ∨ arr.capacity = 2147483647 := by
  have hgrow : ∀ (a : array_container_t) (copy : Bool) (fresh : Int → Nat),
      (a.capacity = 16 ∨ a.capacity = 2147483647) →
      (increaseCapacity a (wrap32 (a.capacity + 1)) INT32_MAX copy fresh).capacity
        = 2147483647 := by
    intro a copy fresh ha
    rcases ha with ha | ha
    · exact increaseCapacity_capacity_max a _ copy fresh (by omega) (by omega)
        (by rw [ha]; decide)
    · exact increaseCapacity_capacity_at_max a copy fresh ha
  have hpre : ∀ (out : array_container_t) (need : Int) (fresh : Int → Nat),
      (out.capacity = 16 ∨ out.capacity = 2147483647) → 0 ≤ need → need ≤ 131072 →
      ((if out.capacity < need then increaseCapacity out need INT32_MAX false fresh
        else out).capacity = 16 ∨
       (if out.capacity < need then increaseCapacity out need INT32_MAX false fresh
        else out).capacity = 2147483647) := by
    intro out need fresh ho hn0 hn
    by_cases hlt : out.capacity < need
    · rw [if_pos hlt]
      right
      rcases ho with ho | ho
      · exact increaseCapacity_capacity_max out need false fresh (by omega) (by omega) hn
      · omega
    · rw [if_neg hlt]
      exact ho
  induction h with
  | create fresh => exact Or.inl rfl
  | add arr x fresh _ _ ih =>
    unfold array_container_add
    split
    · unfold append
      by_cases hc : arr.cardinality = arr.capacity
      · simp only [hc, if_true]
        exact Or.inr (hgrow arr true fresh ih)
      · simp only [hc, if_false]
        exact ih
    · dsimp only
      split
      · simp only [if_true]
        exact Or.inr (hgrow arr true fresh ih)
      · exact ih
  | remove arr x _ ih =>
    rw [remove_capacity]
    exact ih
  | union a b out fresh ha hb _ _ _ ihout =>
    have hac := wf_cardinality_le a (reachable_spec a ha).1.1
    have hbc := wf_cardinality_le b (reachable_spec b hb).1.1
    have ha0 := (reachable_spec a ha).1.1.1
    have hb0 := (reachable_spec b hb).1.1.1
    exact hpre out (a.cardinality + b.cardinality) fresh ihout (by omega) (by omega)
  | intersection a b out r fresh ha hb _ hr _ _ ihout =>
    have hac := wf_cardinality_le a (reachable_spec a ha).1.1
    have hbc := wf_cardinality_le b (reachable_spec b hb).1.1
    have ha0 := (reachable_spec a ha).1.1.1
    have hb0 := (reachable_spec b hb).1.1.1
    unfold array_container_intersection at hr
    dsimp only at hr
    split at hr
    · simp at hr
    · simp only [Option.some.injEq] at hr
      rw [← hr]
      exact hpre out _ fresh ihout (by split <;> omega) (by split <;> omega)

/-- A growth from a capacity of 16 or of `INT32_MAX`, asked for
`capacity + 1`, ends at the ceiling. -/
theorem increaseCapacity_next_capacity (a : array_container_t) (copy : Bool)
    (fresh : Int → Nat) (ha : a.capacity = 16 ∨ a.capacity = 2147483647) :
    (increaseCapacity a (wrap32 (a.capacity + 1)) INT32_MAX copy fresh).capacity
      = 2147483647 := by
  rcases ha with ha | ha
  · exact increaseCapacity_capacity_max a _ copy fresh (by omega) (by omega)
      (by rw [ha]; decide)
  · exact increaseCapacity_capacity_at_max a copy fresh ha

/-- A pre-sizing step that grows a destination of capacity 16 or `INT32_MAX`
to at most 131072 elements ends at the ceiling. -/
theorem presize_capacity_max (out : array_container_t) (need : Int) (fresh : Int → Nat)
    (ho : out.capacity = 16 ∨ out.capacity = 2147483647) (hn : need ≤ 131072)
    (hlt : out.capacity < need) :
    (if out.capacity < need then increaseCapacity out need INT32_MAX false fresh
      else out).capacity = 2147483647 := by
  rw [if_pos hlt]
  rcases ho with ho | ho
  · exact increaseCapacity_capacity_max out need false fresh (by omega) (by omega) hn
  · omega

/-- C26: for a capacity between 0 and 65536 and a required minimum between 0
and 131072, `increaseCapacity` with the ceiling `INT32_MAX` sets the capacity
to 2147483647. Hence, on reachable containers, an append to a full container,
every insertion of a new element that is not an append, and every union or
intersection that grows its destination leave the capacity 2147483647. -/
theorem C26_growth_jumps_to_ceiling (arr : array_container_t) (min : Int) (copy : Bool)
    (fresh : Int → Nat) (h0 : 0 ≤ arr.capacity) (h1 : arr.capacity ≤ 65536) (hm0 : 0 ≤ min)
    (hm : min ≤ 131072) :
    (increaseCapacity arr min INT32_MAX copy fresh).capacity = 2147483647 ∧
    (∀ (c : array_container_t) (x : Nat) (f : Int → Nat), reachable c →
      c.cardinality = c.capacity → (append c x f).capacity = 2147483647) ∧
    (∀ (c : array_container_t) (x : Nat) (f : Int → Nat), reachable c →
      ¬ ((c.cardinality > 0 ∧ c.array.data (c.cardinality - 1) < x) ∨ c.cardinality = 0) →
      x ∉ live c → (array_container_add c x f).2.capacity = 2147483647) ∧
    (∀ (a b out : array_container_t) (f : Int → Nat), reachable a → reachable b →
      reachable out → out.capacity < a.cardinality + b.cardinality →
      (array_container_union a b out f).capacity = 2147483647) ∧
    (∀ (a b out r : array_container_t) (f : Int → Nat), reachable a → reachable b →
      reachable out → out.capacity < Min.min a.cardinality b.cardinality →
      array_container_intersection a b out f = some r → r.capacity = 2147483647) := by
  have _ := hm0
  refine ⟨increaseCapacity_capacity_max arr min copy fresh h0 h1 hm, ?_, ?_, ?_, ?_⟩
  · intro c x f hc hfull
    unfold append
    simp only [hfull, if_true]
    exact increaseCapacity_next_capacity c true f (reachable_capacity c hc)
  · intro c x f hc hfast hx
    have hwf := (reachable_spec c hc).1.1
    have hinc := wf_increasing c hwf
    have hpos : 1 ≤ c.cardinality := by
      by_contra hcon
      exact hfast (Or.inr (by have := hwf.1; omega))
    have hlast : x ≤ c.array.data (c.cardinality - 1) := by
      by_contra hcon
      exact hfast (Or.inl ⟨by omega, by omega⟩)
    have hocc : ¬ occurs c.array.data c.cardinality x :=
      fun h => hx ((mem_prefixOf _ _ _).mpr h)
    obtain ⟨p, hp0, hpn, -, -, hb⟩ := binarySearch_absent _ _ _ hpos hinc hocc hlast
    unfold array_container_add
    rw [if_neg hfast]
    simp only [hb]
    rw [if_pos (by omega)]
    simp only [if_true]
    exact increaseCapacity_next_capacity c true f (reachable_capacity c hc)
  · intro a b out f ha hb hout hlt
    have hac := wf_cardinality_le a (reachable_spec a ha).1.1
    have hbc := wf_cardinality_le b (reachable_spec b hb).1.1
    exact presize_capacity_max out _ f (reachable_capacity out hout) (by omega) hlt
  · intro a b out r f ha hb hout hlt hr
    have hac := wf_cardinality_le a (reachable_spec a ha).1.1
    have hbc := wf_cardinality_le b (reachable_spec b hb).1.1
    have hm' : (if a.cardinality < b.cardinality then a.cardinality else b.cardinality)
        = Min.min a.cardinality b.cardinality := by
      split <;> omega
    unfold array_container_intersection at hr
    dsimp only at hr
    rw [hm'] at hr
    split at hr
    · simp at hr
    · simp only [Option.some.injEq] at hr
      rw [← hr]
      exact presize_capacity_max out _ f (reachable_capacity out hout) (by omega) hlt

/-- Witness of C26: the growth of a container of capacity 16 asked for 17. -/
theorem C26_growth_jumps_to_ceiling_witness :
    (0 : Int) ≤ (mkContainer 3 [1, 3, 5]).capacity ∧ (mkContainer 3 [1, 3, 5]).capacity ≤ 65536 ∧
    (increaseCapacity (mkContainer 3 [1, 3, 5]) 17 INT32_MAX true (fun _ => 0)).capacity
      = 2147483647 :=
  ⟨by decide, by decide,
   (C26_growth_jumps_to_ceiling (mkContainer 3 [1, 3, 5]) 17 true (fun _ => 0) (by decide)
     (by decide) (by decide) (by decide)).1⟩

/-! ## Claim C25 -/

/-- When the last of the first `n` slots is not below `target`, the result of
`binarySearch` is determined by these `n` slots alone. -/
theorem binarySearch_prefix_only (a b : Int → Nat) (n : Int) (target : Nat) (hn : 1 ≤ n)
    (hinc : increasing a n) (hlast : target ≤ a (n - 1))
    (hab : ∀ i, 0 ≤ i → i < n → b i = a i) :
    binarySearch b n target = binarySearch a n target := by
  have hincb : increasing b n := by
    intro i j h0 hij hj
    rw [hab i h0 (by omega), hab j (by omega) hj]
    exact hinc i j h0 hij hj
  obtain ⟨p, hp0, hpn, hlow, hup, hres⟩ := binarySearch_spec a n target hn hinc
  obtain ⟨q, hq0, hqn, hlowb, hupb, hresb⟩ := binarySearch_spec b n target hn hincb
  have hp : p < n := by
    by_contra hc
    have := hlow (n - 1) (by omega) (by omega)
    omega
  have hq : q < n := by
    by_contra hc
    have := hlowb (n - 1) (by omega) (by omega)
    rw [hab (n - 1) (by omega) (by omega)] at this
    omega
  have hpq : p = q := by
    rcases lt_trichotomy p q with h | h | h
    · have h1 := hlowb p hp0 h
      have h2 := hup p (le_refl p) hp
      rw [hab p hp0 hp] at h1
      omega
    · exact h
    · have h1 := hlow q hq0 h
      have h2 := hupb q (le_refl q) hq
      rw [hab q hq0 hq] at h2
      omega
  subst hpq
  rw [hres, hresb, hab p hp0 hp]

/-- The flag, the cardinality and the live prefix after `array_container_add`
on a well-formed container. -/
theorem add_live_spec (arr : array_container_t) (x : Nat) (fresh : Int → Nat) (hwf : wf arr) :
    (array_container_add arr x fresh).1 = decide (x ∉ live arr) ∧
    (live (array_container_add arr x fresh).2).Pairwise (· < ·) ∧
    (∀ v, v ∈ live (array_container_add arr x fresh).2 ↔ (v ∈ live arr ∨ v = x)) ∧
    (array_container_add arr x fresh).2.cardinality
      = arr.cardinality + (if x ∈ live arr then 0 else 1) := by
  have hinc := wf_increasing arr hwf
  have hmem : x ∈ live arr ↔ occurs arr.array.data arr.cardinality x := mem_prefixOf _ _ _
  rcases add_cases arr x fresh hwf with ⟨hocc, hres⟩ | ⟨hocc, hret, hcard, p, hp0, hpn, hlow, hup,
      h_lo, h_p, h_hi⟩
  · rw [hres]
    refine ⟨by simp [hmem, hocc], hwf.2.2.1, ?_, by rw [if_pos (hmem.mpr hocc)]; simp⟩
    intro v
    constructor
    · exact Or.inl
    · rintro (h | h)
      · exact h
      · subst h; exact hmem.mpr hocc
  · obtain ⟨i1, i2⟩ := insert_spec _ _ _ p x hinc hp0 hpn hlow hup h_lo h_p h_hi
    refine ⟨by rw [hret]; simp [hmem, hocc], ?_, ?_, ?_⟩
    · unfold live
      rw [pairwise_prefixOf, hcard]
      exact i1
    · intro v
      unfold live
      rw [mem_prefixOf, mem_prefixOf, hcard]
      exact i2 v
    · rw [hcard, if_neg (fun h => hocc (hmem.mp h))]

/-- C25: for two well-formed containers with the same live prefix, whatever
the slots behind the live prefix hold and whatever newly allocated memory
holds, `array_container_add` returns the same flag and gives the same
cardinality and the same live prefix. The binary search of the call is reached
only when `x` is not above the last live element, and then its result is
determined by the slots below `cardinality`. -/
theorem C25_add_independent_of_stale_data (arr arr' : array_container_t) (x : Nat)
    (fresh fresh' : Int → Nat) (h : wf arr) (h' : wf arr') (e : live arr = live arr') :
    (array_container_add arr x fresh).1 = (array_container_add arr' x fresh').1 ∧
    (array_container_add arr x fresh).2.cardinality
      = (array_container_add arr' x fresh').2.cardinality ∧
    live (array_container_add arr x fresh).2 = live (array_container_add arr' x fresh').2 ∧
    (¬ ((arr.cardinality > 0 ∧ arr.array.data (arr.cardinality - 1) < x) ∨
        arr.cardinality = 0) →
      x ≤ arr.array.data (arr.cardinality - 1) ∧
      ∀ other : Int → Nat, (∀ i, 0 ≤ i → i < arr.cardinality → other i = arr.array.data i) →
        binarySearch other arr.cardinality x
          = binarySearch arr.array.data arr.cardinality x) := by
  obtain ⟨a1, a2, a3, a4⟩ := add_live_spec arr x fresh h
  obtain ⟨b1, b2, b3, b4⟩ := add_live_spec arr' x fresh' h'
  have hcard : arr.cardinality = arr'.cardinality := by
    have l1 := length_prefixOf arr.array.data arr.cardinality
    have l2 := length_prefixOf arr'.array.data arr'.cardinality
    have e2 : (live arr).length = (live arr').length := by rw [e]
    unfold live at e2
    have := h.1
    have := h'.1
    omega
  refine ⟨by rw [a1, b1, e], by rw [a4, b4, e, hcard], ?_, ?_⟩
  · apply sorted_ext _ _ a2 b2
    intro v
    rw [a3 v, b3 v, e]
  · intro hfast
    have hpos : 1 ≤ arr.cardinality := by
      by_contra hcon
      exact hfast (Or.inr (by have := h.1; omega))
    have hlast : x ≤ arr.array.data (arr.cardinality - 1) := by
      by_contra hcon
      exact hfast (Or.inl ⟨by omega, by omega⟩)
    exact ⟨hlast, fun other hag =>
      binarySearch_prefix_only _ _ _ x hpos (wf_increasing arr h) hlast hag⟩

/-- Witness of C25: adding 4 to two containers with the live prefix
`[1, 3, 5]` and different slots behind it. -/
theorem C25_add_independent_of_stale_data_witness :
    wf (mkContainer 3 [1, 3, 5]) ∧ wf (mkContainer 3 [1, 3, 5, 4, 4]) ∧
    live (mkContainer 3 [1, 3, 5]) = live (mkContainer 3 [1, 3, 5, 4, 4]) ∧
    live (array_container_add (mkContainer 3 [1, 3, 5]) 4 (fun _ => 0)).2
      = live (array_container_add (mkContainer 3 [1, 3, 5, 4, 4]) 4 (fun _ => 9)).2 :=
  ⟨by decide, by decide, by decide,
   (C25_add_independent_of_stale_data (mkContainer 3 [1, 3, 5]) (mkContainer 3 [1, 3, 5, 4, 4]) 4
     (fun _ => 0) (fun _ => 9) (by decide) (by decide) (by decide)).2.2.1⟩

/-! ## Claim C27: termination of `advanceUntil` -/

/-- The bisection loop of `advanceUntil`, entered with `lower < upper`,
returns within `upper - lower` steps, whatever the array holds. -/
theorem advanceUntil_bisect_total (array : Int → Nat) (min : Nat) (fuel : Nat) :
    ∀ lower upper : Int, lower < upper → upper - lower ≤ fuel →
      ∃ j, advanceUntil_bisect array min fuel lower upper = some j ∧ lower < j ∧ j ≤ upper := by
  induction fuel with
  | zero => intro lower upper _ hf; omega
  | succ fuel ih =>
    intro lower upper hlu hf
    unfold advanceUntil_bisect
    by_cases hc : lower + 1 ≠ upper
    · rw [if_pos hc]
      have hm1 : lower < (lower + upper) / 2 := by omega
      have hm2 : (lower + upper) / 2 < upper := by omega
      dsimp only
      split
      · exact ⟨_, rfl, hm1, by omega⟩
      · split
        · obtain ⟨j, e, a1, a2⟩ := ih ((lower + upper) / 2) upper hm2 (by omega)
          exact ⟨j, e, by omega, a2⟩
        · obtain ⟨j, e, a1, a2⟩ := ih lower ((lower + upper) / 2) hm1 (by omega)
          exact ⟨j, e, a1, by omega⟩
    · rw [if_neg hc]
      exact ⟨upper, rfl, hlu, le_refl _⟩

/-- Function `advanceUntil` returns for every array content, within the step
budgets, a position behind `pos` and not behind `length`. -/
theorem advanceUntil_total (array : Int → Nat) (pos length : Int) (min : Nat)
    (hpos : -1 ≤ pos) (hpl : pos < length) (hlen : length ≤ 1073741824) :
    ∃ j, advanceUntil array pos length min = some j ∧ pos < j ∧ j ≤ length := by
  unfold advanceUntil
  by_cases hc : pos + 1 ≥ length ∨ array (pos + 1) ≥ min
  · simp only [hc, if_true]
    exact ⟨pos + 1, rfl, by omega, by omega⟩
  · simp only [hc, if_false]
    have hl1 : pos + 1 < length := by
      by_contra h; exact hc (Or.inl (by omega))
    have hl2 : array (pos + 1) < min := by
      by_contra h; exact hc (Or.inr (by omega))
    have e0 : pos + 1 + 1 / 2 = pos + 1 := by omega
    obtain ⟨sp, e, s1, s2, s3, s4⟩ := advanceUntil_span_spec array (pos + 1) length min hlen
      (by omega) (length.toNat + 1) 1 (le_refl 1) (by rw [e0]; exact hl1)
      (by rw [e0]; exact hl2) (by omega) (by omega)
    rw [e]
    dsimp only
    by_cases hA : pos + 1 + sp < length
    · rw [if_pos hA]
      by_cases he : array (pos + 1 + sp) = min
      · rw [if_pos he]
        exact ⟨_, rfl, by omega, by omega⟩
      · rw [if_neg he]
        by_cases hlt : array (pos + 1 + sp) < min
        · exact absurd ⟨hA, hlt⟩ s4
        · rw [if_neg hlt]
          obtain ⟨j, ej, a1, a2⟩ := advanceUntil_bisect_total array min (length.toNat + 1)
            (pos + 1 + sp / 2) (pos + 1 + sp) (by omega) (by omega)
          exact ⟨j, ej, by omega, by omega⟩
    · rw [if_neg hA]
      by_cases he : array (length - 1) = min
      · rw [if_pos he]
        exact ⟨_, rfl, by omega, by omega⟩
      · rw [if_neg he]
        by_cases hlt : array (length - 1) < min
        · rw [if_pos hlt]
          exact ⟨length, rfl, by omega, le_refl _⟩
        · rw [if_neg hlt]
          have hne2 : pos + 1 + sp / 2 ≠ length - 1 := by
            intro heq
            rw [heq] at s3
            exact hlt s3
          obtain ⟨j, ej, a1, a2⟩ := advanceUntil_bisect_total array min (length.toNat + 1)
            (pos + 1 + sp / 2) (length - 1) (by omega) (by omega)
          exact ⟨j, ej, by omega, by omega⟩

/-- C27: for every array (no order of its elements is needed) of length
`0 ≤ length ≤ 65536`, every `pos` with `-1 ≤ pos < length` and every `min`,
`advanceUntil` returns: the doubling loop stops within `length + 1` steps with
a span of at least 1 whose probe is behind the array or not below `min`; the
bisection loop, when it is entered, starts with `lower < upper`, every
iteration leaves a strictly smaller bracket `lower < mid < upper`, and it
returns within `upper - lower` steps. -/
theorem C27_advanceUntil_terminates (array : Int → Nat) (pos length : Int) (min : Nat)
    (hl0 : 0 ≤ length) (hl : length ≤ 65536) (hpos : -1 ≤ pos) (hpl : pos < length) :
    (∃ j, advanceUntil array pos length min = some j ∧ pos < j ∧ j ≤ length) ∧
    (pos + 1 < length → array (pos + 1) < min →
      ∃ sp, advanceUntil_span array (pos + 1) length min (length.toNat + 1) 1 = some sp ∧
        1 ≤ sp ∧ ¬ (pos + 1 + sp < length ∧ array (pos + 1 + sp) < min) ∧
        (¬ array (if pos + 1 + sp < length then pos + 1 + sp else length - 1) = min →
          ¬ array (if pos + 1 + sp < length then pos + 1 + sp else length - 1) < min →
          pos + 1 + sp / 2 < (if pos + 1 + sp < length then pos + 1 + sp else length - 1))) ∧
    (∀ lower upper : Int, lower < upper → lower + 1 ≠ upper →
      lower < (lower + upper) / 2 ∧ (lower + upper) / 2 < upper) ∧
    (∀ (fuel : Nat) (lower upper : Int), lower < upper → upper - lower ≤ fuel →
      ∃ j, advanceUntil_bisect array min fuel lower upper = some j ∧ lower < j ∧ j ≤ upper) := by
  have _ := hl0
  refine ⟨advanceUntil_total array pos length min hpos hpl (by omega), ?_, ?_,
    advanceUntil_bisect_total array min⟩
  · intro hl1 hl2
    have e0 : pos + 1 + 1 / 2 = pos + 1 := by omega
    obtain ⟨sp, e, s1, s2, s3, s4⟩ := advanceUntil_span_spec array (pos + 1) length min
      (by omega) (by omega) (length.toNat + 1) 1 (le_refl 1) (by rw [e0]; exact hl1)
      (by rw [e0]; exact hl2) (by omega) (by omega)
    refine ⟨sp, e, s1, s4, ?_⟩
    intro hne hnlt
    by_cases hA : pos + 1 + sp < length
    · rw [if_pos hA]; omega
    · rw [if_neg hA]
      rw [if_neg hA] at hnlt
      have hne2 : pos + 1 + sp / 2 ≠ length - 1 := by
        intro heq
        rw [heq] at s3
        exact hnlt s3
      omega
  · intro lower upper h1 h2
    constructor <;> omega

/-- Witness of C27 on `[1, 3, 5, 7, 9]`, from position -1, for the bound 8. -/
theorem C27_advanceUntil_terminates_witness :
    advanceUntil (bufOf [1, 3, 5, 7, 9] 0) (-1) 5 8 = some 4 ∧
    ∃ j, advanceUntil (bufOf [1, 3, 5, 7, 9] 0) (-1) 5 8 = some j ∧ -1 < j ∧ j ≤ 5 :=
  ⟨by decide,
   (C27_advanceUntil_terminates (bufOf [1, 3, 5, 7, 9] 0) (-1) 5 8 (by decide) (by decide)
     (by decide) (by decide)).1⟩

/-! ## Claim C28: the reads of the galloping intersection stay in bounds -/

/-- A read inside the bounds returns the slot. -/
theorem read_eq (array : Int → Nat) (length i : Int) (h0 : 0 ≤ i) (h1 : i < length) :
    read array length i = some (array i) := by
  unfold read
  rw [if_pos ⟨h0, h1⟩]

/-- The doubling loop of `advanceUntil` never reads out of bounds: with checked
reads it computes what the unchecked loop computes. -/
theorem advanceUntil_span_checked_eq (array : Int → Nat) (lower length : Int) (min : Nat)
    (hlen : length ≤ 1073741824) (hlow : 0 ≤ lower) (fuel : Nat) :
    ∀ spansize : Int, 1 ≤ spansize →
      advanceUntil_span_checked array lower length min fuel spansize
        = advanceUntil_span array lower length min fuel spansize := by
  induction fuel with
  | zero => intro spansize _; rfl
  | succ fuel ih =>
    intro spansize hs
    unfold advanceUntil_span_checked advanceUntil_span
    by_cases h1 : lower + spansize < length
    · rw [if_pos h1, read_eq array length _ (by omega) h1]
      dsimp only
      have hw : wrap32 (spansize * 2) = spansize * 2 := wrap32_eq _ (by omega) (by omega)
      by_cases h2 : array (lower + spansize) < min
      · rw [if_pos h2, if_pos ⟨h1, h2⟩]
        exact ih _ (by rw [hw]; omega)
      · rw [if_neg h2, if_neg (fun h => h2 h.2)]
    · rw [if_neg h1, if_neg (fun h => h1 h.1)]

/-- The bisection loop of `advanceUntil`, entered with
`0 ≤ lower < upper < length`, never reads out of bounds. -/
theorem advanceUntil_bisect_checked_eq (array : Int → Nat) (length : Int) (min : Nat)
    (fuel : Nat) :
    ∀ lower upper : Int, 0 ≤ lower → lower < upper → upper < length →
      advanceUntil_bisect_checked array length min fuel lower upper
        = advanceUntil_bisect array min fuel lower upper := by
  induction fuel with
  | zero => intro _ _ _ _ _; rfl
  | succ fuel ih =>
    intro lower upper h0 h1 h2
    unfold advanceUntil_bisect_checked advanceUntil_bisect
    by_cases hc : lower + 1 ≠ upper
    · rw [if_pos hc, if_pos hc]
      dsimp only
      rw [read_eq array length _ (by omega) (by omega)]
      dsimp only
      rw [ih _ upper (by omega) (by omega) h2, ih lower _ h0 (by omega) (by omega)]
    · rw [if_neg hc, if_neg hc]

/-- Function `advanceUntil` never reads out of bounds, whatever the array
holds. -/
theorem advanceUntil_checked_eq (array : Int → Nat) (pos length : Int) (min : Nat)
    (hpos : -1 ≤ pos) (hlen : length ≤ 1073741824) :
    advanceUntil_checked array pos length min = advanceUntil array pos length min := by
  unfold advanceUntil_checked advanceUntil
  dsimp only
  by_cases h1 : pos + 1 ≥ length
  · rw [if_pos h1, if_pos (Or.inl h1)]
  · rw [if_neg h1, read_eq array length _ (by omega) (by omega)]
    dsimp only
    by_cases h2 : array (pos + 1) ≥ min
    · rw [if_pos h2, if_pos (Or.inr h2)]
    · rw [if_neg h2, if_neg (by rintro (h | h); exact h1 h; exact h2 h)]
      rw [advanceUntil_span_checked_eq array (pos + 1) length min hlen (by omega) _ 1 (le_refl 1)]
      have e0 : pos + 1 + 1 / 2 = pos + 1 := by omega
      obtain ⟨sp, e, s1, s2, s3, s4⟩ := advanceUntil_span_spec array (pos + 1) length min hlen
        (by omega) (length.toNat + 1) 1 (le_refl 1) (by rw [e0]; omega)
        (by rw [e0]; omega) (by omega) (by omega)
      rw [e]
      dsimp only
      by_cases hA : pos + 1 + sp < length
      · rw [if_pos hA, read_eq array length _ (by omega) hA]
        dsimp only
        by_cases he : array (pos + 1 + sp) = min
        · rw [if_pos he, if_pos he]
        · rw [if_neg he, if_neg he]
          by_cases hlt : array (pos + 1 + sp) < min
          · rw [if_pos hlt, if_pos hlt]
          · rw [if_neg hlt, if_neg hlt]
            exact advanceUntil_bisect_checked_eq array length min _ _ _ (by omega) (by omega) hA
      · rw [if_neg hA, read_eq array length _ (by omega) (by omega)]
        dsimp only
        by_cases he : array (length - 1) = min
        · rw [if_pos he, if_pos he]
        · rw [if_neg he, if_neg he]
          by_cases hlt : array (length - 1) < min
          · rw [if_pos hlt, if_pos hlt]
          · rw [if_neg hlt, if_neg hlt]
            have hne2 : pos + 1 + sp / 2 ≠ length - 1 := by
              intro heq
              rw [heq] at s3
              exact hlt s3
            exact advanceUntil_bisect_checked_eq array length min _ _ _ (by omega) (by omega)
              (by omega)

/-- The loop of `onesidedgallopingintersect2by2`, entered with both cursors
inside their arrays, never reads out of bounds: with checked reads it computes
what the unchecked loop computes. -/
theorem onesidedgallopingintersect2by2_loop_checked_eq (smallset : Int → Nat)
    (lensmallset : Int) (largeset : Int → Nat) (lenlargeset : Int)
    (hlen : lenlargeset ≤ 1073741824) (fuel : Nat) :
    ∀ (buffer : Int → Nat) (pos k1 k2 : Int) (s1 s2 : Nat),
      0 ≤ k1 → k1 < lenlargeset → 0 ≤ k2 → k2 < lensmallset →
      onesidedgallopingintersect2by2_loop_checked smallset lensmallset largeset lenlargeset fuel
          buffer pos k1 k2 s1 s2
        = onesidedgallopingintersect2by2_loop smallset lensmallset largeset lenlargeset fuel
          buffer pos k1 k2 s1 s2 := by
  induction fuel with
  | zero => intro _ _ _ _ _ _ _ _ _ _; rfl
  | succ fuel ih =>
    intro buffer pos k1 k2 s1 s2 hk1 hk1l hk2 hk2l
    have adv : ∀ (k : Int) (m : Nat), 0 ≤ k → k < lenlargeset →
        ∃ j, advanceUntil_checked largeset k lenlargeset m = some j ∧
          advanceUntil largeset k lenlargeset m = some j ∧ 0 ≤ j ∧ j ≤ lenlargeset := by
      intro k m h0 h1
      obtain ⟨j, ej, a1, a2⟩ := advanceUntil_total largeset k lenlargeset m (by omega) h1 hlen
      exact ⟨j, by rw [advanceUntil_checked_eq largeset k lenlargeset m (by omega) hlen, ej],
        ej, by omega, a2⟩
    unfold onesidedgallopingintersect2by2_loop_checked onesidedgallopingintersect2by2_loop
    dsimp only
    by_cases h12 : s1 < s2
    · rw [if_pos h12, if_pos h12]
      obtain ⟨k1, e1, e2, hk1, a2⟩ := adv k1 s2 hk1 hk1l
      rw [e1, e2]
      dsimp only
      by_cases hj : k1 = lenlargeset
      · rw [if_pos hj, if_pos hj]
      · have hk1l : k1 < lenlargeset := by omega
        rw [if_neg hj, if_neg hj, read_eq largeset lenlargeset _ hk1 hk1l]
        dsimp only
        generalize largeset k1 = s1
        by_cases h21 : s2 < s1
        · rw [if_pos h21, if_pos h21]
          by_cases hk : k2 + 1 = lensmallset
          · rw [if_pos hk, if_pos hk]
          · rw [if_neg hk, if_neg hk, read_eq smallset lensmallset _ (by omega) (by omega)]
            dsimp only
            exact ih _ _ _ _ _ _ hk1 hk1l (by omega) (by omega)
        · rw [if_neg h21, if_neg h21]
          by_cases hk : k2 + 1 = lensmallset
          · rw [if_pos hk, if_pos hk]
          · rw [if_neg hk, if_neg hk, read_eq smallset lensmallset _ (by omega) (by omega)]
            dsimp only
            obtain ⟨j, e1, e2, a1, a2⟩ := adv k1 (smallset (k2 + 1)) hk1 hk1l
            rw [e1, e2]
            dsimp only
            by_cases hj : j = lenlargeset
            · rw [if_pos hj, if_pos hj]
            · rw [if_neg hj, if_neg hj, read_eq largeset lenlargeset _ a1 (by omega)]
              dsimp only
              exact ih _ _ _ _ _ _ a1 (by omega) (by omega) (by omega)
    · rw [if_neg h12, if_neg h12]
      dsimp only
      by_cases h21 : s2 < s1
      · rw [if_pos h21, if_pos h21]
        by_cases hk : k2 + 1 = lensmallset
        · rw [if_pos hk, if_pos hk]
        · rw [if_neg hk, if_neg hk, read_eq smallset lensmallset _ (by omega) (by omega)]
          dsimp only
          exact ih _ _ _ _ _ _ hk1 hk1l (by omega) (by omega)
      · rw [if_neg h21, if_neg h21]
        by_cases hk : k2 + 1 = lensmallset
        · rw [if_pos hk, if_pos hk]
        · rw [if_neg hk, if_neg hk, read_eq smallset lensmallset _ (by omega) (by omega)]
          dsimp only
          obtain ⟨j, e1, e2, a1, a2⟩ := adv k1 (smallset (k2 + 1)) hk1 hk1l
          rw [e1, e2]
          dsimp only
          by_cases hj : j = lenlargeset
          · rw [if_pos hj, if_pos hj]
          · rw [if_neg hj, if_neg hj, read_eq largeset lenlargeset _ a1 (by omega)]
            dsimp only
            exact ih _ _ _ _ _ _ a1 (by omega) (by omega) (by omega)

/-- Function `onesidedgallopingintersect2by2`, called with an empty small set
or a non-empty large set, never reads out of bounds. -/
theorem onesidedgallopingintersect2by2_checked_eq (smallset : Int → Nat) (lensmallset : Int)
    (largeset : Int → Nat) (lenlargeset : Int) (buffer : Int → Nat) (hs0 : 0 ≤ lensmallset)
    (hlen : lenlargeset ≤ 1073741824) (hne : lensmallset = 0 ∨ 1 ≤ lenlargeset) :
    onesidedgallopingintersect2by2_checked smallset lensmallset largeset lenlargeset buffer
      = onesidedgallopingintersect2by2 smallset lensmallset largeset lenlargeset buffer := by
  unfold onesidedgallopingintersect2by2_checked onesidedgallopingintersect2by2
  by_cases he : 0 = lensmallset
  · rw [if_pos he, if_pos he]
  · rw [if_neg he, if_neg he, read_eq largeset lenlargeset 0 (le_refl 0) (by omega)]
    dsimp only
    rw [read_eq smallset lensmallset 0 (le_refl 0) (by omega)]
    dsimp only
    exact onesidedgallopingintersect2by2_loop_checked_eq smallset lensmallset largeset
      lenlargeset hlen _ buffer 0 0 0 _ _ (le_refl 0) (by omega) (le_refl 0) (by omega)

/-- C28: when the dispatcher `intersection2by2` of the scalar build selects
the galloping routine, that is `lensmallset * 4 < lenlargeset` for strictly
increasing sequences of 16-bit values, the large set has at least one element,
the dispatcher returns what `onesidedgallopingintersect2by2` returns
(whichever of its two branches made the selection), and every read of the
galloping routine and of its calls to `advanceUntil` is inside the array read:
the routine with bounds-checked reads returns, and returns the result of the
unchecked routine; the same holds for `advanceUntil` from every cursor of the
large set. -/
theorem C28_galloping_reads_in_bounds (smallset : Int → Nat) (lensmallset : Int)
    (largeset : Int → Nat) (lenlargeset : Int) (buffer : Int → Nat) (hs0 : 0 ≤ lensmallset)
    (hS : (prefixOf smallset lensmallset).Pairwise (· < ·))
    (hL : (prefixOf largeset lenlargeset).Pairwise (· < ·))
    (hS16 : ∀ v ∈ prefixOf smallset lensmallset, v < 65536)
    (hL16 : ∀ v ∈ prefixOf largeset lenlargeset, v < 65536)
    (hsel : wrap32 (lensmallset * 4) < lenlargeset) :
    1 ≤ lenlargeset ∧
    intersection2by2 smallset lensmallset largeset lenlargeset buffer
      = onesidedgallopingintersect2by2 smallset lensmallset largeset lenlargeset buffer ∧
    intersection2by2 largeset lenlargeset smallset lensmallset buffer
      = onesidedgallopingintersect2by2 smallset lensmallset largeset lenlargeset buffer ∧
    (∃ r, onesidedgallopingintersect2by2_checked smallset lensmallset largeset lenlargeset
        buffer = some r ∧
      onesidedgallopingintersect2by2 smallset lensmallset largeset lenlargeset buffer
        = some r) ∧
    (∀ (k : Int) (m : Nat), -1 ≤ k → k < lenlargeset →
      ∃ j, advanceUntil_checked largeset k lenlargeset m = some j ∧
        advanceUntil largeset k lenlargeset m = some j ∧ k < j ∧ j ≤ lenlargeset) := by
  have hs : increasing smallset lensmallset := (pairwise_prefixOf _ _).mp hS
  have hl : increasing largeset lenlargeset := (pairwise_prefixOf _ _).mp hL
  have hsb : lensmallset ≤ 65536 := increasing_length_le smallset lensmallset hs
    (fun i h0 hi => hS16 _ ((mem_prefixOf _ _ _).mpr ⟨i, h0, hi, rfl⟩))
  have hlb : lenlargeset ≤ 65536 := increasing_length_le largeset lenlargeset hl
    (fun i h0 hi => hL16 _ ((mem_prefixOf _ _ _).mpr ⟨i, h0, hi, rfl⟩))
  have hw : wrap32 (lensmallset * 4) = lensmallset * 4 := wrap32_eq _ (by omega) (by omega)
  rw [hw] at hsel
  have h1 : 1 ≤ lenlargeset := by omega
  refine ⟨h1, ?_, ?_, ?_, ?_⟩
  · unfold intersection2by2
    dsimp only
    rw [hw, if_pos hsel]
  · unfold intersection2by2
    dsimp only
    have hw2 : wrap32 (lenlargeset * 4) = lenlargeset * 4 := wrap32_eq _ (by omega) (by omega)
    rw [hw, hw2, if_neg (by omega), if_pos hsel]
  · obtain ⟨pos, buf, e, -⟩ := onesidedgallopingintersect2by2_spec smallset lensmallset largeset
      lenlargeset buffer hs0 (by omega) hs hl (by omega) (Or.inr h1)
    refine ⟨(pos, buf), ?_, e⟩
    rw [onesidedgallopingintersect2by2_checked_eq smallset lensmallset largeset lenlargeset
      buffer hs0 (by omega) (Or.inr h1), e]
  · intro k m hk0 hkl
    obtain ⟨j, ej, a1, a2⟩ := advanceUntil_total largeset k lenlargeset m hk0 hkl (by omega)
    exact ⟨j, by rw [advanceUntil_checked_eq largeset k lenlargeset m hk0 (by omega), ej], ej,
      a1, a2⟩

/-- Witness of C28: the small set `[3, 40000]` against the nine multiples of 3
from 3 to 27. -/
theorem C28_galloping_reads_in_bounds_witness :
    observed (onesidedgallopingintersect2by2_checked (bufOf [3, 40000] 0) 2
      (bufOf [3, 6, 9, 12, 15, 18, 21, 24, 27] 0) 9 (bufOf [] 0)) = some (1, [3]) ∧
    1 ≤ (9 : Int) ∧
    ∃ r, onesidedgallopingintersect2by2_checked (bufOf [3, 40000] 0) 2
        (bufOf [3, 6, 9, 12, 15, 18, 21, 24, 27] 0) 9 (bufOf [] 0) = some r ∧
      onesidedgallopingintersect2by2 (bufOf [3, 40000] 0) 2
        (bufOf [3, 6, 9, 12, 15, 18, 21, 24, 27] 0) 9 (bufOf [] 0) = some r :=
  ⟨by decide,
   (C28_galloping_reads_in_bounds (bufOf [3, 40000] 0) 2
     (bufOf [3, 6, 9, 12, 15, 18, 21, 24, 27] 0) 9 (bufOf [] 0) (by decide) (by decide)
     (by decide) (by decide) (by decide) (by decide)).1,
   (C28_galloping_reads_in_bounds (bufOf [3, 40000] 0) 2
     (bufOf [3, 6, 9, 12, 15, 18, 21, 24, 27] 0) 9 (bufOf [] 0) (by decide) (by decide)
     (by decide) (by decide) (by decide) (by decide)).2.2.2.1⟩

/-! ## Claims C23 and C24: the routines of the build with `USEAVX` -/

set_option maxRecDepth 100000 in
/-- The batch loop of `intersect_vector16` on two full batches: the common
values of `[1 .. 8]` and `[2, 4 .. 16]` are compacted to the front of the
output through `shuffle_mask16`. -/
theorem intersect_vector16_batch_example :
    observed (intersect_vector16 (bufOf [1, 2, 3, 4, 5, 6, 7, 8] 0) 8
      (bufOf [2, 4, 6, 8, 10, 12, 14, 16] 0) 8 (bufOf [] 0)) = some (4, [2, 4, 6, 8]) := by
  decide

/-- C23, code defect: the scalar tail of `intersect_vector16` declares its two
elements `int16_t`, so 40000 is compared as -25536. On `A = [1, 40000]` and
`B = [40000]`, which the tail handles alone, the routine returns 0 and writes
nothing, where `localintersect2by2` returns 1 and writes `[40000]`; the
dispatcher of the build with `USEAVX` reaches the same tail on
`[1, 40000]` and `[2, 40000]` and returns 0, where the scalar dispatcher
returns 1 and `[40000]`. The tail of `intersectV1avx_vector16` compares
`uint16_t` values and finds the common value. -/
theorem C23_vector16_tail_compares_signed :
    observed (intersect_vector16 (bufOf [1, 40000] 0) 2 (bufOf [40000] 0) 1 (bufOf [] 0))
      = some (0, []) ∧
    observed (localintersect2by2 (bufOf [1, 40000] 0) 2 (bufOf [40000] 0) 1 (bufOf [] 0))
      = some (1, [40000]) ∧
    toInt16 40000 = -25536 ∧
    observed (intersection2by2_avx (bufOf [1, 40000] 0) 2 (bufOf [2, 40000] 0) 2 (bufOf [] 0))
      = some (0, []) ∧
    observed (intersection2by2 (bufOf [1, 40000] 0) 2 (bufOf [2, 40000] 0) 2 (bufOf [] 0))
      = some (1, [40000]) ∧
    observed (intersectV1avx_vector16 (bufOf [1, 40000] 0) 2 (bufOf [40000] 0) 1 (bufOf [] 0))
      = some (1, [40000]) := by
  decide

/-- C24, code defect: the batch loops of `intersectV1avx_vector16` and
`intersectV2avx_vector16` add the match to `count` before the store
`C[count] = a`. On `A = [5]` and `B = [0, 1, .. , 31]` the first routine
returns 1 with the 5 in `C[1]`, and `C[0]` keeps what it held before the call
(0, or 77); the second routine does the same on `B = [0, 1, .. , 63]`, and so
does the dispatcher of the build with `USEAVX`, which selects the first
routine for these lengths. `localintersect2by2` returns 1 with `C[0] = 5`. -/
theorem C24_batch_loop_stores_behind_count :
    observed (intersectV1avx_vector16 (bufOf [5] 0) 1 (bufOf (List.range 32) 0) 32
      (bufOf [] 0)) = some (1, [0]) ∧
    observed (intersectV1avx_vector16 (bufOf [5] 0) 1 (bufOf (List.range 32) 0) 32
      (bufOf [77] 0)) = some (1, [77]) ∧
    (intersectV1avx_vector16 (bufOf [5] 0) 1 (bufOf (List.range 32) 0) 32
      (bufOf [] 0)).map (fun r => r.2 1) = some 5 ∧
    observed (intersectV2avx_vector16 (bufOf [5] 0) 1 (bufOf (List.range 64) 0) 64
      (bufOf [] 0)) = some (1, [0]) ∧
    (intersectV2avx_vector16 (bufOf [5] 0) 1 (bufOf (List.range 64) 0) 64
      (bufOf [] 0)).map (fun r => r.2 1) = some 5 ∧
    observed (intersection2by2_avx (bufOf [5] 0) 1 (bufOf (List.range 32) 0) 32
      (bufOf [] 0)) = some (1, [0]) ∧
    observed (localintersect2by2 (bufOf [5] 0) 1 (bufOf (List.range 32) 0) 32
      (bufOf [] 0)) = some (1, [5]) := by
  decide

end CRoaring
